import Mathlib

/-!
The trade session of the game server (`src/game-server/trade.cpp`).

A shallow embedding of `Trade` (constructor, destructor, `cancel`, `request`,
`performTrade`, `accept`, `addItem`) as state-passing functions over a `World`
that holds the heap of live `Trade` objects, every character's possessions and
session back-reference, and the log of messages handed to clients.

The callback `chr_inv_change` of the scripting bridge (`src/scripting/lua.cpp`)
is embedded the same way, over possessions that hold a currency counter.

The classes `Character`, `Inventory`, `ItemManager` and `MessageOut` and the
header `trade.hpp` are used by these files but are not part of the sources at
hand.  What the embedding needs of them is either a parameter (`Env`,
`ScriptEnv`) or a definition whose doc comment says that it is modelled from the
specification.
-/

namespace Manaserv

/-- Identity of a `Character` object, that is the value of a `Character *`. -/
abbrev CharId := Nat

/-- Address of a `Trade` object, that is the value of a `Trade *`. -/
abbrev TradeId := Nat

/-- The state tag `mState` of a trade session. -/
inductive TradeState where
  | TRADE_INIT
  | TRADE_RUN
  | TRADE_EXIT
  deriving DecidableEq, Repr

/-- An offer entry `TradedItem { id, slot, amount }`; the fields hold the values
read back from the entry, as integers. -/
structure TradedItem where
  id : Int
  slot : Int
  amount : Int
  deriving DecidableEq, Repr

/-- The offer list type `TradedItems`, entries in the order of `push_back`. -/
abbrev TradedItems := List TradedItem

/-- Message identifiers used by `trade.cpp`. -/
inductive MsgId where
  | GPMSG_TRADE_REQUEST
  | GPMSG_TRADE_CANCEL
  | GPMSG_TRADE_START
  | GPMSG_TRADE_ACCEPT
  | GPMSG_TRADE_ADD_ITEM
  | GPMSG_TRADE_COMPLETE
  deriving DecidableEq, Repr

/-- One field written into a message: its encoded value. -/
inductive Field where
  | short (v : Int)
  | byte (v : Int)
  deriving DecidableEq, Repr

/-- Modelled from the spec: `MessageOut` (net/messageout.hpp is not among the
sources), a message identifier followed by the fields written so far. -/
structure MessageOut where
  id : MsgId
  body : List Field
  deriving DecidableEq, Repr

/-- The constructor `MessageOut msg(id)`. -/
def MessageOut.new (id : MsgId) : MessageOut := { id := id, body := [] }

/-- Modelled from the spec: `MessageOut::writeShort` keeps the low 16 bits of
the value it is given. -/
def MessageOut.writeShort (m : MessageOut) (v : Int) : MessageOut :=
  { m with body := m.body ++ [Field.short (v % 65536)] }

/-- Modelled from the spec: `MessageOut::writeByte` keeps the low 8 bits of the
value it is given. -/
def MessageOut.writeByte (m : MessageOut) (v : Int) : MessageOut :=
  { m with body := m.body ++ [Field.byte (v % 256)] }

/-- The data members of a `Trade` object. -/
structure Trade where
  mChar1 : CharId
  mChar2 : CharId
  mState : TradeState
  mItems1 : TradedItems
  mItems2 : TradedItems
  deriving DecidableEq, Repr

/-- What `trade.cpp` uses from code that is not among the sources, as
parameters.  `L` is the type of a character's possessions (the ledger).
`getItem`, `removeFromSlot` and `insert` are the methods of `Inventory` called by
`performTrade` and `addItem`, acting on the possessions the view works on and
returning the new possessions with the method's `int` result.  `castId`,
`castSlot` and `castAmount` are the conversions from `int` to the field types of
`TradedItem` (declared in `trade.hpp`) made by the initialiser
`TradedItem ti = { id, slot, amount }`. -/
structure Env (L : Type) where
  getPublicID : CharId → Int
  getItem : L → Int → Int
  removeFromSlot : L → Int → Int → L × Int
  insert : L → Int → Int → L × Int
  castId : Int → Int
  castSlot : Int → Int
  castAmount : Int → Int

/-- The part of the server state that `trade.cpp` reads and writes:
`possessions c` is the ledger of character `c`, `trading c` its session
back-reference (`setTrading`), `trades t` the live `Trade` object at address `t`
(`none` when there is none), and `sent` the messages passed to
`getClient()->send`, oldest first, each with its recipient. -/
structure World (L : Type) where
  possessions : CharId → L
  trading : CharId → Option TradeId
  trades : TradeId → Option Trade
  sent : List (CharId × MessageOut)

variable {L : Type}

/-- The call `c->getClient()->send(msg)`. -/
def World.send (w : World L) (c : CharId) (msg : MessageOut) : World L :=
  { w with sent := w.sent ++ [(c, msg)] }

/-- Modelled from the spec: the write of the session back-reference of the
character `c` (character.hpp is not among the sources).  It is all that the call
`c->setTrading(NULL)` does, which releases the back-reference; the call with a
session is `Character.setTrading`, which ends with this write. -/
def World.setTrading (w : World L) (c : CharId) (t : Option TradeId) : World L :=
  { w with trading := fun x => if x = c then t else w.trading x }

/-- Writing the data members of the `Trade` object at address `this`. -/
def World.store (w : World L) (this : TradeId) (tr : Trade) : World L :=
  { w with trades := fun x => if x = this then some tr else w.trades x }

/-- Releasing the storage of the `Trade` object at address `this`. -/
def World.free (w : World L) (this : TradeId) : World L :=
  { w with trades := fun x => if x = this then none else w.trades x }

/-- Modelled from the spec: the `Inventory` transaction view (inventory.hpp is
not among the sources).  A view opened on a character works on a staged copy
`mPoss` of that character's possessions. -/
structure Inventory (L : Type) where
  mClient : CharId
  mPoss : L

/-- Modelled from the spec: `open(character, exclusive)`, the constructor
`Inventory v(c, true)`; the view starts from the character's possessions. -/
def Inventory.open (w : World L) (c : CharId) : Inventory L :=
  { mClient := c, mPoss := w.possessions c }

/-- Modelled from the spec: `cancel()` discards every mutation made through the
view since it was opened and restores the snapshot. -/
def Inventory.cancel (w : World L) (v : Inventory L) : Inventory L :=
  { v with mPoss := w.possessions v.mClient }

/-- Modelled from the spec: when a view goes out of scope its staged
possessions become the character's possessions (absence of cancellation is
commit). -/
def World.commit (w : World L) (v : Inventory L) : World L :=
  { w with possessions := fun x => if x = v.mClient then v.mPoss else w.possessions x }

/-- The statement `delete this`: the destructor `Trade::~Trade` clears both
back-references, then the storage is released. -/
def Trade.dtor (w : World L) (this : TradeId) (tr : Trade) : World L :=
  let w := w.setTrading tr.mChar1 none
  let w := w.setTrading tr.mChar2 none
  w.free this

/-- The method `Trade::cancel(c)`; `c = none` is the null pointer.  The result is
`none` when there is no `Trade` object at `this`. -/
def Trade.cancel (w : World L) (this : TradeId) (c : Option CharId) : Option (World L) :=
  match w.trades this with
  | none => none
  | some tr =>
    let msg := MessageOut.new MsgId.GPMSG_TRADE_CANCEL
    let w := if c ≠ some tr.mChar1 then w.send tr.mChar1 msg else w
    let w := if c ≠ some tr.mChar2 then w.send tr.mChar2 msg else w
    some (Trade.dtor w this tr)

/-- Modelled from the spec: the call `c->setTrading(this)` with a session `this`
(character.hpp is not among the sources).  Starting a session for a character
that is already trading first tears the existing session down, as a
cancellation made by that character: when the back-reference of `c` is to
another session `old` that is live, `old->cancel(c)` is performed.  Then the
back-reference of `c` is set to `this`. -/
def Character.setTrading (w : World L) (c : CharId) (this : TradeId) : World L :=
  let w :=
    match w.trading c with
    | none => w
    | some old =>
      if old = this then w
      else
        match Trade.cancel w old (some c) with
        | none => w
        | some w2 => w2
  w.setTrading c (some this)

/-- The constructor `Trade::Trade(c1, c2)` run on the storage at `this`. -/
def Trade.ctor (E : Env L) (w : World L) (this : TradeId) (c1 c2 : CharId) : World L :=
  let w := w.store this
    { mChar1 := c1, mChar2 := c2, mState := TradeState.TRADE_INIT, mItems1 := [], mItems2 := [] }
  let msg := (MessageOut.new MsgId.GPMSG_TRADE_REQUEST).writeShort (E.getPublicID c1)
  let w := w.send c2 msg
  let w := Character.setTrading w c1 this
  Character.setTrading w c2 this

/-- The method `Trade::request(c, id)`, returning its `bool` with the new world. -/
def Trade.request (E : Env L) (w : World L) (this : TradeId) (c : CharId) (id : Int) :
    Option (Bool × World L) :=
  match w.trades this with
  | none => none
  | some tr =>
    if tr.mState ≠ TradeState.TRADE_INIT ∨ c ≠ tr.mChar2 ∨ E.getPublicID tr.mChar1 ≠ id then
      (Trade.cancel w this (some c)).map (fun w => (false, w))
    else
      let tr := { tr with mState := TradeState.TRADE_RUN }
      let w := w.store this tr
      let msg := MessageOut.new MsgId.GPMSG_TRADE_START
      let w := w.send tr.mChar1 msg
      let w := w.send tr.mChar2 msg
      some (true, w)

/-- The function `performTrade(items, inv1, inv2)`: its `bool` together with the
possessions the two views hold afterwards. -/
def performTrade (E : Env L) : TradedItems → L → L → Bool × L × L
  | [], inv1, inv2 => (true, inv1, inv2)
  | i :: rest, inv1, inv2 =>
    if i.id ≠ E.getItem inv1 i.slot then (false, inv1, inv2)
    else
      let r := E.removeFromSlot inv1 i.slot i.amount
      if r.2 ≠ 0 then (false, r.1, inv2)
      else
        let s := E.insert inv2 i.id i.amount
        if s.2 ≠ 0 then (false, r.1, s.1)
        else performTrade E rest r.1 s.1

/-- The condition of `Trade::accept`, negated:
`performTrade(mItems1, v1, v2) && performTrade(mItems2, v2, v1)`, with the
possessions of `v1` and `v2` afterwards.  The second call is not made when the
first returns false. -/
def performBoth (E : Env L) (tr : Trade) (v1 v2 : L) : Bool × L × L :=
  let r := performTrade E tr.mItems1 v1 v2
  if r.1 then
    let s := performTrade E tr.mItems2 r.2.2 r.2.1
    (s.1, s.2.2, s.2.1)
  else (false, r.2.1, r.2.2)

/-- The settlement, that is the body of `Trade::accept` from the declaration of
the two views `v1` and `v2` to its end, for the object `tr` at `this`: both views
are cancelled and the session cancelled when a `performTrade` fails, otherwise
`GPMSG_TRADE_COMPLETE` is sent to both and the session deleted; the views go out
of scope last, `v2` before `v1`. -/
def Trade.settle (E : Env L) (w : World L) (this : TradeId) (tr : Trade) : Option (World L) :=
  let v1 := Inventory.open w tr.mChar1
  let v2 := Inventory.open w tr.mChar2
  let r := performBoth E tr v1.mPoss v2.mPoss
  let v1 := { v1 with mPoss := r.2.1 }
  let v2 := { v2 with mPoss := r.2.2 }
  if r.1 = false then
    let v1 := Inventory.cancel w v1
    let v2 := Inventory.cancel w v2
    (Trade.cancel w this none).map (fun w => (w.commit v2).commit v1)
  else
    let msg := MessageOut.new MsgId.GPMSG_TRADE_COMPLETE
    let w := w.send tr.mChar1 msg
    let w := w.send tr.mChar2 msg
    let w := Trade.dtor w this tr
    some ((w.commit v2).commit v1)

/-- The method `Trade::accept(c)`.  The result is `none` when there is no
`Trade` object at `this` or when the assertion `c == mChar1` fails. -/
def Trade.accept (E : Env L) (w : World L) (this : TradeId) (c : CharId) : Option (World L) :=
  match w.trades this with
  | none => none
  | some tr =>
    if tr.mState = TradeState.TRADE_RUN then
      let tr := if c = tr.mChar2 then
          { tr with mChar1 := tr.mChar2, mChar2 := tr.mChar1,
                    mItems1 := tr.mItems2, mItems2 := tr.mItems1 }
        else tr
      if c ≠ tr.mChar1 then none
      else
        let tr := { tr with mState := TradeState.TRADE_EXIT }
        let w := w.store this tr
        some (w.send tr.mChar2 (MessageOut.new MsgId.GPMSG_TRADE_ACCEPT))
    else if tr.mState ≠ TradeState.TRADE_EXIT ∨ c ≠ tr.mChar2 then some w
    else Trade.settle E w this tr

/-- The method `Trade::addItem(c, slot, amount)`.  The result is `none` when
there is no `Trade` object at `this` or when the assertion `c == mChar2` fails. -/
def Trade.addItem (E : Env L) (w : World L) (this : TradeId) (c : CharId) (slot amount : Int) :
    Option (World L) :=
  match w.trades this with
  | none => none
  | some tr =>
    if tr.mState = TradeState.TRADE_INIT then some w
    else if c ≠ tr.mChar1 ∧ c ≠ tr.mChar2 then none
    else
      let other := if c = tr.mChar1 then tr.mChar2 else tr.mChar1
      let items := if c = tr.mChar1 then tr.mItems1 else tr.mItems2
      if items.length ≥ 50 then some w
      else
        let inv := Inventory.open w c
        let id := E.getItem inv.mPoss slot
        if id = 0 then some (w.commit inv)
        else
          let ti : TradedItem :=
            { id := E.castId id, slot := E.castSlot slot, amount := E.castAmount amount }
          let tr := if c = tr.mChar1 then { tr with mItems1 := tr.mItems1 ++ [ti] }
            else { tr with mItems2 := tr.mItems2 ++ [ti] }
          let msg := ((MessageOut.new MsgId.GPMSG_TRADE_ADD_ITEM).writeShort id).writeByte amount
          let w := w.send other msg
          let tr := { tr with mState := TradeState.TRADE_RUN }
          let w := w.store this tr
          some (w.commit inv)

/-- One thing that happens to the session at a fixed address: a call of one of
its methods, or a write to a character's possessions made by another part of the
server between two calls. -/
inductive Call (L : Type) where
  | request (c : CharId) (id : Int)
  | addItem (c : CharId) (slot amount : Int)
  | accept (c : CharId)
  | cancel (c : Option CharId)
  | setPossessions (c : CharId) (l : L)

/-- Performing one `Call` on the session at `this`.  A method call reaches the
session through a character's back-reference, so none is made once the session
has been deleted. -/
def Trade.call (E : Env L) (w : World L) (this : TradeId) : Call L → Option (World L)
  | Call.setPossessions c l => some (w.commit { mClient := c, mPoss := l })
  | k =>
    match w.trades this with
    | none => some w
    | some _ =>
      match k with
      | Call.request c id => (Trade.request E w this c id).map Prod.snd
      | Call.addItem c slot amount => Trade.addItem E w this c slot amount
      | Call.accept c => Trade.accept E w this c
      | Call.cancel c => Trade.cancel w this c
      | Call.setPossessions c l => some (w.commit { mClient := c, mPoss := l })

/-- Performing a sequence of calls, first to last. -/
def Trade.run (E : Env L) (this : TradeId) : List (Call L) → World L → Option (World L)
  | [], w => some w
  | k :: ks, w => (Trade.call E w this k).bind (Trade.run E this ks)

/-- A call that starts or ends a session: `new Trade(c1, c2)`, with `this` the
address the allocator returns, or `cancel(c)` on the session at `this`. -/
inductive SessionCall where
  | requestTrade (this : TradeId) (c1 c2 : CharId)
  | cancel (this : TradeId) (c : Option CharId)
  deriving DecidableEq, Repr

/-- Performing one `SessionCall`.  The result is `none` for a call that cannot
happen: a construction at an address in use, a method call on no object. -/
def World.sessionCall (E : Env L) (w : World L) : SessionCall → Option (World L)
  | SessionCall.requestTrade this c1 c2 =>
    if (w.trades this).isNone then some (Trade.ctor E w this c1 c2) else none
  | SessionCall.cancel this c => Trade.cancel w this c

/-- Performing a sequence of session calls, first to last. -/
def World.runSessions (E : Env L) : List SessionCall → World L → Option (World L)
  | [], w => some w
  | k :: ks, w => (w.sessionCall E k).bind (World.runSessions E ks)

/-- Every live session is the one both of its participants refer to. -/
def World.oneSessionPerCharacter (w : World L) : Prop :=
  ∀ t tr, w.trades t = some tr → w.trading tr.mChar1 = some t ∧ w.trading tr.mChar2 = some t

/-- The offer list a session holds for the participant `c`. -/
def Trade.itemsOf (tr : Trade) (c : CharId) : TradedItems :=
  if c = tr.mChar1 then tr.mItems1 else tr.mItems2

/-- The participant of a session that is not `c`. -/
def Trade.otherOf (tr : Trade) (c : CharId) : CharId :=
  if c = tr.mChar1 then tr.mChar2 else tr.mChar1

/-- The character on whose behalf a call is made, if any. -/
def Call.caller : Call L → Option CharId
  | Call.request c _ => some c
  | Call.addItem c _ _ => some c
  | Call.accept c => some c
  | Call.cancel c => c
  | Call.setPossessions _ _ => none

/-- Both offer lists of a session hold at most 50 entries. -/
def Trade.withinLimit (tr : Trade) : Prop :=
  tr.mItems1.length ≤ 50 ∧ tr.mItems2.length ≤ 50

instance (tr : Trade) : Decidable tr.withinLimit := by
  unfold Trade.withinLimit
  exact inferInstance

/-- The two participants of a session are `c1` and `c2`, in either order. -/
def Trade.between (tr : Trade) (c1 c2 : CharId) : Prop :=
  (tr.mChar1 = c1 ∧ tr.mChar2 = c2) ∨ (tr.mChar1 = c2 ∧ tr.mChar2 = c1)

instance (tr : Trade) (c1 c2 : CharId) : Decidable (tr.between c1 c2) := by
  unfold Trade.between
  exact inferInstance

/-- Following the spec's words: the ledger of an offerer once the quantity of
each of its offer entries, in order, has been removed from the entry's slot. -/
def offersRemoved (E : Env L) (items : TradedItems) (l : L) : L :=
  items.foldl (fun acc i => (E.removeFromSlot acc i.slot i.amount).1) l

/-- Following the spec's words: the ledger of a counterpart once the quantity of
each offer entry of the other side, in order, has been inserted under the
entry's item id. -/
def offersInserted (E : Env L) (items : TradedItems) (l : L) : L :=
  items.foldl (fun acc i => (E.insert acc i.id i.amount).1) l

/-- Following the spec's words: the entry at position `k` of an offer list passes
its three steps on the ledgers reached once the entries before it have been
applied, `inv1` being the offerer's ledger and `inv2` the counterpart's: the
offerer's slot holds the entry's item id, the removal of the entry's quantity
from that slot is complete, and its insertion into the counterpart's ledger
leaves no remainder.  A position past the end of the list passes. -/
def entrySucceeds (E : Env L) (items : TradedItems) (inv1 inv2 : L) (k : Nat) : Prop :=
  match items.get? k with
  | none => True
  | some i =>
    i.id = E.getItem (offersRemoved E (items.take k) inv1) i.slot ∧
    (E.removeFromSlot (offersRemoved E (items.take k) inv1) i.slot i.amount).2 = 0 ∧
    (E.insert (offersInserted E (items.take k) inv2) i.id i.amount).2 = 0

instance (E : Env L) (items : TradedItems) (inv1 inv2 : L) (k : Nat) :
    Decidable (entrySucceeds E items inv1 inv2 k) := by
  unfold entrySucceeds
  cases items.get? k with
  | none => exact inferInstanceAs (Decidable True)
  | some i => exact inferInstance

/-- Following the spec's words: every entry of the first participant's list
passes its steps, from the two ledgers as they are before the settlement, and
then every entry of the second participant's list passes its steps, from the
ledgers the first list has left. -/
def settlementSucceeds (E : Env L) (tr : Trade) (v1 v2 : L) : Prop :=
  (∀ k, k < tr.mItems1.length → entrySucceeds E tr.mItems1 v1 v2 k) ∧
  (∀ k, k < tr.mItems2.length →
    entrySucceeds E tr.mItems2 (offersInserted E tr.mItems1 v2) (offersRemoved E tr.mItems1 v1) k)

instance (E : Env L) (tr : Trade) (v1 v2 : L) : Decidable (settlementSucceeds E tr v1 v2) := by
  unfold settlementSucceeds
  exact inferInstance

/-- The data members of the session `tr` once the entry `ti` has been pushed
on the list held for `c` and the state set back to `TRADE_RUN`. -/
def Trade.withEntry (tr : Trade) (c : CharId) (ti : TradedItem) : Trade :=
  { mChar1 := tr.mChar1, mChar2 := tr.mChar2, mState := TradeState.TRADE_RUN,
    mItems1 := if c = tr.mChar1 then tr.mItems1 ++ [ti] else tr.mItems1,
    mItems2 := if c = tr.mChar1 then tr.mItems2 else tr.mItems2 ++ [ti] }

/-- Performing a sequence of calls on the session at `this` while keeping a
record `g` of what has happened: after each call the record is brought up to
date by `upd` from the world before the call, the world after it and the call. -/
def Trade.runWith {G : Type} (E : Env L) (this : TradeId)
    (upd : World L → World L → Call L → G → G) : List (Call L) → World L → G → Option (World L × G)
  | [], w, g => some (w, g)
  | k :: ks, w, g =>
    (Trade.call E w this k).bind (fun w2 => Trade.runWith E this upd ks w2 (upd w w2 k g))

/-- The record kept to follow the lock-in of the first acceptance: the caller of
the latest `accept` that moved the session from `TRADE_RUN` to `TRADE_EXIT`,
with the two offer lists as they were right after it. -/
def lockInRecord (this : TradeId) (w w2 : World L) (k : Call L)
    (g : Option (CharId × TradedItems × TradedItems)) :
    Option (CharId × TradedItems × TradedItems) :=
  match k, w.trades this, w2.trades this with
  | Call.accept c, some tr, some tr2 =>
    if tr.mState = TradeState.TRADE_RUN ∧ tr2.mState = TradeState.TRADE_EXIT then
      some (c, tr2.mItems1, tr2.mItems2)
    else g
  | _, _, _ => g

/-- The record kept to follow who offered what: for each character the entries
recorded by its own `addItem` calls, in order.  A call records an entry when the
session holds one more entry after it than before; the entry is the one
initialised from the item id in the caller's slot, the slot and the amount. -/
def ownerRecord (E : Env L) (this : TradeId) (w w2 : World L) (k : Call L)
    (g : CharId → TradedItems) : CharId → TradedItems :=
  match k, w.trades this, w2.trades this with
  | Call.addItem c slot amount, some tr, some tr2 =>
    if (tr2.mItems1 ++ tr2.mItems2).length = (tr.mItems1 ++ tr.mItems2).length + 1 then
      fun x => if x = c then
          g c ++ [{ id := E.castId (E.getItem (w.possessions c) slot), slot := E.castSlot slot,
                    amount := E.castAmount amount }]
        else g x
    else g
  | _, _, _ => g

/-! ## The inventory callback of the scripting bridge (`src/scripting/lua.cpp`) -/

/-- Modelled from the spec: the possessions of a character (character.hpp is not
among the sources), a currency counter beside the item slots; `lua.cpp` reads the
counter as `getPossessions().money`.  `I` is the type of the item slots. -/
structure Possessions (I : Type) where
  money : Int
  inventory : I

/-- Modelled from the spec: `Inventory::changeMoney` (inventory.hpp is not among
the sources), the spec's `changeCurrency(delta)`: false and no effect if the
result would go negative, otherwise applies and returns true. -/
def Inventory.changeMoney {I : Type} (v : Inventory (Possessions I)) (delta : Int) :
    Inventory (Possessions I) × Bool :=
  if v.mPoss.money + delta < 0 then (v, false)
  else ({ v with mPoss := { v.mPoss with money := v.mPoss.money + delta } }, true)

/-- An item put on a map: `new Item(ic, nb)` followed by `setMap` and
`setPosition`. -/
structure Item where
  itemClass : Nat
  amount : Int
  map : Nat
  position : Int × Int
  deriving DecidableEq, Repr

/-- What `chr_inv_change` uses from code that is not among the sources, as
parameters: the methods `Inventory::remove(id, amount)` and
`Inventory::insert(id, amount)`, acting on the possessions the view works on and
returning the new possessions with the method's `int` result;
`ItemManager::getItem(id)`, the item class or `none` for the null pointer; and
the map and position of a character. -/
structure ScriptEnv (I : Type) where
  remove : Possessions I → Int → Int → Possessions I × Int
  insert : Possessions I → Int → Int → Possessions I × Int
  itemManagerGetItem : Int → Option Nat
  getMap : CharId → Nat
  getPosition : CharId → Int × Int

/-- What a run of `chr_inv_change` has done so far: the view `inv` on the
character, the items handed to `GameState::enqueueInsert` and the messages
handed to `raiseScriptError`, which is taken to record the message and return. -/
structure ScriptState (I : Type) where
  inv : Inventory (Possessions I)
  enqueued : List Item
  errors : List String

/-- The loop of `chr_inv_change` over the pairs `(id, nb)` that follow the
character on the Lua stack, with what follows it.  A stack value is `none` when
`lua_isnumber` is false for it and otherwise the `int` read by `lua_tointeger`.
The second component is the boolean pushed for the script, `none` when the
callback returns no value. -/
def chr_inv_change_loop {I : Type} (S : ScriptEnv I) (w : World (Possessions I)) (q : CharId) :
    List (Option Int) → ScriptState I → ScriptState I × Option Bool
  | a :: b :: rest, st =>
    match a, b with
    | some id, some nb =>
      if id = 0 then
        let r := st.inv.changeMoney nb
        if r.2 = false then ({ st with inv := Inventory.cancel w r.1 }, some false)
        else chr_inv_change_loop S w q rest { st with inv := r.1 }
      else if nb < 0 then
        let r := S.remove st.inv.mPoss id (-nb)
        if r.2 ≠ 0 then
          ({ st with inv := Inventory.cancel w { st.inv with mPoss := r.1 } }, some false)
        else chr_inv_change_loop S w q rest { st with inv := { st.inv with mPoss := r.1 } }
      else
        match S.itemManagerGetItem id with
        | none =>
          chr_inv_change_loop S w q rest
            { st with errors := st.errors ++ ["chr_inv_change called with an unknown item."] }
        | some ic =>
          let r := S.insert st.inv.mPoss id nb
          if r.2 ≠ 0 then
            chr_inv_change_loop S w q rest
              { st with
                inv := { st.inv with mPoss := r.1 }
                enqueued := st.enqueued ++
                  [{ itemClass := ic, amount := r.2, map := S.getMap q,
                     position := S.getPosition q }] }
          else chr_inv_change_loop S w q rest { st with inv := { st.inv with mPoss := r.1 } }
    | _, _ =>
      ({ st with errors := st.errors ++ ["chr_inv_change called with incorrect parameters."] },
        none)
  | _, st => (st, some true)

/-- The outcome of a call of `chr_inv_change`: the world once the view has gone
out of scope, the items enqueued for insertion on a map, the script errors
raised, and the boolean pushed for the script (`none` when no value is
returned). -/
structure ScriptResult (I : Type) where
  world : World (Possessions I)
  enqueued : List Item
  errors : List String
  pushed : Option Bool

/-- The callback `chr_inv_change`; `q` is the result of `getCharacter(s, 1)`,
`none` for the null pointer, and `args` are the stack values after the
character. -/
def chr_inv_change {I : Type} (S : ScriptEnv I) (w : World (Possessions I)) (q : Option CharId)
    (args : List (Option Int)) : ScriptResult I :=
  match q with
  | none =>
    { world := w, enqueued := [],
      errors := ["chr_inv_change called with incorrect parameters."], pushed := none }
  | some q =>
    let r := chr_inv_change_loop S w q args
      { inv := Inventory.open w q, enqueued := [], errors := [] }
    { world := w.commit r.1.inv, enqueued := r.1.enqueued, errors := r.1.errors, pushed := r.2 }

/-- The stack values of a call of `chr_inv_change` whose arguments after the
character are the pairs `(id, nb)`, all of them numbers. -/
def argsOf : List (Int × Int) → List (Option Int)
  | [] => []
  | p :: ps => some p.1 :: some p.2 :: argsOf ps

/-- Following the doc comment of `chr_inv_change`: the pair `(id, nb)` fails on
the view `v`, being a money change (`id = 0`) that is refused or a removal
(`nb < 0`) that is incomplete. -/
def pairFails {I : Type} (S : ScriptEnv I) (v : Inventory (Possessions I)) (p : Int × Int) :
    Prop :=
  (p.1 = 0 ∧ (v.changeMoney p.2).2 = false) ∨
    (p.1 ≠ 0 ∧ p.2 < 0 ∧ (S.remove v.mPoss p.1 (-p.2)).2 ≠ 0)

instance {I : Type} (S : ScriptEnv I) (v : Inventory (Possessions I)) (p : Int × Int) :
    Decidable (pairFails S v p) := by
  unfold pairFails
  exact inferInstance

/-- Following the doc comment of `chr_inv_change`: the view once the pair
`(id, nb)` has been applied to `v`: the money changed when the identifier is
zero, the items removed for a negative amount, and otherwise the items of a
known class inserted as far as they fit. -/
def pairApplied {I : Type} (S : ScriptEnv I) (v : Inventory (Possessions I)) (p : Int × Int) :
    Inventory (Possessions I) :=
  if p.1 = 0 then (v.changeMoney p.2).1
  else if p.2 < 0 then { v with mPoss := (S.remove v.mPoss p.1 (-p.2)).1 }
  else if (S.itemManagerGetItem p.1).isSome then { v with mPoss := (S.insert v.mPoss p.1 p.2).1 }
  else v

/-- Modelled from the spec: `insert(itemId, quantity)` returns the quantity that
could not be placed, so the quantity an insertion has placed is the quantity
asked for minus that result. -/
def ScriptEnv.placed {I : Type} (S : ScriptEnv I) (p : Possessions I) (id nb : Int) : Int :=
  nb - (S.insert p id nb).2

/-! ## The command handler (`src/game-server/commandhandler.cpp`)

A `std::string` is the list of its characters.  `std::string::npos`, the value
`find` returns when there is no match and the length that stands for "up to the
end", is `none`: it is the largest `size_type`, above every index of a string. -/

/-- The space character of `find(' ')`. -/
def space : Char := Char.ofNat 32

/-- The call `s.find(ch)`: the index of the first `ch` in `s`, `none` for
`std::string::npos`. -/
def strFind : List Char → Char → Option Nat
  | [], _ => none
  | x :: xs, ch => if x = ch then some 0 else (strFind xs ch).map (fun p => p + 1)

/-- The call `s.substr(pos, len)` and the constructor `std::string(s, pos, len)`:
the characters of `s` from index `pos` on, at most `len` of them (`none` for
`npos`: all of them).  The result is `none` when `std::out_of_range` is thrown,
that is when `pos` is larger than the size of `s`. -/
def strSubstr (s : List Char) (pos : Nat) (len : Option Nat) : Option (List Char) :=
  if pos > s.length then none
  else
    match len with
    | none => some (s.drop pos)
    | some n => some ((s.drop pos).take n)

/-- The function `getArgument(args)`: the `std::string` it returns and the value
it leaves in `args`; `none` when a `substr` throws. -/
def getArgument (args : List Char) : Option (List Char × List Char) :=
  match strFind args space with
  | some pos =>
    (strSubstr args 0 (some pos)).bind (fun argument =>
      (strSubstr args (pos + 1) none).map (fun rest => (argument, rest)))
  | none => (strSubstr args 0 none).map (fun argument => (argument, []))

/-- The constants `AL_PLAYER`, `AL_TESTER`, `AL_GM`, `AL_DEV` and `AL_ADMIN` of
`defines.h`, a header that is not among the sources: they are parameters. -/
structure AccountLevels where
  AL_PLAYER : Nat
  AL_TESTER : Nat
  AL_GM : Nat
  AL_DEV : Nat
  AL_ADMIN : Nat

/-- The handlers `handleCommand` calls. -/
inductive Handler where
  | handleHelp
  | handleWarp
  | handleItem
  | handleDrop
  | handleMoney
  | handleSpawn
  | handleGoto
  | handleRecall
  | handleReload
  | handleBan
  | handleSetGroup
  | handleAttribute
  | handleReport
  deriving DecidableEq, Repr

/-- What the command handler does that can be observed: `say(msg, player)`,
which sends `msg` to the player, and the call of a handler with the string
`args` (`none` for `handleReload`, which takes no string). -/
inductive Effect where
  | say (msg : String)
  | call (h : Handler) (args : Option (List Char))
  deriving DecidableEq, Repr

/-- The function `handlePermissions(player, permissions)`: its `bool` and what it
says.  `level` is the value of `player->getAccountLevel()`. -/
def handlePermissions (level permissions : Nat) : Bool × List Effect :=
  if (level &&& permissions) ≠ 0 then (true, [])
  else (false, [Effect.say "Invalid permissions"])

/-- The function `handleHelp(player, args)`: what it says to a player of account
level `level`. -/
def handleHelp (AL : AccountLevels) (level : Nat) (args : List Char) : List Effect :=
  if args = [] then
    (if (level &&& AL.AL_PLAYER) ≠ 0 then
        [Effect.say "Game Master Commands:", Effect.say "@help [command]",
         Effect.say "@report <bug>"]
      else [])
    ++ (if (level &&& AL.AL_TESTER) ≠ 0 then
        [Effect.say "@warp <character> <map> <x> <y>", Effect.say "@goto <character>"]
      else [])
    ++ (if (level &&& AL.AL_GM) ≠ 0 then
        [Effect.say "@recall <character>", Effect.say "@ban <character> <length of time>"]
      else [])
    ++ (if (level &&& AL.AL_DEV) ≠ 0 then
        [Effect.say "@item <character> <item id> <amount>", Effect.say "@drop <item id> <amount>",
         Effect.say "@money <character> <amount>", Effect.say "@spawn <monster id> <number>",
         Effect.say "@attribute <character> <attribute> <value>"]
      else [])
    ++ (if (level &&& AL.AL_ADMIN) ≠ 0 then
        [Effect.say "Administrator Commands", Effect.say "@reload",
         Effect.say "@setgroup <character> <AL level>"]
      else [])
  else []

/-- The local `type` of `handleCommand`, `std::string type(command, 1, pos ==
npos ? pos : pos - 1)` with `pos = command.find(' ')`.  When `pos` is 0 the
unsigned `pos - 1` wraps around to `npos`. -/
def commandType (command : List Char) : Option (List Char) :=
  match strFind command space with
  | none => strSubstr command 1 none
  | some 0 => strSubstr command 1 none
  | some (p + 1) => strSubstr command 1 (some p)

/-- The local `args` of `handleCommand`, `std::string args(command, pos == npos
? command.size() : pos + 1)`. -/
def commandArgs (command : List Char) : Option (List Char) :=
  match strFind command space with
  | none => strSubstr command command.length none
  | some pos => strSubstr command (pos + 1) none

/-- One branch of `handleCommand`: `if (handlePermissions(player, permissions))
handler(player, args);`. -/
def permitted (level permissions : Nat) (h : Handler) (args : Option (List Char)) :
    List Effect :=
  let r := handlePermissions level permissions
  if r.1 then r.2 ++ [Effect.call h args] else r.2

/-- The chain of tests `handleCommand` makes on its locals `type` and `args`,
under the comment "handle the command". -/
def dispatch (AL : AccountLevels) (level : Nat) (type args : List Char) : List Effect :=
  if type = "help".toList then
    permitted level AL.AL_PLAYER Handler.handleHelp (some args)
  else if type = "warp".toList then
    permitted level AL.AL_TESTER Handler.handleWarp (some args)
  else if type = "item".toList then
    permitted level AL.AL_DEV Handler.handleItem (some args)
  else if type = "drop".toList then
    permitted level AL.AL_DEV Handler.handleDrop (some args)
  else if type = "money".toList then
    permitted level AL.AL_DEV Handler.handleMoney (some args)
  else if type = "spawn".toList then
    permitted level AL.AL_DEV Handler.handleSpawn (some args)
  else if type = "goto".toList then
    permitted level AL.AL_TESTER Handler.handleGoto (some args)
  else if type = "recall".toList then
    permitted level AL.AL_GM Handler.handleRecall (some args)
  else if type = "reload".toList then
    permitted level AL.AL_ADMIN Handler.handleReload none
  else if type = "ban".toList then
    permitted level AL.AL_GM Handler.handleBan (some args)
  else if type = "setgroup".toList then
    permitted level AL.AL_ADMIN Handler.handleSetGroup (some args)
  else if type = "attribute".toList then
    permitted level AL.AL_DEV Handler.handleAttribute (some args)
  else if type = "report".toList then
    permitted level AL.AL_PLAYER Handler.handleReport (some args)
  else [Effect.say "command not found"]

/-- The method `CommandHandler::handleCommand(player, command)` for a player of
account level `level`: what it does, or `none` when the construction of `type`
or of `args` throws. -/
def handleCommand (AL : AccountLevels) (level : Nat) (command : List Char) :
    Option (List Effect) :=
  (commandType command).bind (fun type =>
    (commandArgs command).map (fun args => dispatch AL level type args))

/-- Following the spec's words: the name of the command a handler serves. -/
def Handler.command : Handler → List Char
  | Handler.handleHelp => "help".toList
  | Handler.handleWarp => "warp".toList
  | Handler.handleItem => "item".toList
  | Handler.handleDrop => "drop".toList
  | Handler.handleMoney => "money".toList
  | Handler.handleSpawn => "spawn".toList
  | Handler.handleGoto => "goto".toList
  | Handler.handleRecall => "recall".toList
  | Handler.handleReload => "reload".toList
  | Handler.handleBan => "ban".toList
  | Handler.handleSetGroup => "setgroup".toList
  | Handler.handleAttribute => "attribute".toList
  | Handler.handleReport => "report".toList

/-- Following the spec's words: the permission under which the help text lists
the command of a handler (help, report: `AL_PLAYER`; warp, goto: `AL_TESTER`;
recall, ban: `AL_GM`; item, drop, money, spawn, attribute: `AL_DEV`; reload,
setgroup: `AL_ADMIN`). -/
def Handler.listedUnder (AL : AccountLevels) : Handler → Nat
  | Handler.handleHelp => AL.AL_PLAYER
  | Handler.handleReport => AL.AL_PLAYER
  | Handler.handleWarp => AL.AL_TESTER
  | Handler.handleGoto => AL.AL_TESTER
  | Handler.handleRecall => AL.AL_GM
  | Handler.handleBan => AL.AL_GM
  | Handler.handleItem => AL.AL_DEV
  | Handler.handleDrop => AL.AL_DEV
  | Handler.handleMoney => AL.AL_DEV
  | Handler.handleSpawn => AL.AL_DEV
  | Handler.handleAttribute => AL.AL_DEV
  | Handler.handleReload => AL.AL_ADMIN
  | Handler.handleSetGroup => AL.AL_ADMIN

/-- The line of the help text of `handleHelp` that advertises the command of a
handler. -/
def Handler.helpLine : Handler → String
  | Handler.handleHelp => "@help [command]"
  | Handler.handleReport => "@report <bug>"
  | Handler.handleWarp => "@warp <character> <map> <x> <y>"
  | Handler.handleGoto => "@goto <character>"
  | Handler.handleRecall => "@recall <character>"
  | Handler.handleBan => "@ban <character> <length of time>"
  | Handler.handleItem => "@item <character> <item id> <amount>"
  | Handler.handleDrop => "@drop <item id> <amount>"
  | Handler.handleMoney => "@money <character> <amount>"
  | Handler.handleSpawn => "@spawn <monster id> <number>"
  | Handler.handleAttribute => "@attribute <character> <attribute> <value>"
  | Handler.handleReload => "@reload"
  | Handler.handleSetGroup => "@setgroup <character> <AL level>"

/-- The string a handler is called with: the local `args`, except for
`handleReload`, which takes none. -/
def Handler.passed (h : Handler) (args : List Char) : Option (List Char) :=
  if h = Handler.handleReload then none else some args

/-! ## Concrete ledgers and worlds, to evaluate the definitions on -/

/-- Modelled from the spec: a ledger as an ordered sequence of slots, each
holding an item id and a quantity, with id 0 for an empty slot.  It instantiates
the ledger parameter on concrete inputs. -/
abbrev Slots := List (Int × Int)

/-- Item id held by a slot of a `Slots` ledger, 0 when there is none. -/
def Slots.getItem (l : Slots) (slot : Int) : Int :=
  if slot < 0 then 0 else (l.getD slot.toNat (0, 0)).1

/-- Removal from a slot of a `Slots` ledger: takes what the slot holds, up to
`amount`, and returns the quantity that could not be removed. -/
def Slots.removeFromSlot (l : Slots) (slot amount : Int) : Slots × Int :=
  if slot < 0 ∨ amount ≤ 0 ∨ l.length ≤ slot.toNat then (l, amount)
  else
    let e := l.getD slot.toNat (0, 0)
    let nb := min e.2 amount
    (l.set slot.toNat (if e.2 - nb = 0 then (0, 0) else (e.1, e.2 - nb)), amount - nb)

/-- Insertion into a `Slots` ledger: the first slot that is empty or holds the
same item takes the whole quantity; without such a slot nothing is placed.
Returns the quantity that could not be placed. -/
def Slots.insert : Slots → Int → Int → Slots × Int
  | [], _, amount => ([], amount)
  | (i, n) :: rest, id, amount =>
    if i = id ∨ i = 0 then ((id, n + amount) :: rest, 0)
    else ((i, n) :: (Slots.insert rest id amount).1, (Slots.insert rest id amount).2)

/-- An environment over `Slots` ledgers: the public id of a character is its
identity and the fields of `TradedItem` are wide enough to hold an `int`. -/
def slotsEnv : Env Slots where
  getPublicID := fun c => (c : Int)
  getItem := Slots.getItem
  removeFromSlot := Slots.removeFromSlot
  insert := Slots.insert
  castId := id
  castSlot := id
  castAmount := id

/-- A world without any trade session in which character 1 holds three of item
5 in slot 2 and character 2 holds one of item 9 in slot 0. -/
def world0 : World Slots where
  possessions := fun c =>
    if c = 1 then [(0, 0), (0, 0), (5, 3)] else if c = 2 then [(9, 1), (0, 0)] else []
  trading := fun _ => none
  trades := fun _ => none
  sent := []

/-- The session of `worldOffers` and its state: characters 1 and 2 in
`TRADE_RUN`, three of item 5 from slot 2 offered by 1 and one of item 9 from slot
0 offered by 2. -/
def sessionOffers : Trade :=
  { mChar1 := 1, mChar2 := 2, mState := TradeState.TRADE_RUN,
    mItems1 := [{ id := 5, slot := 2, amount := 3 }],
    mItems2 := [{ id := 9, slot := 0, amount := 1 }] }

/-- The world in which character 1 has asked character 2 for a trade (session
at address 0), 2 has acknowledged, 1 has offered three of item 5 from slot 2 and
2 has offered one of item 9 from slot 0; nobody has accepted yet. -/
def worldOffers : World Slots :=
  (Trade.run slotsEnv 0
    [Call.request 2 1, Call.addItem 1 2 3, Call.addItem 2 0 1]
    (Trade.ctor slotsEnv world0 0 1 2)).getD world0

/-- The session of `worldReady` and its state: characters 1 and 2 in
`TRADE_EXIT` after the acceptance of 1, with the offers of `sessionOffers`. -/
def sessionReady : Trade :=
  { mChar1 := 1, mChar2 := 2, mState := TradeState.TRADE_EXIT,
    mItems1 := [{ id := 5, slot := 2, amount := 3 }],
    mItems2 := [{ id := 9, slot := 0, amount := 1 }] }

/-- The world in which character 1 has asked character 2 for a trade (session
at address 0), 2 has acknowledged, 1 has offered three of item 5 from slot 2, 2
has offered one of item 9 from slot 0, and 1 has accepted. -/
def worldReady : World Slots :=
  (Trade.run slotsEnv 0
    [Call.request 2 1, Call.addItem 1 2 3, Call.addItem 2 0 1, Call.accept 1]
    (Trade.ctor slotsEnv world0 0 1 2)).getD world0

/-- The world in which character 1 has asked character 2 for a trade (session
at address 0), 2 has acknowledged, 1 has offered three of item 5 from slot 2,
slot 2 of character 1 has then been emptied by another part of the server, and 1
has accepted. -/
def worldStale : World Slots :=
  (Trade.run slotsEnv 0
    [Call.request 2 1, Call.addItem 1 2 3,
     Call.setPossessions 1 [(0, 0), (0, 0), (0, 0)], Call.accept 1]
    (Trade.ctor slotsEnv world0 0 1 2)).getD world0

/-- The world in which character 1 has asked character 2 for a trade (session
at address 0), 2 has acknowledged, 1 has offered three of item 5 from slot 2, 2
has offered five of item 9 from slot 0 while holding one, and 1 has accepted. -/
def worldOverdrawn : World Slots :=
  (Trade.run slotsEnv 0
    [Call.request 2 1, Call.addItem 1 2 3, Call.addItem 2 0 5, Call.accept 1]
    (Trade.ctor slotsEnv world0 0 1 2)).getD world0

/-- A sequence of calls for the session between characters 1 and 2: the
acknowledgement by 2, then fifty-one offers by 1 of one item from slot 2, then
the acceptance by 2. -/
def manyOffers : List (Call Slots) :=
  Call.request 2 1 :: (List.replicate 51 (Call.addItem 1 2 1) ++ [Call.accept 2])

/-- Modelled from the spec: `remove` returning the quantity actually removed, 0
if the slot is empty or holds too little, in which case nothing is removed.  The
item id is compared with the slot by `performTrade` before the call. -/
def Slots.removeReporting (l : Slots) (slot amount : Int) : Slots × Int :=
  if slot < 0 ∨ amount ≤ 0 ∨ l.length ≤ slot.toNat ∨ (l.getD slot.toNat (0, 0)).2 < amount then
    (l, 0)
  else
    (l.set slot.toNat
      (if (l.getD slot.toNat (0, 0)).2 - amount = 0 then (0, 0)
       else ((l.getD slot.toNat (0, 0)).1, (l.getD slot.toNat (0, 0)).2 - amount)),
     amount)

/-- The environment `slotsEnv` with a removal that reports the quantity actually
removed. -/
def reportingEnv : Env Slots :=
  { slotsEnv with removeFromSlot := Slots.removeReporting }

/-- Removal by item id from a `Slots` ledger: takes from the slots holding the
item, first to last, up to `amount`, and returns the quantity that could not be
removed. -/
def Slots.remove : Slots → Int → Int → Slots × Int
  | [], _, amount => ([], amount)
  | (i, n) :: rest, id, amount =>
    if i = id ∧ 0 < amount then
      ((if n - min n amount = 0 then (0, 0) else (i, n - min n amount))
          :: (Slots.remove rest id (amount - min n amount)).1,
        (Slots.remove rest id (amount - min n amount)).2)
    else ((i, n) :: (Slots.remove rest id amount).1, (Slots.remove rest id amount).2)

/-- An environment for `chr_inv_change` over `Slots` ledgers in which the items 5
and 9 exist, with item classes 105 and 109, and every character stands at (3, 4)
on map 1. -/
def scriptEnv : ScriptEnv Slots where
  remove := fun p id amount =>
    ({ p with inventory := (Slots.remove p.inventory id amount).1 },
      (Slots.remove p.inventory id amount).2)
  insert := fun p id amount =>
    ({ p with inventory := (Slots.insert p.inventory id amount).1 },
      (Slots.insert p.inventory id amount).2)
  itemManagerGetItem := fun id => if id = 5 then some 105 else if id = 9 then some 109 else none
  getMap := fun _ => 1
  getPosition := fun _ => (3, 4)

/-- A world without any trade session in which character 1 owns 10 units of
money and three of item 5 in the first of its two slots. -/
def scriptWorld0 : World (Possessions Slots) where
  possessions := fun c =>
    if c = 1 then { money := 10, inventory := [(5, 3), (0, 0)] }
    else { money := 0, inventory := [] }
  trading := fun _ => none
  trades := fun _ => none
  sent := []

/-- The session of `worldFull` and its state: characters 2 and 1 in
`TRADE_EXIT` after the acceptance of 2, with no entry offered by 2 and fifty
entries offered by 1. -/
def sessionFull : Trade :=
  { mChar1 := 2, mChar2 := 1, mState := TradeState.TRADE_EXIT,
    mItems1 := [], mItems2 := List.replicate 50 { id := 5, slot := 2, amount := 1 } }

/-- The world reached from a new session between characters 1 and 2 by the calls
of `manyOffers`. -/
def worldFull : World Slots :=
  (Trade.run slotsEnv 0 manyOffers (Trade.ctor slotsEnv world0 0 1 2)).getD world0

/-- A world without any trade session in which character 1 owns 10 units of
money and both of its slots hold item 5, so that no other item fits. -/
def scriptWorldFull : World (Possessions Slots) where
  possessions := fun c =>
    if c = 1 then { money := 10, inventory := [(5, 3), (5, 2)] }
    else { money := 0, inventory := [] }
  trading := fun _ => none
  trades := fun _ => none
  sent := []

/-- A sequence of calls for the session between characters 1 and 2: the
acknowledgement by 2, an offer by 1, the acceptance of 1, then an offer by 2,
which voids that acceptance, and the acceptance of 2. -/
def renegotiation : List (Call Slots) :=
  [Call.request 2 1, Call.addItem 1 2 3, Call.accept 1, Call.addItem 2 0 1, Call.accept 2]

/-- Account levels with one permission bit each, to evaluate the command
handler on. -/
def bitLevels : AccountLevels where
  AL_PLAYER := 1
  AL_TESTER := 2
  AL_GM := 4
  AL_DEV := 8
  AL_ADMIN := 16

/-- The world reached when character 1 has asked character 2 for a trade
(session at address 0) and character 3 has then asked character 2 (session at
address 1). -/
def worldSecondRequest : World Slots :=
  (World.runSessions slotsEnv
    [SessionCall.requestTrade 0 1 2, SessionCall.requestTrade 1 3 2] world0).getD world0

/-! ## Basic facts about the world operations -/

/-- Committing a view that holds the character's own possessions changes nothing. -/
theorem World.commit_same (w : World L) (c : CharId) :
    w.commit { mClient := c, mPoss := w.possessions c } = w := by
  cases w with
  | mk p tg ts s =>
    simp only [World.commit]
    congr 1
    funext x
    by_cases h : x = c
    · simp [h]
    · simp [h]

/-- A cancelled view commits nothing, whatever was staged in it. -/
theorem World.commit_cancel (w : World L) (v : Inventory L) :
    w.commit (Inventory.cancel w v) = w := by
  simpa [Inventory.cancel] using World.commit_same w v.mClient

/-- What `Trade::cancel` leaves behind, field by field. -/
theorem Trade.cancel_eq (w : World L) (this : TradeId) (tr : Trade) (c : Option CharId)
    (hlive : w.trades this = some tr) :
    ∃ w', Trade.cancel w this c = some w' ∧
      w'.possessions = w.possessions ∧
      w'.trades = (fun x => if x = this then none else w.trades x) ∧
      w'.trading =
        (fun x => if x = tr.mChar2 then none else if x = tr.mChar1 then none else w.trading x) ∧
      w'.sent = w.sent
        ++ (if c ≠ some tr.mChar1 then [(tr.mChar1, MessageOut.new MsgId.GPMSG_TRADE_CANCEL)]
            else [])
        ++ (if c ≠ some tr.mChar2 then [(tr.mChar2, MessageOut.new MsgId.GPMSG_TRADE_CANCEL)]
            else []) := by
  simp only [Trade.cancel, hlive]
  refine ⟨_, rfl, ?_⟩
  split_ifs <;> simp_all [Trade.dtor, World.free, World.setTrading, World.send]

/-- `Trade::cancel` does nothing where there is no object. -/
theorem Trade.cancel_none (w : World L) (this : TradeId) (c : Option CharId)
    (h : w.trades this = none) : Trade.cancel w this c = none := by
  simp [Trade.cancel, h]

/-- A character that has no back-reference, or whose back-reference is already
to `this`, is linked by the write alone. -/
theorem Character.setTrading_free (w : World L) (c : CharId) (this : TradeId)
    (h : w.trading c = none ∨ w.trading c = some this) :
    Character.setTrading w c this = w.setTrading c (some this) := by
  rcases h with h | h <;> simp [Character.setTrading, h]

/-- The call `c->setTrading(this)` is the write of the back-reference, made
either in the world as it is or in the world left by the cancellation of the
live session `old` that `c` referred to. -/
theorem Character.setTrading_cases (w : World L) (c : CharId) (this : TradeId) :
    Character.setTrading w c this = w.setTrading c (some this) ∧
        (∀ t tr, t ≠ this → w.trades t = some tr → w.trading c ≠ some t) ∨
      ∃ old tro w1, old ≠ this ∧ w.trading c = some old ∧ w.trades old = some tro ∧
        Trade.cancel w old (some c) = some w1 ∧
        Character.setTrading w c this = w1.setTrading c (some this) := by
  cases hc : w.trading c with
  | none =>
    exact Or.inl ⟨Character.setTrading_free w c this (Or.inl hc), fun t tr _ _ => by simp⟩
  | some old =>
    by_cases ho : old = this
    · subst ho
      refine Or.inl ⟨Character.setTrading_free w c old (Or.inr hc), fun t tr ht _ e => ?_⟩
      exact ht (Option.some.inj e).symm
    · cases hl : w.trades old with
      | none =>
        refine Or.inl ⟨by simp [Character.setTrading, hc, ho, Trade.cancel_none w old _ hl],
          fun t tr _ htr e => ?_⟩
        rw [← Option.some.inj e, hl] at htr
        exact absurd htr (by simp)
      | some tro =>
        obtain ⟨w1, h1, -⟩ := Trade.cancel_eq w old tro (some c) hl
        exact Or.inr ⟨old, tro, w1, ho, rfl, hl, h1,
          by simp [Character.setTrading, hc, ho, h1]⟩

/-- The call `c->setTrading(this)` leaves the session at `this` as it is. -/
theorem Character.setTrading_trades_this (w : World L) (c : CharId) (this : TradeId) :
    (Character.setTrading w c this).trades this = w.trades this := by
  rcases Character.setTrading_cases w c this with ⟨e, -⟩ | ⟨old, tro, w1, ho, -, hl, h1, e⟩
  · rw [e]
    rfl
  · obtain ⟨w2, h2, -, ht, -, -⟩ := Trade.cancel_eq w old tro (some c) hl
    rw [h1, Option.some.injEq] at h2
    subst h2
    rw [e]
    have hne : ¬ this = old := fun h => ho h.symm
    simp [World.setTrading, ht, hne]

/-- The session the constructor makes. -/
theorem Trade.ctor_live (E : Env L) (w0 : World L) (this : TradeId) (c1 c2 : CharId) :
    (Trade.ctor E w0 this c1 c2).trades this = some
      { mChar1 := c1, mChar2 := c2, mState := TradeState.TRADE_INIT,
        mItems1 := [], mItems2 := [] } := by
  simp only [Trade.ctor, Character.setTrading_trades_this]
  simp [World.send, World.store]

/-- On two characters without a back-reference the constructor only stores the
session, sends the request and writes the two back-references. -/
theorem Trade.ctor_free (E : Env L) (w : World L) (this : TradeId) (c1 c2 : CharId)
    (h1 : w.trading c1 = none) (h2 : w.trading c2 = none) :
    Trade.ctor E w this c1 c2
      = ((((w.store this
            { mChar1 := c1, mChar2 := c2, mState := TradeState.TRADE_INIT,
              mItems1 := [], mItems2 := [] }).send c2
          ((MessageOut.new MsgId.GPMSG_TRADE_REQUEST).writeShort (E.getPublicID c1))).setTrading
          c1 (some this)).setTrading c2 (some this)) := by
  simp only [Trade.ctor]
  rw [Character.setTrading_free _ c1 this (Or.inl (by simpa [World.send, World.store] using h1))]
  rw [Character.setTrading_free _ c2 this]
  by_cases h : c2 = c1
  · exact Or.inr (by simp [World.setTrading, h])
  · exact Or.inl (by simpa [World.setTrading, World.send, World.store, h] using h2)

/-- The call `c->setTrading(this)` in a world where every live session other
than the one at `this` is the one both of its participants refer to: `c` then
refers to `this`, whoever referred to `this` still does, a session is either as
it was or deleted, and every live session other than the one at `this` is still
the one both of its participants refer to. -/
theorem Character.setTrading_keeps (w : World L) (c : CharId) (this : TradeId)
    (hJ : ∀ t tr, t ≠ this → w.trades t = some tr →
      w.trading tr.mChar1 = some t ∧ w.trading tr.mChar2 = some t) :
    (Character.setTrading w c this).trading c = some this ∧
      (∀ x, w.trading x = some this → (Character.setTrading w c this).trading x = some this) ∧
      (∀ t, (Character.setTrading w c this).trades t = none ∨
        (Character.setTrading w c this).trades t = w.trades t) ∧
      (∀ t tr, t ≠ this → (Character.setTrading w c this).trades t = some tr →
        (Character.setTrading w c this).trading tr.mChar1 = some t ∧
          (Character.setTrading w c this).trading tr.mChar2 = some t) := by
  have hwrite : ∀ v : World L,
      (∀ t tr, t ≠ this → v.trades t = some tr →
        v.trading tr.mChar1 = some t ∧ v.trading tr.mChar2 = some t) →
      (∀ t tr, t ≠ this → v.trades t = some tr → v.trading c ≠ some t) →
      ∀ t tr, t ≠ this → (v.setTrading c (some this)).trades t = some tr →
        (v.setTrading c (some this)).trading tr.mChar1 = some t ∧
          (v.setTrading c (some this)).trading tr.mChar2 = some t := by
    intro v hv hno t tr ht htr
    have htr2 : v.trades t = some tr := htr
    obtain ⟨a1, a2⟩ := hv t tr ht htr2
    have n1 : tr.mChar1 ≠ c := fun e => hno t tr ht htr2 (by rw [← e]; exact a1)
    have n2 : tr.mChar2 ≠ c := fun e => hno t tr ht htr2 (by rw [← e]; exact a2)
    simp [World.setTrading, n1, n2, a1, a2]
  rcases Character.setTrading_cases w c this with ⟨e, hno⟩ | ⟨old, tro, w1, ho, hc, hl, h1, e⟩
  · rw [e]
    refine ⟨by simp [World.setTrading], fun x hx => ?_, fun t => Or.inr rfl,
      hwrite w hJ hno⟩
    by_cases hx2 : x = c <;> simp [World.setTrading, hx2, hx]
  · obtain ⟨w2, h2, -, ht, htg, -⟩ := Trade.cancel_eq w old tro (some c) hl
    rw [h1, Option.some.injEq] at h2
    subst h2
    obtain ⟨g1, g2⟩ := hJ old tro ho hl
    have hold : some old ≠ some this := fun h => ho (Option.some.inj h)
    rw [e]
    refine ⟨by simp [World.setTrading], fun x hx => ?_, fun t => ?_, ?_⟩
    · have n1 : x ≠ tro.mChar1 := fun h => by rw [h, g1] at hx; exact hold hx
      have n2 : x ≠ tro.mChar2 := fun h => by rw [h, g2] at hx; exact hold hx
      by_cases hx2 : x = c <;> simp [World.setTrading, htg, hx2, hx, n1, n2]
    · by_cases h : t = old
      · exact Or.inl (by simp [World.setTrading, ht, h])
      · exact Or.inr (by simp [World.setTrading, ht, h])
    · refine hwrite w1 ?_ ?_
      · intro t tr hne htr
        rw [ht] at htr
        by_cases h : t = old
        · simp [h] at htr
        · simp only [h, if_false] at htr
          obtain ⟨a1, a2⟩ := hJ t tr hne htr
          have hto : some t ≠ some old := fun x => h (Option.some.inj x)
          have n1 : tr.mChar1 ≠ tro.mChar1 := fun x => by rw [x, g1] at a1; exact hto a1.symm
          have n2 : tr.mChar1 ≠ tro.mChar2 := fun x => by rw [x, g2] at a1; exact hto a1.symm
          have n3 : tr.mChar2 ≠ tro.mChar1 := fun x => by rw [x, g1] at a2; exact hto a2.symm
          have n4 : tr.mChar2 ≠ tro.mChar2 := fun x => by rw [x, g2] at a2; exact hto a2.symm
          simp [htg, n1, n2, n3, n4, a1, a2]
      · intro t tr hne htr hlink
        rw [ht] at htr
        by_cases h : t = old
        · simp [h] at htr
        · rw [htg] at hlink
          simp only at hlink
          split_ifs at hlink
          rw [hc] at hlink
          exact h (Option.some.inj hlink).symm

/-- The constructor in a world where every live session is the one both of its
participants refer to: the new session is live, both characters refer to it,
every other session is as it was or deleted, and again every live session is the
one both of its participants refer to. -/
theorem Trade.ctor_keeps_one (E : Env L) (w : World L) (this : TradeId) (c1 c2 : CharId)
    (hinv : w.oneSessionPerCharacter) :
    (Trade.ctor E w this c1 c2).trading c1 = some this ∧
      (Trade.ctor E w this c1 c2).trading c2 = some this ∧
      (∀ t, t ≠ this → (Trade.ctor E w this c1 c2).trades t = none ∨
        (Trade.ctor E w this c1 c2).trades t = w.trades t) ∧
      (Trade.ctor E w this c1 c2).oneSessionPerCharacter := by
  have hlive := Trade.ctor_live E w this c1 c2
  have hJ2 : ∀ t tr, t ≠ this →
      ((w.store this
          { mChar1 := c1, mChar2 := c2, mState := TradeState.TRADE_INIT,
            mItems1 := [], mItems2 := [] }).send c2
        ((MessageOut.new MsgId.GPMSG_TRADE_REQUEST).writeShort (E.getPublicID c1))).trades t
        = some tr →
      ((w.store this
          { mChar1 := c1, mChar2 := c2, mState := TradeState.TRADE_INIT,
            mItems1 := [], mItems2 := [] }).send c2
        ((MessageOut.new MsgId.GPMSG_TRADE_REQUEST).writeShort
          (E.getPublicID c1))).trading tr.mChar1 = some t ∧
      ((w.store this
          { mChar1 := c1, mChar2 := c2, mState := TradeState.TRADE_INIT,
            mItems1 := [], mItems2 := [] }).send c2
        ((MessageOut.new MsgId.GPMSG_TRADE_REQUEST).writeShort
          (E.getPublicID c1))).trading tr.mChar2 = some t := by
    intro t tr ht htr
    have htr2 : w.trades t = some tr := by
      simpa [World.send, World.store, ht] using htr
    exact hinv t tr htr2
  obtain ⟨a1, -, a3, a4⟩ := Character.setTrading_keeps _ c1 this hJ2
  obtain ⟨b1, b2, b3, b4⟩ := Character.setTrading_keeps _ c2 this a4
  have e1 : (Trade.ctor E w this c1 c2).trading c1 = some this := b2 c1 a1
  refine ⟨e1, b1, fun t ht => ?_, fun t tr htr => ?_⟩
  · rcases b3 t with h | h
    · exact Or.inl h
    · rcases a3 t with g | g
      · exact Or.inl (h.trans g)
      · exact Or.inr (h.trans (g.trans (by simp [World.send, World.store, ht])))
  · by_cases ht : t = this
    · subst ht
      rw [hlive, Option.some.injEq] at htr
      subst htr
      exact ⟨e1, b1⟩
    · exact b4 t tr ht htr

/-- A cancellation keeps `oneSessionPerCharacter`. -/
theorem Trade.cancel_keeps_one (w w' : World L) (this : TradeId) (c : Option CharId)
    (hinv : w.oneSessionPerCharacter) (hcall : Trade.cancel w this c = some w') :
    w'.oneSessionPerCharacter := by
  cases hlive : w.trades this with
  | none => simp [Trade.cancel, hlive] at hcall
  | some tr0 =>
    obtain ⟨w1, hc, -, ht, htg, -⟩ := Trade.cancel_eq w this tr0 c hlive
    rw [hc, Option.some.injEq] at hcall
    subst hcall
    obtain ⟨g1, g2⟩ := hinv this tr0 hlive
    intro t tr htr
    rw [ht] at htr
    by_cases hte : t = this
    · simp [hte] at htr
    · simp only [hte, if_false] at htr
      obtain ⟨h1, h2⟩ := hinv t tr htr
      have hne : some t ≠ some this := fun e => hte (Option.some.inj e)
      have n1 : tr.mChar1 ≠ tr0.mChar1 := fun e => by rw [e, g1] at h1; exact hne h1.symm
      have n2 : tr.mChar1 ≠ tr0.mChar2 := fun e => by rw [e, g2] at h1; exact hne h1.symm
      have n3 : tr.mChar2 ≠ tr0.mChar1 := fun e => by rw [e, g1] at h2; exact hne h2.symm
      have n4 : tr.mChar2 ≠ tr0.mChar2 := fun e => by rw [e, g2] at h2; exact hne h2.symm
      simp [htg, n1, n2, n3, n4, h1, h2]

/-! ## Settlement -/

/-- C1: settlement is atomic on failure.  For every session in `TRADE_EXIT` and
all ledgers, when the second participant accepts and the settlement fails
(`performTrade` returns false for the first or for the second offer list, at
whatever entry and whatever was staged before), the call returns, every
character's possessions are what they were before the call, the session is
deleted with both back-references cleared, and the messages sent are exactly one
`GPMSG_TRADE_CANCEL` to each participant, hence no `GPMSG_TRADE_COMPLETE`. -/
theorem accept_failed_settlement_is_atomic (E : Env L) (w : World L) (this : TradeId)
    (tr : Trade) (hlive : w.trades this = some tr)
    (hstate : tr.mState = TradeState.TRADE_EXIT)
    (hfail : (performBoth E tr (w.possessions tr.mChar1) (w.possessions tr.mChar2)).1 = false) :
    ∃ w', Trade.accept E w this tr.mChar2 = some w' ∧
      w'.possessions = w.possessions ∧
      w'.trades this = none ∧
      w'.trading tr.mChar1 = none ∧ w'.trading tr.mChar2 = none ∧
      w'.sent = w.sent ++ [(tr.mChar1, MessageOut.new MsgId.GPMSG_TRADE_CANCEL),
                           (tr.mChar2, MessageOut.new MsgId.GPMSG_TRADE_CANCEL)] ∧
      ∀ m ∈ w'.sent, m ∉ w.sent → m.2.id ≠ MsgId.GPMSG_TRADE_COMPLETE := by
  obtain ⟨w1, hc, hp, ht, hg, hs⟩ := Trade.cancel_eq w this tr none hlive
  have hacc : Trade.accept E w this tr.mChar2 = some w1 := by
    simp only [Trade.accept, Trade.settle, hlive, hstate, Inventory.open, hfail, hc,
      Option.map_some']
    simp only [Inventory.cancel]
    have e1 : ∀ (v : World L) (c : CharId) (l : L), l = v.possessions c →
        v.commit { mClient := c, mPoss := l } = v := by
      intro v c l hl
      subst hl
      exact World.commit_same v c
    simp [e1 w1 tr.mChar2 _ (congrFun hp tr.mChar2).symm,
      e1 w1 tr.mChar1 _ (congrFun hp tr.mChar1).symm]
  refine ⟨w1, hacc, hp, ?_, ?_, ?_, ?_, ?_⟩
  · simp [ht]
  · simp [hg]
  · simp [hg]
  · simpa using hs
  · intro m hm hnot
    rw [hs] at hm
    simp only [ne_eq, reduceCtorEq, not_false_eq_true, ↓reduceIte, List.append_assoc,
      List.mem_append, List.mem_cons, List.mem_singleton, List.not_mem_nil, or_false] at hm
    rcases hm with hm | hm | hm
    · exact absurd hm hnot
    · subst hm; simp [MessageOut.new]
    · subst hm; simp [MessageOut.new]

/-- C1, on the scenario of the specification: character 1 offered three of item 5
from slot 2, the slot was emptied afterwards, 1 accepted and now 2 accepts. -/
theorem accept_failed_settlement_is_atomic_witness :
    worldStale.trades 0 = some
        { mChar1 := 1, mChar2 := 2, mState := TradeState.TRADE_EXIT,
          mItems1 := [{ id := 5, slot := 2, amount := 3 }], mItems2 := [] } ∧
      (performBoth slotsEnv
        { mChar1 := 1, mChar2 := 2, mState := TradeState.TRADE_EXIT,
          mItems1 := [{ id := 5, slot := 2, amount := 3 }], mItems2 := [] }
        (worldStale.possessions 1) (worldStale.possessions 2)).1 = false ∧
      ∃ w', Trade.accept slotsEnv worldStale 0 2 = some w' ∧
        w'.possessions = worldStale.possessions ∧
        w'.trades 0 = none ∧
        w'.trading 1 = none ∧ w'.trading 2 = none ∧
        w'.sent = worldStale.sent ++ [(1, MessageOut.new MsgId.GPMSG_TRADE_CANCEL),
                                      (2, MessageOut.new MsgId.GPMSG_TRADE_CANCEL)] ∧
        ∀ m ∈ w'.sent, m ∉ worldStale.sent → m.2.id ≠ MsgId.GPMSG_TRADE_COMPLETE :=
  ⟨by decide, by decide,
    accept_failed_settlement_is_atomic slotsEnv worldStale 0
      { mChar1 := 1, mChar2 := 2, mState := TradeState.TRADE_EXIT,
        mItems1 := [{ id := 5, slot := 2, amount := 3 }], mItems2 := [] }
      (by decide) (by decide) (by decide)⟩

/-- A failure after entries were applied: in `worldOverdrawn` the offer of
character 1 is staged in both views (the first `performTrade` returns true and
moves three of item 5), the offer of character 2 then fails at its removal, and
the `accept` of 2 leaves both ledgers as they were, deletes the session and sends
`GPMSG_TRADE_CANCEL` to both. -/
theorem accept_failure_after_staged_entries :
    performTrade slotsEnv [{ id := 5, slot := 2, amount := 3 }]
        (worldOverdrawn.possessions 1) (worldOverdrawn.possessions 2)
      = (true, [(0, 0), (0, 0), (0, 0)], [(9, 1), (5, 3)]) ∧
      (Trade.accept slotsEnv worldOverdrawn 0 2).map
          (fun w => (w.possessions 1, w.possessions 2, w.trades 0,
            w.sent.drop worldOverdrawn.sent.length))
        = some (worldOverdrawn.possessions 1, worldOverdrawn.possessions 2, none,
            [(1, MessageOut.new MsgId.GPMSG_TRADE_CANCEL),
             (2, MessageOut.new MsgId.GPMSG_TRADE_CANCEL)]) :=
  ⟨rfl, rfl⟩

/-- A successful `performTrade` leaves in the first view the offerer's ledger
with every entry removed and in the second view the counterpart's ledger with
every entry inserted. -/
theorem performTrade_true (E : Env L) (items : TradedItems) (inv1 inv2 : L)
    (h : (performTrade E items inv1 inv2).1 = true) :
    (performTrade E items inv1 inv2).2.1 = offersRemoved E items inv1 ∧
      (performTrade E items inv1 inv2).2.2 = offersInserted E items inv2 := by
  induction items generalizing inv1 inv2 with
  | nil => simp [performTrade, offersRemoved, offersInserted]
  | cons i rest ih =>
    simp only [performTrade] at h ⊢
    split_ifs at h ⊢
    simpa [offersRemoved, offersInserted] using ih _ _ h

/-- What the two views hold after a successful `performBoth`. -/
theorem performBoth_true (E : Env L) (tr : Trade) (v1 v2 : L)
    (h : (performBoth E tr v1 v2).1 = true) :
    (performBoth E tr v1 v2).2.1 = offersInserted E tr.mItems2 (offersRemoved E tr.mItems1 v1) ∧
      (performBoth E tr v1 v2).2.2
        = offersRemoved E tr.mItems2 (offersInserted E tr.mItems1 v2) := by
  simp only [performBoth] at h ⊢
  split_ifs at h ⊢ with h1
  obtain ⟨a1, a2⟩ := performTrade_true E tr.mItems1 v1 v2 h1
  obtain ⟨b1, b2⟩ := performTrade_true E tr.mItems2 _ _ h
  rw [a1, a2] at b1 b2
  simp only [a1, a2]
  exact ⟨b2, b1⟩

/-- C2: a successful settlement applies exactly the offers.  For a session in
`TRADE_EXIT` with two distinct participants, when the second participant accepts
and the settlement succeeds, the call returns; the first participant's ledger is
its previous ledger with its own entries removed and the other's entries
inserted, the second participant's ledger is its previous ledger with the
first's entries inserted and its own removed; no other ledger, session or
back-reference changes; the messages sent are exactly one
`GPMSG_TRADE_COMPLETE` to each participant (no `GPMSG_TRADE_CANCEL`); the
session is deleted and both back-references are cleared. -/
theorem accept_successful_settlement (E : Env L) (w : World L) (this : TradeId)
    (tr : Trade) (hlive : w.trades this = some tr)
    (hstate : tr.mState = TradeState.TRADE_EXIT) (hne : tr.mChar1 ≠ tr.mChar2)
    (hok : (performBoth E tr (w.possessions tr.mChar1) (w.possessions tr.mChar2)).1 = true) :
    ∃ w', Trade.accept E w this tr.mChar2 = some w' ∧
      w'.possessions tr.mChar1
        = offersInserted E tr.mItems2 (offersRemoved E tr.mItems1 (w.possessions tr.mChar1)) ∧
      w'.possessions tr.mChar2
        = offersRemoved E tr.mItems2 (offersInserted E tr.mItems1 (w.possessions tr.mChar2)) ∧
      (∀ c, c ≠ tr.mChar1 → c ≠ tr.mChar2 → w'.possessions c = w.possessions c) ∧
      w'.sent = w.sent ++ [(tr.mChar1, MessageOut.new MsgId.GPMSG_TRADE_COMPLETE),
                           (tr.mChar2, MessageOut.new MsgId.GPMSG_TRADE_COMPLETE)] ∧
      w'.trades this = none ∧ (∀ t, t ≠ this → w'.trades t = w.trades t) ∧
      w'.trading tr.mChar1 = none ∧ w'.trading tr.mChar2 = none ∧
      (∀ c, c ≠ tr.mChar1 → c ≠ tr.mChar2 → w'.trading c = w.trading c) := by
  obtain ⟨e1, e2⟩ := performBoth_true E tr _ _ hok
  simp only [Trade.accept, Trade.settle, hlive, hstate, Inventory.open, hok]
  simp only [reduceCtorEq, ↓reduceIte, ne_eq, not_true_eq_false, or_self, Bool.true_eq_false]
  refine ⟨_, rfl, ?_⟩
  have hne2 : tr.mChar2 ≠ tr.mChar1 := fun h => hne h.symm
  simp only [World.commit, Trade.dtor, World.free, World.setTrading, World.send, e1, e2]
  refine ⟨by simp, by simp [hne2], ?_, by simp, by simp, ?_, by simp, by simp, ?_⟩
  · intro c h1 h2
    simp [h1, h2]
  · intro t ht
    simp [ht]
  · intro c h1 h2
    simp [h1, h2]

/-- C2, on the scenario of the specification: character 1 offered three of item 5
from slot 2, character 2 one of item 9 from slot 0, 1 accepted and now 2
accepts.  Afterwards 1 holds one of item 9 and none of item 5, and 2 holds three
of item 5 and none of item 9. -/
theorem accept_successful_settlement_witness :
    worldReady.trades 0 = some
        { mChar1 := 1, mChar2 := 2, mState := TradeState.TRADE_EXIT,
          mItems1 := [{ id := 5, slot := 2, amount := 3 }],
          mItems2 := [{ id := 9, slot := 0, amount := 1 }] } ∧
      worldReady.possessions 1 = [(0, 0), (0, 0), (5, 3)] ∧
      worldReady.possessions 2 = [(9, 1), (0, 0)] ∧
      offersInserted slotsEnv [{ id := 9, slot := 0, amount := 1 }]
        (offersRemoved slotsEnv [{ id := 5, slot := 2, amount := 3 }] (worldReady.possessions 1))
        = [(9, 1), (0, 0), (0, 0)] ∧
      offersRemoved slotsEnv [{ id := 9, slot := 0, amount := 1 }]
        (offersInserted slotsEnv [{ id := 5, slot := 2, amount := 3 }] (worldReady.possessions 2))
        = [(0, 0), (5, 3)] ∧
      ∃ w', Trade.accept slotsEnv worldReady 0 2 = some w' ∧
        w'.possessions 1
          = offersInserted slotsEnv [{ id := 9, slot := 0, amount := 1 }]
              (offersRemoved slotsEnv [{ id := 5, slot := 2, amount := 3 }]
                (worldReady.possessions 1)) ∧
        w'.possessions 2
          = offersRemoved slotsEnv [{ id := 9, slot := 0, amount := 1 }]
              (offersInserted slotsEnv [{ id := 5, slot := 2, amount := 3 }]
                (worldReady.possessions 2)) ∧
        (∀ c, c ≠ 1 → c ≠ 2 → w'.possessions c = worldReady.possessions c) ∧
        w'.sent = worldReady.sent ++ [(1, MessageOut.new MsgId.GPMSG_TRADE_COMPLETE),
                                      (2, MessageOut.new MsgId.GPMSG_TRADE_COMPLETE)] ∧
        w'.trades 0 = none ∧ (∀ t, t ≠ 0 → w'.trades t = worldReady.trades t) ∧
        w'.trading 1 = none ∧ w'.trading 2 = none ∧
        (∀ c, c ≠ 1 → c ≠ 2 → w'.trading c = worldReady.trading c) :=
  ⟨by decide, by decide, by decide, by decide, by decide,
    accept_successful_settlement slotsEnv worldReady 0
      { mChar1 := 1, mChar2 := 2, mState := TradeState.TRADE_EXIT,
        mItems1 := [{ id := 5, slot := 2, amount := 3 }],
        mItems2 := [{ id := 9, slot := 0, amount := 1 }] }
      (by decide) (by decide) (by decide) (by decide)⟩

/-! ## The bound on the offer lists -/

/-- One call made by a participant returns and keeps the participants and the
bound on both offer lists. -/
theorem Trade.call_keeps_limit (E : Env L) (w : World L) (this : TradeId) (c1 c2 : CharId)
    (k : Call L) (hk : ∀ c, k.caller = some c → c = c1 ∨ c = c2)
    (hinv : ∀ tr, w.trades this = some tr → tr.between c1 c2 ∧ tr.withinLimit) :
    ∃ w', Trade.call E w this k = some w' ∧
      ∀ tr, w'.trades this = some tr → tr.between c1 c2 ∧ tr.withinLimit := by
  cases hlive : w.trades this with
  | none =>
    cases k <;> simp [Trade.call, hlive, World.commit]
  | some tr =>
    obtain ⟨hb, hl1, hl2⟩ := hinv tr hlive
    cases k with
    | setPossessions c l =>
      refine ⟨_, rfl, ?_⟩
      simpa [World.commit] using hinv
    | cancel c =>
      obtain ⟨w1, hc, -, ht, -, -⟩ := Trade.cancel_eq w this tr c hlive
      refine ⟨w1, by simp [Trade.call, hlive, hc], ?_⟩
      simp [ht]
    | request c id =>
      simp only [Trade.call, hlive, Trade.request]
      split_ifs with hbad
      · obtain ⟨w1, hc, -, ht, -, -⟩ := Trade.cancel_eq w this tr (some c) hlive
        refine ⟨w1, by simp [hc], ?_⟩
        simp [ht]
      · refine ⟨_, rfl, ?_⟩
        simpa [World.send, World.store, Trade.between, Trade.withinLimit] using ⟨hb, hl1, hl2⟩
    | accept c =>
      have hc := hk c rfl
      simp only [Trade.call, hlive, Trade.accept, Trade.settle]
      unfold Trade.between at hb ⊢
      unfold Trade.withinLimit
      split_ifs <;>
        simp_all [World.send, World.store, World.commit, Trade.dtor, World.free,
          World.setTrading]
      all_goals first
        | omega
        | tauto
        | (obtain ⟨w1, h1, -, h2, -, -⟩ := Trade.cancel_eq w this tr none hlive
           exact ⟨w1, h1, by simp [h2]⟩)
        | (rcases hb with ⟨h1, h2⟩ | ⟨h1, h2⟩ <;> rcases hc with h3 | h3 <;> simp_all)
    | addItem c slot amount =>
      have hc := hk c rfl
      simp only [Trade.call, hlive, Trade.addItem]
      unfold Trade.between at hb ⊢
      unfold Trade.withinLimit
      split_ifs <;>
        simp_all [World.send, World.store, World.commit, Trade.dtor, World.free,
          World.setTrading]
      all_goals first
        | omega
        | tauto
        | (rcases hb with ⟨h1, h2⟩ | ⟨h1, h2⟩ <;> rcases hc with h3 | h3 <;> simp_all)

/-- C3: the offer lists are bounded.  From a new session between `c1` and `c2`,
every sequence of calls made by the two participants (with any writes to ledgers
in between) returns, and in the state reached each of the two offer lists of
the session, if it still exists, has at most 50 entries. -/
theorem offer_lists_never_exceed_limit (E : Env L) (w0 : World L) (this : TradeId)
    (c1 c2 : CharId) (calls : List (Call L))
    (hby : ∀ k ∈ calls, ∀ c, k.caller = some c → c = c1 ∨ c = c2) :
    ∃ w, Trade.run E this calls (Trade.ctor E w0 this c1 c2) = some w ∧
      ∀ tr, w.trades this = some tr → tr.mItems1.length ≤ 50 ∧ tr.mItems2.length ≤ 50 := by
  have hgen : ∀ (ks : List (Call L)) (w : World L),
      (∀ k ∈ ks, ∀ c, k.caller = some c → c = c1 ∨ c = c2) →
      (∀ tr, w.trades this = some tr → tr.between c1 c2 ∧ tr.withinLimit) →
      ∃ w', Trade.run E this ks w = some w' ∧
        ∀ tr, w'.trades this = some tr → tr.between c1 c2 ∧ tr.withinLimit := by
    intro ks
    induction ks with
    | nil => intro w _ hinv; exact ⟨w, rfl, hinv⟩
    | cons k ks ih =>
      intro w hks hinv
      obtain ⟨w1, h1, hinv1⟩ :=
        Trade.call_keeps_limit E w this c1 c2 k (hks k (List.mem_cons_self k ks)) hinv
      obtain ⟨w2, h2, hinv2⟩ :=
        ih w1 (fun k' hk' => hks k' (List.mem_cons_of_mem k hk')) hinv1
      exact ⟨w2, by simp [Trade.run, h1, h2], hinv2⟩
  obtain ⟨w, hrun, hinv⟩ := hgen calls (Trade.ctor E w0 this c1 c2) hby (by
    intro tr htr
    rw [Trade.ctor_live, Option.some.injEq] at htr
    subst htr
    simp [Trade.between, Trade.withinLimit])
  exact ⟨w, hrun, fun tr htr => (hinv tr htr).2⟩

/-- C3, on a concrete run: after the acknowledgement, fifty-one offers by
character 1 and the acceptance by character 2 (which swaps the roles), the list
of character 1 holds fifty entries and the other none. -/
theorem offer_lists_never_exceed_limit_witness :
    (∀ k ∈ manyOffers, ∀ c, k.caller = some c → c = 1 ∨ c = 2) ∧
      ((Trade.run slotsEnv 0 manyOffers (Trade.ctor slotsEnv world0 0 1 2)).bind
          (fun w => w.trades 0)).map
        (fun tr => (tr.mChar1, tr.mItems1.length, tr.mChar2, tr.mItems2.length))
        = some (2, 0, 1, 50) ∧
      ∃ w, Trade.run slotsEnv 0 manyOffers (Trade.ctor slotsEnv world0 0 1 2) = some w ∧
        ∀ tr, w.trades 0 = some tr → tr.mItems1.length ≤ 50 ∧ tr.mItems2.length ≤ 50 :=
  have hby : ∀ k ∈ manyOffers, ∀ c, k.caller = some c → c = 1 ∨ c = 2 := by
    intro k hk c hc
    simp only [manyOffers, List.mem_cons, List.mem_append, List.mem_replicate,
      List.mem_singleton, List.not_mem_nil, or_false] at hk
    rcases hk with rfl | ⟨-, rfl⟩ | rfl <;>
      (simp only [Call.caller, Option.some.injEq] at hc; subst hc; simp)
  ⟨hby, by decide, offer_lists_never_exceed_limit slotsEnv world0 0 1 2 manyOffers hby⟩

/-! ## Creation, acknowledgement and cancellation -/

/-- C4: the acknowledgement succeeds exactly when it is valid.  On a live
session `request(c, id)` returns, and it returns true if and only if the session
is in `TRADE_INIT`, `c` is the responder `mChar2` and `id` is the public id of the
initiator `mChar1`.  When it returns true the state is `TRADE_RUN` with both
participants and both offer lists as before, the messages sent are exactly one
`GPMSG_TRADE_START` to each of the two participants, and no back-reference,
ledger or other session has changed. -/
theorem request_succeeds_iff_valid (E : Env L) (w : World L) (this : TradeId) (tr : Trade)
    (c : CharId) (id : Int) (hlive : w.trades this = some tr) :
    ∃ b w', Trade.request E w this c id = some (b, w') ∧
      (b = true ↔ (tr.mState = TradeState.TRADE_INIT ∧ c = tr.mChar2 ∧
        id = E.getPublicID tr.mChar1)) ∧
      (b = true →
        w'.trades this = some { tr with mState := TradeState.TRADE_RUN } ∧
        w'.sent = w.sent ++ [(tr.mChar1, MessageOut.new MsgId.GPMSG_TRADE_START),
                             (tr.mChar2, MessageOut.new MsgId.GPMSG_TRADE_START)] ∧
        w'.trading = w.trading ∧ w'.possessions = w.possessions ∧
        ∀ t, t ≠ this → w'.trades t = w.trades t) := by
  by_cases hbad : tr.mState ≠ TradeState.TRADE_INIT ∨ c ≠ tr.mChar2 ∨
      E.getPublicID tr.mChar1 ≠ id
  · obtain ⟨w1, hc, -⟩ := Trade.cancel_eq w this tr (some c) hlive
    refine ⟨false, w1, by simp [Trade.request, hlive, hbad, hc], ?_, by simp⟩
    simp only [Bool.false_eq_true, false_iff]
    rintro ⟨h1, h2, h3⟩
    rcases hbad with h | h | h
    · exact h h1
    · exact h h2
    · exact h h3.symm
  · refine ⟨true, _, by simp only [Trade.request, hlive, hbad, if_false]; rfl, ?_, ?_⟩
    · simp only [ne_eq, not_or, not_not] at hbad
      simp [hbad.1, hbad.2.1, hbad.2.2]
    · intro _
      refine ⟨by simp [World.send, World.store], by simp [World.send, World.store], rfl, rfl, ?_⟩
      intro t ht
      simp [World.send, World.store, ht]

/-- C4, on a concrete session: character 2 acknowledges the request of
character 1, whose public id is 1, and the call returns true. -/
theorem request_succeeds_iff_valid_witness :
    (Trade.ctor slotsEnv world0 0 1 2).trades 0 = some
        { mChar1 := 1, mChar2 := 2, mState := TradeState.TRADE_INIT,
          mItems1 := [], mItems2 := [] } ∧
      (Trade.request slotsEnv (Trade.ctor slotsEnv world0 0 1 2) 0 2 1).map Prod.fst
        = some true ∧
      ∃ b w', Trade.request slotsEnv (Trade.ctor slotsEnv world0 0 1 2) 0 2 1 = some (b, w') ∧
        (b = true ↔ (TradeState.TRADE_INIT = TradeState.TRADE_INIT ∧ (2 : CharId) = 2 ∧
          (1 : Int) = slotsEnv.getPublicID 1)) ∧
        (b = true →
          w'.trades 0 = some
            { mChar1 := 1, mChar2 := 2, mState := TradeState.TRADE_RUN,
              mItems1 := [], mItems2 := [] } ∧
          w'.sent = (Trade.ctor slotsEnv world0 0 1 2).sent
            ++ [(1, MessageOut.new MsgId.GPMSG_TRADE_START),
                (2, MessageOut.new MsgId.GPMSG_TRADE_START)] ∧
          w'.trading = (Trade.ctor slotsEnv world0 0 1 2).trading ∧
          w'.possessions = (Trade.ctor slotsEnv world0 0 1 2).possessions ∧
          ∀ t, t ≠ 0 → w'.trades t = (Trade.ctor slotsEnv world0 0 1 2).trades t) :=
  ⟨by decide, by decide,
    request_succeeds_iff_valid slotsEnv (Trade.ctor slotsEnv world0 0 1 2) 0
      { mChar1 := 1, mChar2 := 2, mState := TradeState.TRADE_INIT,
        mItems1 := [], mItems2 := [] } 2 1 (by decide)⟩

/-- C5: a stale or late acknowledgement cancels the session.  On a live session
that is not in `TRADE_INIT`, or for a caller other than the responder, or for an
id other than the initiator's public id, `request(c, id)` returns false, the
session is deleted with both back-references cleared, and `GPMSG_TRADE_CANCEL` is
sent to each participant other than `c` and to nobody else; no ledger changes. -/
theorem request_stale_cancels (E : Env L) (w : World L) (this : TradeId) (tr : Trade)
    (c : CharId) (id : Int) (hlive : w.trades this = some tr)
    (hbad : tr.mState ≠ TradeState.TRADE_INIT ∨ c ≠ tr.mChar2 ∨
      id ≠ E.getPublicID tr.mChar1) :
    ∃ w', Trade.request E w this c id = some (false, w') ∧
      w'.trades this = none ∧ w'.trading tr.mChar1 = none ∧ w'.trading tr.mChar2 = none ∧
      w'.sent = w.sent
        ++ (if c ≠ tr.mChar1 then [(tr.mChar1, MessageOut.new MsgId.GPMSG_TRADE_CANCEL)]
            else [])
        ++ (if c ≠ tr.mChar2 then [(tr.mChar2, MessageOut.new MsgId.GPMSG_TRADE_CANCEL)]
            else []) ∧
      (∀ p, (p = tr.mChar1 ∨ p = tr.mChar2) → p ≠ c →
        (p, MessageOut.new MsgId.GPMSG_TRADE_CANCEL) ∈ w'.sent) ∧
      w'.possessions = w.possessions := by
  have hbad2 : tr.mState ≠ TradeState.TRADE_INIT ∨ c ≠ tr.mChar2 ∨
      E.getPublicID tr.mChar1 ≠ id := by
    rcases hbad with h | h | h
    · exact Or.inl h
    · exact Or.inr (Or.inl h)
    · exact Or.inr (Or.inr (fun e => h e.symm))
  obtain ⟨w1, hc, hp, ht, hg, hs⟩ := Trade.cancel_eq w this tr (some c) hlive
  have hs2 : w1.sent = w.sent
        ++ (if c ≠ tr.mChar1 then [(tr.mChar1, MessageOut.new MsgId.GPMSG_TRADE_CANCEL)]
            else [])
        ++ (if c ≠ tr.mChar2 then [(tr.mChar2, MessageOut.new MsgId.GPMSG_TRADE_CANCEL)]
            else []) := by
    simpa using hs
  refine ⟨w1, by simp [Trade.request, hlive, hbad2, hc], by simp [ht], by simp [hg],
    by simp [hg], hs2, ?_, hp⟩
  intro p hp hpc
  rw [hs2]
  have hcp : c ≠ p := fun e => hpc e.symm
  rcases hp with rfl | rfl
  · simp [hcp]
  · simp [hcp]

/-- C5, on a concrete session: the session between characters 1 and 2 is already
in `TRADE_EXIT` when character 2 repeats its acknowledgement. -/
theorem request_stale_cancels_witness :
    worldReady.trades 0 = some
        { mChar1 := 1, mChar2 := 2, mState := TradeState.TRADE_EXIT,
          mItems1 := [{ id := 5, slot := 2, amount := 3 }],
          mItems2 := [{ id := 9, slot := 0, amount := 1 }] } ∧
      ∃ w', Trade.request slotsEnv worldReady 0 2 1 = some (false, w') ∧
        w'.trades 0 = none ∧ w'.trading 1 = none ∧ w'.trading 2 = none ∧
        w'.sent = worldReady.sent
          ++ (if (2 : CharId) ≠ 1 then [(1, MessageOut.new MsgId.GPMSG_TRADE_CANCEL)] else [])
          ++ (if (2 : CharId) ≠ 2 then [(2, MessageOut.new MsgId.GPMSG_TRADE_CANCEL)] else []) ∧
        (∀ p, (p = 1 ∨ p = 2) → p ≠ 2 →
          (p, MessageOut.new MsgId.GPMSG_TRADE_CANCEL) ∈ w'.sent) ∧
        w'.possessions = worldReady.possessions :=
  ⟨by decide,
    request_stale_cancels slotsEnv worldReady 0
      { mChar1 := 1, mChar2 := 2, mState := TradeState.TRADE_EXIT,
        mItems1 := [{ id := 5, slot := 2, amount := 3 }],
        mItems2 := [{ id := 9, slot := 0, amount := 1 }] } 2 1 (by decide)
      (Or.inl (by decide))⟩

/-- C6: cancellation notifies the others.  On a live session in any state with
two distinct participants, `cancel(c)` returns; the messages it sends are
`GPMSG_TRADE_CANCEL` to exactly the participants different from `c` (one message
when `c` is a participant, two when `c` is the null pointer or another
character) and nothing to `c`; the session is deleted, both back-references are
cleared and no ledger is modified. -/
theorem cancel_notifies_the_others (w : World L) (this : TradeId) (tr : Trade)
    (c : Option CharId) (hlive : w.trades this = some tr) (hne : tr.mChar1 ≠ tr.mChar2) :
    ∃ w' new, Trade.cancel w this c = some w' ∧ w'.sent = w.sent ++ new ∧
      (∀ p m, (p, m) ∈ new ↔
        ((p = tr.mChar1 ∨ p = tr.mChar2) ∧ some p ≠ c ∧
          m = MessageOut.new MsgId.GPMSG_TRADE_CANCEL)) ∧
      (c = some tr.mChar1 ∨ c = some tr.mChar2 → new.length = 1) ∧
      (c ≠ some tr.mChar1 ∧ c ≠ some tr.mChar2 → new.length = 2) ∧
      w'.trades this = none ∧ w'.trading tr.mChar1 = none ∧ w'.trading tr.mChar2 = none ∧
      w'.possessions = w.possessions := by
  obtain ⟨w1, hc, hp, ht, hg, hs⟩ := Trade.cancel_eq w this tr c hlive
  refine ⟨w1, _, hc, by rw [hs, List.append_assoc], ?_, ?_, ?_, by simp [ht], by simp [hg],
    by simp [hg], hp⟩
  · intro p m
    by_cases h1 : c = some tr.mChar1 <;> by_cases h2 : c = some tr.mChar2
    · exact absurd (Option.some.inj (h1.symm.trans h2)) hne
    · subst h1
      simp only [ne_eq, not_true_eq_false, ↓reduceIte, h2, not_false_eq_true, List.nil_append,
        List.mem_singleton, Prod.mk.injEq, Option.some.injEq]
      constructor
      · rintro ⟨rfl, rfl⟩
        exact ⟨Or.inr rfl, fun e => hne e.symm, rfl⟩
      · rintro ⟨h | h, h3, rfl⟩
        · exact absurd h h3
        · exact ⟨h, rfl⟩
    · subst h2
      simp only [ne_eq, h1, not_false_eq_true, ↓reduceIte, not_true_eq_false, List.append_nil,
        List.mem_singleton, Prod.mk.injEq, Option.some.injEq]
      constructor
      · rintro ⟨rfl, rfl⟩
        exact ⟨Or.inl rfl, hne, rfl⟩
      · rintro ⟨h | h, h3, rfl⟩
        · exact ⟨h, rfl⟩
        · exact absurd h h3
    · simp only [ne_eq, h1, not_false_eq_true, ↓reduceIte, h2, List.singleton_append,
        List.mem_cons, Prod.mk.injEq, List.mem_singleton, List.not_mem_nil, or_false]
      constructor
      · rintro (⟨rfl, rfl⟩ | ⟨rfl, rfl⟩)
        · exact ⟨Or.inl rfl, fun e => h1 e.symm, rfl⟩
        · exact ⟨Or.inr rfl, fun e => h2 e.symm, rfl⟩
      · rintro ⟨h | h, -, rfl⟩
        · exact Or.inl ⟨h, rfl⟩
        · exact Or.inr ⟨h, rfl⟩
  · rintro (h | h)
    · simp [h, hne]
    · have hne2 : ¬ tr.mChar2 = tr.mChar1 := fun e => hne e.symm
      simp [h, hne2]
  · rintro ⟨h1, h2⟩
    simp [h1, h2]

/-- C6, on a concrete session: character 1 cancels the session it has with
character 2; the only message is the cancellation sent to character 2. -/
theorem cancel_notifies_the_others_witness :
    worldReady.trades 0 = some
        { mChar1 := 1, mChar2 := 2, mState := TradeState.TRADE_EXIT,
          mItems1 := [{ id := 5, slot := 2, amount := 3 }],
          mItems2 := [{ id := 9, slot := 0, amount := 1 }] } ∧
      (Trade.cancel worldReady 0 (some 1)).map (fun w => w.sent.drop worldReady.sent.length)
        = some [(2, MessageOut.new MsgId.GPMSG_TRADE_CANCEL)] ∧
      ∃ w' new, Trade.cancel worldReady 0 (some 1) = some w' ∧
        w'.sent = worldReady.sent ++ new ∧
        (∀ p m, (p, m) ∈ new ↔
          ((p = 1 ∨ p = 2) ∧ some p ≠ some 1 ∧
            m = MessageOut.new MsgId.GPMSG_TRADE_CANCEL)) ∧
        (some 1 = some 1 ∨ some 1 = some 2 → new.length = 1) ∧
        (some 1 ≠ some 1 ∧ some 1 ≠ some 2 → new.length = 2) ∧
        w'.trades 0 = none ∧ w'.trading 1 = none ∧ w'.trading 2 = none ∧
        w'.possessions = worldReady.possessions :=
  ⟨by decide, by decide,
    cancel_notifies_the_others worldReady 0
      { mChar1 := 1, mChar2 := 2, mState := TradeState.TRADE_EXIT,
        mItems1 := [{ id := 5, slot := 2, amount := 3 }],
        mItems2 := [{ id := 9, slot := 0, amount := 1 }] } (some 1) (by decide) (by decide)⟩

/-- C7: constructing a session for an initiator `c1` and a responder `c2`,
neither of which has a session back-reference, yields a session in `TRADE_INIT`
with both offer lists empty, sets the back-references of both characters to the
new session, and sends exactly one message: a `GPMSG_TRADE_REQUEST` to the
responder whose only field is the short written from the initiator's public id
(the id itself when it fits 16 bits).  Nothing is sent to an initiator distinct
from the responder, and no ledger or other session changes. -/
theorem ctor_requests_trade (E : Env L) (w : World L) (this : TradeId) (c1 c2 : CharId)
    (hfree1 : w.trading c1 = none) (hfree2 : w.trading c2 = none) :
    (Trade.ctor E w this c1 c2).trades this = some
        { mChar1 := c1, mChar2 := c2, mState := TradeState.TRADE_INIT,
          mItems1 := [], mItems2 := [] } ∧
      (Trade.ctor E w this c1 c2).trading c1 = some this ∧
      (Trade.ctor E w this c1 c2).trading c2 = some this ∧
      (Trade.ctor E w this c1 c2).sent = w.sent ++
        [(c2, { id := MsgId.GPMSG_TRADE_REQUEST,
                body := [Field.short (E.getPublicID c1 % 65536)] })] ∧
      (0 ≤ E.getPublicID c1 ∧ E.getPublicID c1 < 65536 →
        (Trade.ctor E w this c1 c2).sent = w.sent ++
          [(c2, { id := MsgId.GPMSG_TRADE_REQUEST,
                  body := [Field.short (E.getPublicID c1)] })]) ∧
      (c1 ≠ c2 → ∀ m ∈ (Trade.ctor E w this c1 c2).sent, m ∉ w.sent → m.1 ≠ c1) ∧
      (Trade.ctor E w this c1 c2).possessions = w.possessions ∧
      (∀ t, t ≠ this → (Trade.ctor E w this c1 c2).trades t = w.trades t) ∧
      (∀ c, c ≠ c1 → c ≠ c2 → (Trade.ctor E w this c1 c2).trading c = w.trading c) := by
  rw [Trade.ctor_free E w this c1 c2 hfree1 hfree2]
  have hs : ((((w.store this
            { mChar1 := c1, mChar2 := c2, mState := TradeState.TRADE_INIT,
              mItems1 := [], mItems2 := [] }).send c2
          ((MessageOut.new MsgId.GPMSG_TRADE_REQUEST).writeShort (E.getPublicID c1))).setTrading
          c1 (some this)).setTrading c2 (some this)).sent = w.sent ++
      [(c2, { id := MsgId.GPMSG_TRADE_REQUEST,
              body := [Field.short (E.getPublicID c1 % 65536)] })] := by
    simp [World.setTrading, World.send, World.store, MessageOut.new, MessageOut.writeShort]
  refine ⟨by simp [World.setTrading, World.send, World.store], ?_, ?_, hs, ?_, ?_,
    rfl, ?_, ?_⟩
  · by_cases h : c1 = c2 <;> simp [World.setTrading, h]
  · simp [World.setTrading]
  · rintro ⟨h0, h1⟩
    rw [hs, Int.emod_eq_of_lt h0 h1]
  · intro hne m hm hnot
    rw [hs] at hm
    simp only [List.mem_append, List.mem_singleton] at hm
    rcases hm with hm | rfl
    · exact absurd hm hnot
    · exact fun e => hne e.symm
  · intro t ht
    simp [World.setTrading, World.send, World.store, ht]
  · intro c h1 h2
    simp [World.setTrading, World.send, World.store, h1, h2]

/-- C7, on a concrete call: character 1, whose public id is 1, asks character 2
for a trade; neither is in a session. -/
theorem ctor_requests_trade_witness :
    world0.trading 1 = none ∧ world0.trading 2 = none ∧
      (Trade.ctor slotsEnv world0 0 1 2).trades 0 = some
        { mChar1 := 1, mChar2 := 2, mState := TradeState.TRADE_INIT,
          mItems1 := [], mItems2 := [] } ∧
      (Trade.ctor slotsEnv world0 0 1 2).sent = world0.sent ++
        [(2, { id := MsgId.GPMSG_TRADE_REQUEST, body := [Field.short 1] })] :=
  ⟨rfl, rfl, (ctor_requests_trade slotsEnv world0 0 1 2 rfl rfl).1,
    (ctor_requests_trade slotsEnv world0 0 1 2 rfl rfl).2.2.2.2.1 ⟨by decide, by decide⟩⟩

/-! ## One session per character -/

/-- C8: one session per character.  From a world in which every live session is
the one both of its participants refer to (a world without sessions, for
instance), after any sequence of requestTrade calls and cancellations, several
of which may target the same character, every live session is again the one
both of its participants refer to, so that no character takes part in two live
sessions.  And in the world reached, constructing a session for a character that
takes part in a live session deletes that session: the new session is live, both
of its characters refer to it and the older one is gone. -/
theorem requests_keep_one_session (E : Env L) (calls : List SessionCall)
    (w w' : World L) (hinv : w.oneSessionPerCharacter)
    (hrun : World.runSessions E calls w = some w') :
    w'.oneSessionPerCharacter ∧
      (∀ t1 t2 tr1 tr2 c, w'.trades t1 = some tr1 → w'.trades t2 = some tr2 →
        (c = tr1.mChar1 ∨ c = tr1.mChar2) → (c = tr2.mChar1 ∨ c = tr2.mChar2) → t1 = t2) ∧
      (∀ this c1 c2 old tr, w'.trades old = some tr → old ≠ this →
        (c1 = tr.mChar1 ∨ c1 = tr.mChar2 ∨ c2 = tr.mChar1 ∨ c2 = tr.mChar2) →
        (Trade.ctor E w' this c1 c2).trades old = none ∧
          (Trade.ctor E w' this c1 c2).trades this = some
            { mChar1 := c1, mChar2 := c2, mState := TradeState.TRADE_INIT,
              mItems1 := [], mItems2 := [] } ∧
          (Trade.ctor E w' this c1 c2).trading c1 = some this ∧
          (Trade.ctor E w' this c1 c2).trading c2 = some this) := by
  have hgen : w'.oneSessionPerCharacter := by
    induction calls generalizing w with
    | nil =>
      simp only [World.runSessions, Option.some.injEq] at hrun
      subst hrun
      exact hinv
    | cons k ks ih =>
      cases hcall : w.sessionCall E k with
      | none => simp [World.runSessions, hcall] at hrun
      | some w1 =>
        simp only [World.runSessions, hcall, Option.some_bind] at hrun
        refine ih w1 ?_ hrun
        cases k with
        | requestTrade this c1 c2 =>
          simp only [World.sessionCall] at hcall
          split_ifs at hcall
          simp only [Option.some.injEq] at hcall
          subst hcall
          exact (Trade.ctor_keeps_one E w this c1 c2 hinv).2.2.2
        | cancel this c =>
          exact Trade.cancel_keeps_one w w1 this c hinv hcall
  refine ⟨hgen, ?_, ?_⟩
  · intro t1 t2 tr1 tr2 c h1 h2 hc1 hc2
    obtain ⟨a1, a2⟩ := hgen t1 tr1 h1
    obtain ⟨b1, b2⟩ := hgen t2 tr2 h2
    have e1 : w'.trading c = some t1 := by rcases hc1 with rfl | rfl <;> assumption
    have e2 : w'.trading c = some t2 := by rcases hc2 with rfl | rfl <;> assumption
    exact Option.some.inj (e1.symm.trans e2)
  · intro this c1 c2 old tr hold hne hc
    obtain ⟨e1, e2, e3, e4⟩ := Trade.ctor_keeps_one E w' this c1 c2 hgen
    refine ⟨?_, Trade.ctor_live E w' this c1 c2, e1, e2⟩
    rcases e3 old hne with h | h
    · exact h
    · rw [hold] at h
      obtain ⟨g1, g2⟩ := e4 old tr h
      have hno : some this ≠ some old := fun e => hne (Option.some.inj e).symm
      rcases hc with rfl | rfl | rfl | rfl
      · exact absurd (e1.symm.trans g1) hno
      · exact absurd (e1.symm.trans g2) hno
      · exact absurd (e2.symm.trans g1) hno
      · exact absurd (e2.symm.trans g2) hno

/-- C8, on a concrete run: character 1 asks character 2 for a trade (session at
address 0), then character 3 asks character 2 (session at address 1).  The
session at 0 is torn down, which character 1 is told, and characters 2 and 3
refer to the session at 1. -/
theorem requests_keep_one_session_witness :
    world0.oneSessionPerCharacter ∧
      World.runSessions slotsEnv
        [SessionCall.requestTrade 0 1 2, SessionCall.requestTrade 1 3 2] world0
        = some worldSecondRequest ∧
      worldSecondRequest.trades 0 = none ∧
      worldSecondRequest.trades 1 = some
        { mChar1 := 3, mChar2 := 2, mState := TradeState.TRADE_INIT,
          mItems1 := [], mItems2 := [] } ∧
      worldSecondRequest.trading 1 = none ∧ worldSecondRequest.trading 2 = some 1 ∧
      worldSecondRequest.trading 3 = some 1 ∧
      worldSecondRequest.sent
        = [(2, { id := MsgId.GPMSG_TRADE_REQUEST, body := [Field.short 1] }),
           (2, { id := MsgId.GPMSG_TRADE_REQUEST, body := [Field.short 3] }),
           (1, MessageOut.new MsgId.GPMSG_TRADE_CANCEL)] ∧
      worldSecondRequest.oneSessionPerCharacter :=
  ⟨fun t tr h => by simp [world0] at h, rfl, by decide, by decide, by decide, by decide,
    by decide, by decide,
    (requests_keep_one_session slotsEnv
      [SessionCall.requestTrade 0 1 2, SessionCall.requestTrade 1 3 2] world0
      worldSecondRequest (fun t tr h => by simp [world0] at h) rfl).1⟩

/-! ## Acceptance -/

/-- C9: the first acceptance.  For a live session in `TRADE_RUN` with two
distinct participants and either participant `c`, `accept(c)` returns; the
session is then in `TRADE_EXIT` between the same two characters, the only message
sent is one `GPMSG_TRADE_ACCEPT` to the other participant (none to `c`), the
offer entries held for each participant are the same as before, and no ledger,
back-reference or other session has changed. -/
theorem first_accept_moves_to_exit (E : Env L) (w : World L) (this : TradeId) (tr : Trade)
    (c : CharId) (hlive : w.trades this = some tr)
    (hstate : tr.mState = TradeState.TRADE_RUN) (hne : tr.mChar1 ≠ tr.mChar2)
    (hc : c = tr.mChar1 ∨ c = tr.mChar2) :
    ∃ w' tr', Trade.accept E w this c = some w' ∧ w'.trades this = some tr' ∧
      tr'.mState = TradeState.TRADE_EXIT ∧ tr'.between tr.mChar1 tr.mChar2 ∧
      w'.sent = w.sent ++ [(tr.otherOf c, MessageOut.new MsgId.GPMSG_TRADE_ACCEPT)] ∧
      tr.otherOf c ≠ c ∧ (tr.otherOf c = tr.mChar1 ∨ tr.otherOf c = tr.mChar2) ∧
      tr'.itemsOf tr.mChar1 = tr.itemsOf tr.mChar1 ∧
      tr'.itemsOf tr.mChar2 = tr.itemsOf tr.mChar2 ∧
      w'.possessions = w.possessions ∧ w'.trading = w.trading ∧
      ∀ t, t ≠ this → w'.trades t = w.trades t := by
  have hne2 : ¬ tr.mChar2 = tr.mChar1 := fun e => hne e.symm
  rcases hc with rfl | rfl
  · simp only [Trade.accept, hlive, hstate, hne, if_true, if_false, ne_eq, not_true_eq_false]
    refine ⟨_, { tr with mState := TradeState.TRADE_EXIT }, rfl, ?_⟩
    simp [World.send, World.store, Trade.between, Trade.otherOf, Trade.itemsOf, hne, hne2]
    intro t ht
    simp [ht]
  · simp only [Trade.accept, hlive, hstate, if_true, ne_eq, not_true_eq_false, if_false]
    refine ⟨_, { mChar1 := tr.mChar2, mChar2 := tr.mChar1, mState := TradeState.TRADE_EXIT,
                 mItems1 := tr.mItems2, mItems2 := tr.mItems1 }, rfl, ?_⟩
    simp [World.send, World.store, Trade.between, Trade.otherOf, Trade.itemsOf, hne, hne2]
    intro t ht
    simp [ht]

/-- C9, on a concrete session: both characters have made an offer and character
2, the responder, is the first to accept; the roles are swapped and the only
message is the acceptance sent to character 1. -/
theorem first_accept_moves_to_exit_witness :
    worldOffers.trades 0 = some sessionOffers ∧
      (Trade.accept slotsEnv worldOffers 0 2).map
          (fun w => (w.trades 0, w.sent.drop worldOffers.sent.length))
        = some (some { mChar1 := 2, mChar2 := 1, mState := TradeState.TRADE_EXIT,
                       mItems1 := [{ id := 9, slot := 0, amount := 1 }],
                       mItems2 := [{ id := 5, slot := 2, amount := 3 }] },
                [(1, MessageOut.new MsgId.GPMSG_TRADE_ACCEPT)]) ∧
      ∃ w' tr', Trade.accept slotsEnv worldOffers 0 2 = some w' ∧
        w'.trades 0 = some tr' ∧
        tr'.mState = TradeState.TRADE_EXIT ∧ tr'.between 1 2 ∧
        w'.sent = worldOffers.sent
          ++ [(sessionOffers.otherOf 2, MessageOut.new MsgId.GPMSG_TRADE_ACCEPT)] ∧
        sessionOffers.otherOf 2 ≠ 2 ∧
        (sessionOffers.otherOf 2 = 1 ∨ sessionOffers.otherOf 2 = 2) ∧
        tr'.itemsOf 1 = sessionOffers.itemsOf 1 ∧
        tr'.itemsOf 2 = sessionOffers.itemsOf 2 ∧
        w'.possessions = worldOffers.possessions ∧ w'.trading = worldOffers.trading ∧
        ∀ t, t ≠ 0 → w'.trades t = worldOffers.trades t :=
  ⟨by decide, by decide,
    first_accept_moves_to_exit slotsEnv worldOffers 0 sessionOffers 2 (by decide) (by decide)
      (by decide) (Or.inr (by decide))⟩

/-- The settlement of a live session returns and deletes the session. -/
theorem Trade.settle_deletes (E : Env L) (w : World L) (this : TradeId) (tr : Trade)
    (hlive : w.trades this = some tr) :
    ∃ w', Trade.settle E w this tr = some w' ∧ w'.trades this = none := by
  obtain ⟨w1, hc, -, ht, -, -⟩ := Trade.cancel_eq w this tr none hlive
  simp only [Trade.settle]
  split_ifs with hfail
  · refine ⟨_, by rw [hc]; rfl, ?_⟩
    simp [World.commit, ht]
  · refine ⟨_, rfl, ?_⟩
    simp [World.commit, Trade.dtor, World.free]

/-- C10: the settlement is triggered by the second acceptance only.  On a live
session `accept(c)` deletes the session if and only if the session is in
`TRADE_EXIT` and `c` is `mChar2`; in that case the call is the settlement.  An
`accept` by `mChar1` or by any other character while in `TRADE_EXIT`, and an
`accept` by anyone while in `TRADE_INIT`, return the world unchanged (same state
tag, offer lists, ledgers, back-references, no message).  `mChar2` is the
participant who did not make the first acceptance: from `TRADE_RUN`, after
`accept(c)` by a participant `c`, an `accept` by the other participant is the
settlement and another `accept` by `c` returns the world unchanged. -/
theorem accept_settles_iff_second (E : Env L) (w : World L) (this : TradeId) (tr : Trade)
    (c : CharId) (hlive : w.trades this = some tr) :
    ((∃ w', Trade.accept E w this c = some w' ∧ w'.trades this = none) ↔
        (tr.mState = TradeState.TRADE_EXIT ∧ c = tr.mChar2)) ∧
      (tr.mState = TradeState.TRADE_EXIT ∧ c = tr.mChar2 →
        Trade.accept E w this c = Trade.settle E w this tr) ∧
      (tr.mState = TradeState.TRADE_EXIT ∧ c ≠ tr.mChar2 → Trade.accept E w this c = some w) ∧
      (tr.mState = TradeState.TRADE_INIT → Trade.accept E w this c = some w) ∧
      (tr.mState = TradeState.TRADE_RUN → tr.mChar1 ≠ tr.mChar2 →
        (c = tr.mChar1 ∨ c = tr.mChar2) →
        ∃ w1 tr1, Trade.accept E w this c = some w1 ∧ w1.trades this = some tr1 ∧
          Trade.accept E w1 this (tr.otherOf c) = Trade.settle E w1 this tr1 ∧
          Trade.accept E w1 this c = some w1) := by
  have hsettle : tr.mState = TradeState.TRADE_EXIT ∧ c = tr.mChar2 →
      Trade.accept E w this c = Trade.settle E w this tr := by
    rintro ⟨h1, h2⟩
    simp [Trade.accept, hlive, h1, h2]
  have hother : tr.mState = TradeState.TRADE_EXIT ∧ c ≠ tr.mChar2 →
      Trade.accept E w this c = some w := by
    rintro ⟨h1, h2⟩
    simp [Trade.accept, hlive, h1, h2]
  have hinit : tr.mState = TradeState.TRADE_INIT → Trade.accept E w this c = some w := by
    intro h1
    simp [Trade.accept, hlive, h1]
  refine ⟨⟨?_, ?_⟩, hsettle, hother, hinit, ?_⟩
  · rintro ⟨w', hacc, hdel⟩
    by_cases hexit : tr.mState = TradeState.TRADE_EXIT
    · by_cases hc : c = tr.mChar2
      · exact ⟨hexit, hc⟩
      · rw [hother ⟨hexit, hc⟩, Option.some.injEq] at hacc
        subst hacc
        rw [hlive] at hdel
        exact absurd hdel (by simp)
    · by_cases hrun : tr.mState = TradeState.TRADE_RUN
      · simp only [Trade.accept, hlive, hrun, if_true] at hacc
        split_ifs at hacc <;>
          (simp only [Option.some.injEq] at hacc
           subst hacc
           simp [World.send, World.store] at hdel)
      · have h0 : tr.mState = TradeState.TRADE_INIT := by
          cases hs : tr.mState <;> simp_all
        rw [hinit h0, Option.some.injEq] at hacc
        subst hacc
        rw [hlive] at hdel
        exact absurd hdel (by simp)
  · intro h
    obtain ⟨w', h1, h2⟩ := Trade.settle_deletes E w this tr hlive
    exact ⟨w', by rw [hsettle h, h1], h2⟩
  · intro hrun hne hc
    have hne2 : ¬ tr.mChar2 = tr.mChar1 := fun e => hne e.symm
    rcases hc with rfl | rfl
    · simp only [Trade.accept, hlive, hrun, hne, if_true, if_false, ne_eq, not_true_eq_false]
      refine ⟨_, { tr with mState := TradeState.TRADE_EXIT }, rfl, ?_, ?_, ?_⟩
      · simp [World.send, World.store]
      · simp [World.send, World.store, Trade.otherOf]
      · simp [World.send, World.store, hne]
    · simp only [Trade.accept, hlive, hrun, if_true, ne_eq, not_true_eq_false, if_false]
      refine ⟨_, { mChar1 := tr.mChar2, mChar2 := tr.mChar1, mState := TradeState.TRADE_EXIT,
                   mItems1 := tr.mItems2, mItems2 := tr.mItems1 }, rfl, ?_, ?_, ?_⟩
      · simp [World.send, World.store]
      · simp [World.send, World.store, Trade.otherOf, hne2]
      · simp [World.send, World.store, hne2]

/-- C10, on a concrete session in `TRADE_EXIT` after the acceptance of character
1: a second `accept` by 1 changes nothing, and the `accept` by 2 is the
settlement and deletes the session. -/
theorem accept_settles_iff_second_witness :
    worldReady.trades 0 = some sessionReady ∧
      Trade.accept slotsEnv worldReady 0 1 = some worldReady ∧
      Trade.accept slotsEnv worldReady 0 2 = Trade.settle slotsEnv worldReady 0 sessionReady ∧
      ∃ w', Trade.accept slotsEnv worldReady 0 2 = some w' ∧ w'.trades 0 = none :=
  ⟨by decide,
    (accept_settles_iff_second slotsEnv worldReady 0 sessionReady 1 (by decide)).2.2.1
      ⟨by decide, by decide⟩,
    (accept_settles_iff_second slotsEnv worldReady 0 sessionReady 2 (by decide)).2.1
      ⟨by decide, by decide⟩,
    (accept_settles_iff_second slotsEnv worldReady 0 sessionReady 2 (by decide)).1.2
      ⟨by decide, by decide⟩⟩

/-! ## The settlement algorithm -/

/-- The first entry of a list passes its steps exactly when its three checks
hold on the ledgers given. -/
theorem entrySucceeds_zero (E : Env L) (i : TradedItem) (rest : TradedItems) (a b : L) :
    entrySucceeds E (i :: rest) a b 0 ↔
      (i.id = E.getItem a i.slot ∧ (E.removeFromSlot a i.slot i.amount).2 = 0 ∧
        (E.insert b i.id i.amount).2 = 0) := by
  simp [entrySucceeds, offersRemoved, offersInserted]

/-- A later entry passes its steps exactly when it does so in the rest of the
list, from the ledgers the first entry leaves. -/
theorem entrySucceeds_succ (E : Env L) (i : TradedItem) (rest : TradedItems) (a b : L)
    (k : Nat) :
    entrySucceeds E (i :: rest) a b (k + 1) ↔
      entrySucceeds E rest (E.removeFromSlot a i.slot i.amount).1 (E.insert b i.id i.amount).1
        k := by
  simp [entrySucceeds, offersRemoved, offersInserted]

/-- When the first entry passes its three steps, `performTrade` goes on with the
rest of the list on the ledgers that entry leaves. -/
theorem performTrade_cons_passed (E : Env L) (i : TradedItem) (rest : TradedItems) (a b : L)
    (h1 : i.id = E.getItem a i.slot) (h2 : (E.removeFromSlot a i.slot i.amount).2 = 0)
    (h3 : (E.insert b i.id i.amount).2 = 0) :
    performTrade E (i :: rest) a b =
      performTrade E rest (E.removeFromSlot a i.slot i.amount).1 (E.insert b i.id i.amount).1 := by
  rw [performTrade, if_neg (not_not.mpr h1), if_neg (not_not.mpr h2), if_neg (not_not.mpr h3)]

/-- The function `performTrade` returns true exactly when every entry, in list
order, passes its steps. -/
theorem performTrade_true_iff (E : Env L) (items : TradedItems) (a b : L) :
    (performTrade E items a b).1 = true ↔
      ∀ k, k < items.length → entrySucceeds E items a b k := by
  induction items generalizing a b with
  | nil => simp [performTrade]
  | cons i rest ih =>
    constructor
    · intro h k hk
      simp only [performTrade] at h
      split_ifs at h with h1 h2 h3
      cases k with
      | zero =>
        rw [entrySucceeds_zero]
        exact ⟨not_not.mp h1, not_not.mp h2, not_not.mp h3⟩
      | succ k =>
        rw [entrySucceeds_succ]
        exact (ih _ _).mp h k (by simpa using hk)
    · intro h
      obtain ⟨h1, h2, h3⟩ := (entrySucceeds_zero E i rest a b).mp (h 0 (by simp))
      rw [performTrade_cons_passed E i rest a b h1 h2 h3]
      refine (ih _ _).mpr ?_
      intro k hk
      exact (entrySucceeds_succ E i rest a b k).mp (h (k + 1) (by simpa using hk))

/-- The function `performTrade` stops at the first step that fails: it returns
false, and the two views hold the ledgers left by the entries before the failing
one, with the removal of the failing entry applied only when its id check
passed and its insertion applied only when its removal was complete. -/
theorem performTrade_stops (E : Env L) (items : TradedItems) (a b : L) (k : Nat)
    (i : TradedItem) (hi : items.get? k = some i)
    (hbefore : ∀ j, j < k → entrySucceeds E items a b j)
    (hfail : ¬ entrySucceeds E items a b k) :
    performTrade E items a b =
      (false,
        if i.id = E.getItem (offersRemoved E (items.take k) a) i.slot then
          (E.removeFromSlot (offersRemoved E (items.take k) a) i.slot i.amount).1
        else offersRemoved E (items.take k) a,
        if i.id = E.getItem (offersRemoved E (items.take k) a) i.slot ∧
            (E.removeFromSlot (offersRemoved E (items.take k) a) i.slot i.amount).2 = 0 then
          (E.insert (offersInserted E (items.take k) b) i.id i.amount).1
        else offersInserted E (items.take k) b) := by
  induction items generalizing a b k with
  | nil => simp at hi
  | cons i0 rest ih =>
    cases k with
    | zero =>
      simp only [List.get?_cons_zero, Option.some.injEq] at hi
      subst hi
      rw [entrySucceeds_zero] at hfail
      simp only [List.take_zero, offersRemoved, offersInserted, List.foldl_nil]
      rw [performTrade]
      by_cases h1 : i0.id = E.getItem a i0.slot
      · by_cases h2 : (E.removeFromSlot a i0.slot i0.amount).2 = 0
        · have h3 : ¬ (E.insert b i0.id i0.amount).2 = 0 := fun h3 => hfail ⟨h1, h2, h3⟩
          rw [if_neg (not_not.mpr h1), if_neg (not_not.mpr h2), if_pos h3, if_pos h1,
            if_pos ⟨h1, h2⟩]
        · rw [if_neg (not_not.mpr h1), if_pos h2, if_pos h1, if_neg (fun h => h2 h.2)]
      · rw [if_pos h1, if_neg h1, if_neg (fun h => h1 h.1)]
    | succ k =>
      simp only [List.get?_cons_succ] at hi
      obtain ⟨h1, h2, h3⟩ := (entrySucceeds_zero E i0 rest a b).mp (hbefore 0 (by simp))
      have hrec := ih (E.removeFromSlot a i0.slot i0.amount).1 (E.insert b i0.id i0.amount).1 k hi
        (fun j hj => (entrySucceeds_succ E i0 rest a b j).mp (hbefore (j + 1) (by omega)))
        (fun h => hfail ((entrySucceeds_succ E i0 rest a b k).mpr h))
      rw [performTrade_cons_passed E i0 rest a b h1 h2 h3, hrec]
      simp [offersRemoved, offersInserted]

/-- Both offer lists are settled exactly when every entry of the first list and
then every entry of the second list passes its steps. -/
theorem performBoth_true_iff (E : Env L) (tr : Trade) (v1 v2 : L) :
    (performBoth E tr v1 v2).1 = true ↔ settlementSucceeds E tr v1 v2 := by
  unfold settlementSucceeds
  rw [← performTrade_true_iff, ← performTrade_true_iff]
  by_cases h1 : (performTrade E tr.mItems1 v1 v2).1 = true
  · obtain ⟨a1, a2⟩ := performTrade_true E tr.mItems1 v1 v2 h1
    simp only [performBoth, h1, if_true, true_and, a1, a2]
  · simp [performBoth, h1]

/-- The first acceptance, field by field: from `TRADE_RUN` with two distinct
participants, after `accept(c)` by a participant the session is in `TRADE_EXIT`
with `c` as first participant holding its own list, the other participant as
second holding its own, and `GPMSG_TRADE_ACCEPT` has been sent to the other. -/
theorem Trade.accept_first (E : Env L) (w : World L) (this : TradeId) (tr : Trade)
    (c : CharId) (hlive : w.trades this = some tr)
    (hstate : tr.mState = TradeState.TRADE_RUN) (hne : tr.mChar1 ≠ tr.mChar2)
    (hc : c = tr.mChar1 ∨ c = tr.mChar2) :
    Trade.accept E w this c = some
      ((w.store this
          { mChar1 := c, mChar2 := tr.otherOf c, mState := TradeState.TRADE_EXIT,
            mItems1 := tr.itemsOf c, mItems2 := tr.itemsOf (tr.otherOf c) }).send
        (tr.otherOf c) (MessageOut.new MsgId.GPMSG_TRADE_ACCEPT)) := by
  have hne2 : ¬ tr.mChar2 = tr.mChar1 := fun e => hne e.symm
  rcases hc with rfl | rfl
  · simp [Trade.accept, hlive, hstate, hne, hne2, Trade.otherOf, Trade.itemsOf]
  · simp [Trade.accept, hlive, hstate, hne, hne2, Trade.otherOf, Trade.itemsOf]

/-- C12 as stated fails.  With a ledger whose removal returns the quantity
actually removed, as the claim has it: three of item 5 are offered from a slot
that holds three, the removal reports the full quantity 3, and `performTrade`
returns false, so that the `accept` of the second participant cancels the
session; seven are offered from the same slot, the removal reports 0 and removes
nothing, and `performTrade` does not stop but inserts seven into the other
ledger and returns true. -/
theorem reported_removal_is_read_as_remainder :
    reportingEnv.removeFromSlot [(0, 0), (0, 0), (5, 3)] 2 3 = ([(0, 0), (0, 0), (0, 0)], 3) ∧
      performTrade reportingEnv [{ id := 5, slot := 2, amount := 3 }]
          [(0, 0), (0, 0), (5, 3)] [(9, 1), (0, 0)]
        = (false, [(0, 0), (0, 0), (0, 0)], [(9, 1), (0, 0)]) ∧
      (Trade.accept reportingEnv worldReady 0 2).map
          (fun w => (w.trades 0, w.sent.drop worldReady.sent.length))
        = some (none, [(1, MessageOut.new MsgId.GPMSG_TRADE_CANCEL),
                       (2, MessageOut.new MsgId.GPMSG_TRADE_CANCEL)]) ∧
      reportingEnv.removeFromSlot [(0, 0), (0, 0), (5, 3)] 2 7 = ([(0, 0), (0, 0), (5, 3)], 0) ∧
      performTrade reportingEnv [{ id := 5, slot := 2, amount := 7 }]
          [(0, 0), (0, 0), (5, 3)] [(9, 1), (0, 0)]
        = (true, [(0, 0), (0, 0), (5, 3)], [(9, 1), (5, 7)]) :=
  ⟨rfl, rfl, rfl, rfl, rfl⟩

/-- C12 as amended: the result of a removal is read as the quantity that could
not be removed.  For an entry whose id check passes, `performTrade` counts the
removal as successful exactly when `removeFromSlot` returns 0: a non-zero result
makes it return false at once, without insertion and without processing the
rest, and a result of 0 lets it go on with the insertion.  The call site in
`chr_inv_change` reads the result of `remove` the same way: a non-zero result
cancels the view and pushes false, a result of 0 lets the loop go on. -/
theorem removal_succeeds_iff_zero_returned (E : Env L) (i : TradedItem) (rest : TradedItems)
    (a b : L) (hid : i.id = E.getItem a i.slot) :
    ((E.removeFromSlot a i.slot i.amount).2 ≠ 0 →
        performTrade E (i :: rest) a b = (false, (E.removeFromSlot a i.slot i.amount).1, b)) ∧
      ((E.removeFromSlot a i.slot i.amount).2 = 0 →
        performTrade E (i :: rest) a b =
          if (E.insert b i.id i.amount).2 ≠ 0 then
            (false, (E.removeFromSlot a i.slot i.amount).1, (E.insert b i.id i.amount).1)
          else performTrade E rest (E.removeFromSlot a i.slot i.amount).1
            (E.insert b i.id i.amount).1) ∧
      ((performTrade E (i :: rest) a b).1 = true → (E.removeFromSlot a i.slot i.amount).2 = 0) ∧
      (∀ (I : Type) (S : ScriptEnv I) (w : World (Possessions I)) (q : CharId) (id nb : Int)
          (more : List (Option Int)) (st : ScriptState I), id ≠ 0 → nb < 0 →
        ((S.remove st.inv.mPoss id (-nb)).2 ≠ 0 →
          chr_inv_change_loop S w q (some id :: some nb :: more) st =
            ({ st with
                inv := Inventory.cancel w
                  ({ st.inv with mPoss := (S.remove st.inv.mPoss id (-nb)).1 }) },
              some false)) ∧
        ((S.remove st.inv.mPoss id (-nb)).2 = 0 →
          chr_inv_change_loop S w q (some id :: some nb :: more) st =
            chr_inv_change_loop S w q more
              { st with inv := { st.inv with mPoss := (S.remove st.inv.mPoss id (-nb)).1 } })) := by
  refine ⟨?_, ?_, ?_, ?_⟩
  · intro h
    rw [performTrade, if_neg (not_not.mpr hid), if_pos h]
  · intro h
    rw [performTrade, if_neg (not_not.mpr hid), if_neg (not_not.mpr h)]
  · intro h
    by_contra h2
    rw [performTrade, if_neg (not_not.mpr hid), if_pos h2] at h
    exact absurd h (by simp)
  · intro I S w q id nb more st hid0 hnb
    constructor
    · intro h
      rw [chr_inv_change_loop]
      simp only [hid0, if_false, hnb, if_true, ne_eq, h, not_false_eq_true]
    · intro h
      rw [chr_inv_change_loop]
      simp only [hid0, if_false, hnb, if_true, ne_eq, h, not_true_eq_false]

/-- C12 as amended, on a concrete entry: three of item 5 offered from a slot that
holds three; the removal returns 0 and the entry is moved to the other ledger. -/
theorem removal_succeeds_iff_zero_returned_witness :
    (5 : Int) = slotsEnv.getItem [(0, 0), (0, 0), (5, 3)] 2 ∧
      (slotsEnv.removeFromSlot [(0, 0), (0, 0), (5, 3)] 2 3).2 = 0 ∧
      performTrade slotsEnv [{ id := 5, slot := 2, amount := 3 }]
          [(0, 0), (0, 0), (5, 3)] [(9, 1), (0, 0)]
        = (true, [(0, 0), (0, 0), (0, 0)], [(9, 1), (5, 3)]) ∧
      ((performTrade slotsEnv [{ id := 5, slot := 2, amount := 3 }]
          [(0, 0), (0, 0), (5, 3)] [(9, 1), (0, 0)]).1 = true →
        (slotsEnv.removeFromSlot [(0, 0), (0, 0), (5, 3)] 2 3).2 = 0) :=
  ⟨by decide, by decide, rfl,
    (removal_succeeds_iff_zero_returned slotsEnv { id := 5, slot := 2, amount := 3 } []
      [(0, 0), (0, 0), (5, 3)] [(9, 1), (0, 0)] (by decide)).2.2.1⟩

/-! ## Adding an offer -/

/-- C13: a full offer list is silently ignored.  For a live session in
`TRADE_RUN` or `TRADE_EXIT` and a participant whose list already holds 50 entries
(or more), `addItem` returns the world as it was: both lists, the state tag
(`TRADE_EXIT` included), every ledger and back-reference are unchanged and no
message is sent. -/
theorem addItem_full_list_is_ignored (E : Env L) (w : World L) (this : TradeId) (tr : Trade)
    (c : CharId) (slot amount : Int) (hlive : w.trades this = some tr)
    (hstate : tr.mState ≠ TradeState.TRADE_INIT) (hc : c = tr.mChar1 ∨ c = tr.mChar2)
    (hfull : 50 ≤ (tr.itemsOf c).length) :
    Trade.addItem E w this c slot amount = some w := by
  have hc2 : ¬ (c ≠ tr.mChar1 ∧ c ≠ tr.mChar2) := by
    rintro ⟨h1, h2⟩
    rcases hc with h | h
    · exact h1 h
    · exact h2 h
  simp only [Trade.itemsOf] at hfull
  simp only [Trade.addItem, hlive, hstate, if_false, hc2, ge_iff_le, hfull, if_true]

/-- C13, on a concrete session: the list of character 1 holds fifty entries and
the session is in `TRADE_EXIT`; a further offer by 1 changes nothing. -/
theorem addItem_full_list_is_ignored_witness :
    worldFull.trades 0 = some sessionFull ∧
      50 ≤ (sessionFull.itemsOf 1).length ∧
      Trade.addItem slotsEnv worldFull 0 1 2 1 = some worldFull :=
  ⟨by decide, by decide,
    addItem_full_list_is_ignored slotsEnv worldFull 0 sessionFull 1 2 1 (by decide) (by decide)
      (Or.inr (by decide)) (by decide)⟩

/-- C14: an offer is valid only in `TRADE_RUN` or `TRADE_EXIT`.  For a live
session in `TRADE_INIT`, `addItem` with any arguments returns the world as it
was: the state is still `TRADE_INIT`, the offer lists are what they were and no
message is sent.  In particular both lists of a newly constructed session stay
empty. -/
theorem addItem_in_init_is_ignored (E : Env L) (w : World L) (this : TradeId) (tr : Trade)
    (c : CharId) (slot amount : Int) (hlive : w.trades this = some tr)
    (hstate : tr.mState = TradeState.TRADE_INIT) :
    Trade.addItem E w this c slot amount = some w ∧
      ∀ (w0 : World L) (c1 c2 : CharId),
        Trade.addItem E (Trade.ctor E w0 this c1 c2) this c slot amount
            = some (Trade.ctor E w0 this c1 c2) ∧
          (Trade.ctor E w0 this c1 c2).trades this = some
            { mChar1 := c1, mChar2 := c2, mState := TradeState.TRADE_INIT,
              mItems1 := [], mItems2 := [] } := by
  refine ⟨by simp only [Trade.addItem, hlive, hstate, if_true], ?_⟩
  intro w0 c1 c2
  have h : (Trade.ctor E w0 this c1 c2).trades this = some
      { mChar1 := c1, mChar2 := c2, mState := TradeState.TRADE_INIT,
        mItems1 := [], mItems2 := [] } :=
    Trade.ctor_live E w0 this c1 c2
  exact ⟨by simp only [Trade.addItem, h, if_true], h⟩

/-- C14, on a concrete session: character 1 offers from slot 2 before character 2
has acknowledged the request. -/
theorem addItem_in_init_is_ignored_witness :
    (Trade.ctor slotsEnv world0 0 1 2).trades 0 = some
        { mChar1 := 1, mChar2 := 2, mState := TradeState.TRADE_INIT,
          mItems1 := [], mItems2 := [] } ∧
      Trade.addItem slotsEnv (Trade.ctor slotsEnv world0 0 1 2) 0 1 2 3
        = some (Trade.ctor slotsEnv world0 0 1 2) :=
  ⟨by decide,
    (addItem_in_init_is_ignored slotsEnv (Trade.ctor slotsEnv world0 0 1 2) 0
      { mChar1 := 1, mChar2 := 2, mState := TradeState.TRADE_INIT,
        mItems1 := [], mItems2 := [] } 1 2 3 (by decide) (by decide)).1⟩

/-- What `Trade::addItem` does when it records an entry, field by field. -/
theorem Trade.addItem_recorded (E : Env L) (w : World L) (this : TradeId) (tr : Trade)
    (c : CharId) (slot amount : Int) (hlive : w.trades this = some tr)
    (hstate : tr.mState ≠ TradeState.TRADE_INIT) (hc : c = tr.mChar1 ∨ c = tr.mChar2)
    (hlen : (tr.itemsOf c).length < 50) (hid : E.getItem (w.possessions c) slot ≠ 0) :
    ∃ w', Trade.addItem E w this c slot amount = some w' ∧
      w'.possessions = w.possessions ∧ w'.trading = w.trading ∧
      w'.trades = (fun x => if x = this then
        some (tr.withEntry c
          { id := E.castId (E.getItem (w.possessions c) slot), slot := E.castSlot slot,
            amount := E.castAmount amount })
        else w.trades x) ∧
      w'.sent = w.sent ++ [(tr.otherOf c,
        { id := MsgId.GPMSG_TRADE_ADD_ITEM,
          body := [Field.short (E.getItem (w.possessions c) slot % 65536),
                   Field.byte (amount % 256)] })] := by
  have hc2 : ¬ (c ≠ tr.mChar1 ∧ c ≠ tr.mChar2) := by
    rintro ⟨h1, h2⟩
    rcases hc with h | h
    · exact h1 h
    · exact h2 h
  have hlen2 : ¬ (if c = tr.mChar1 then tr.mItems1 else tr.mItems2).length ≥ 50 := by
    simpa [Trade.itemsOf] using hlen
  simp only [Trade.addItem, hlive, hstate, if_false, hc2, hlen2, Inventory.open, hid]
  refine ⟨_, rfl, ?_, rfl, ?_, ?_⟩
  · funext x
    by_cases hx : x = c <;> simp [World.commit, World.store, World.send, hx]
  · by_cases h1 : c = tr.mChar1 <;>
      simp [World.commit, World.store, World.send, Trade.withEntry, h1]
  · simp [World.commit, World.store, World.send, Trade.otherOf, MessageOut.new,
      MessageOut.writeShort, MessageOut.writeByte]

/-- What `Trade::addItem` does when it records nothing: the world is as it was. -/
theorem Trade.addItem_dropped (E : Env L) (w : World L) (this : TradeId) (tr : Trade)
    (c : CharId) (slot amount : Int) (hlive : w.trades this = some tr)
    (hstate : tr.mState ≠ TradeState.TRADE_INIT) (hc : c = tr.mChar1 ∨ c = tr.mChar2)
    (hdrop : ¬ ((tr.itemsOf c).length < 50 ∧ E.getItem (w.possessions c) slot ≠ 0)) :
    Trade.addItem E w this c slot amount = some w := by
  have hc2 : ¬ (c ≠ tr.mChar1 ∧ c ≠ tr.mChar2) := by
    rintro ⟨h1, h2⟩
    rcases hc with h | h
    · exact h1 h
    · exact h2 h
  by_cases hlen : (tr.itemsOf c).length < 50
  · have hid : E.getItem (w.possessions c) slot = 0 := by
      by_contra h
      exact hdrop ⟨hlen, h⟩
    have hlen2 : ¬ (if c = tr.mChar1 then tr.mItems1 else tr.mItems2).length ≥ 50 := by
      simpa [Trade.itemsOf] using hlen
    simp only [Trade.addItem, hlive, hstate, if_false, hc2, hlen2, Inventory.open, hid, if_true]
    exact congrArg some (World.commit_same w c)
  · have hfull : (if c = tr.mChar1 then tr.mItems1 else tr.mItems2).length ≥ 50 := by
      simpa [Trade.itemsOf] using hlen
    simp only [Trade.addItem, hlive, hstate, if_false, hc2, hfull, if_true]

/-- C15 as stated fails: the session of `worldReady` is in `TRADE_EXIT`, character
2 is a participant with a single entry, and its offer from slot 1, which is
empty, returns with the session still in `TRADE_EXIT`. -/
theorem addItem_can_leave_exit_in_place :
    worldReady.trades 0 = some sessionReady ∧
      sessionReady.mState = TradeState.TRADE_EXIT ∧
      (Trade.addItem slotsEnv worldReady 0 2 1 1).map (fun w => w.trades 0)
        = some (some sessionReady) ∧
      ¬ ∀ w' tr', Trade.addItem slotsEnv worldReady 0 2 1 1 = some w' →
          w'.trades 0 = some tr' → tr'.mState = TradeState.TRADE_RUN := by
  refine ⟨by decide, by decide, by decide, ?_⟩
  intro h
  have hcall : Trade.addItem slotsEnv worldReady 0 2 1 1 = some worldReady :=
    Trade.addItem_dropped slotsEnv worldReady 0 sessionReady 2 1 1 (by decide) (by decide)
      (Or.inr (by decide)) (by decide)
  have h2 := h worldReady sessionReady hcall (by decide)
  revert h2
  decide

/-- C15 as amended: for a live session in `TRADE_EXIT` and an `addItem` call by a
participant, the call returns and the state afterwards is `TRADE_RUN` if and
only if the call records an entry, that is when the caller's list holds fewer
than 50 entries and the named slot holds an item; a call that records nothing
returns the world as it was, with the session still in `TRADE_EXIT`. -/
theorem addItem_from_exit_runs_iff_recorded (E : Env L) (w : World L) (this : TradeId)
    (tr : Trade) (c : CharId) (slot amount : Int) (hlive : w.trades this = some tr)
    (hstate : tr.mState = TradeState.TRADE_EXIT) (hc : c = tr.mChar1 ∨ c = tr.mChar2) :
    ∃ w' tr', Trade.addItem E w this c slot amount = some w' ∧ w'.trades this = some tr' ∧
      (tr'.mState = TradeState.TRADE_RUN ↔
        ((tr.itemsOf c).length < 50 ∧ E.getItem (w.possessions c) slot ≠ 0)) ∧
      (¬ ((tr.itemsOf c).length < 50 ∧ E.getItem (w.possessions c) slot ≠ 0) →
        w' = w ∧ tr'.mState = TradeState.TRADE_EXIT) := by
  have hstate2 : tr.mState ≠ TradeState.TRADE_INIT := by rw [hstate]; decide
  by_cases hrec : (tr.itemsOf c).length < 50 ∧ E.getItem (w.possessions c) slot ≠ 0
  · obtain ⟨w1, h1, -, -, ht, -⟩ :=
      Trade.addItem_recorded E w this tr c slot amount hlive hstate2 hc hrec.1 hrec.2
    refine ⟨w1, tr.withEntry c
      { id := E.castId (E.getItem (w.possessions c) slot), slot := E.castSlot slot,
        amount := E.castAmount amount }, h1, by rw [ht]; simp, ?_, fun h => absurd hrec h⟩
    simp [Trade.withEntry, hrec]
  · refine ⟨w, tr, Trade.addItem_dropped E w this tr c slot amount hlive hstate2 hc hrec, hlive,
      ?_, fun _ => ⟨rfl, hstate⟩⟩
    simp [hstate, hrec]

/-- C15 as amended, on a concrete session in `TRADE_EXIT`: the offer of character
2 from slot 0, which holds item 9, is recorded and the session is back in
`TRADE_RUN`. -/
theorem addItem_from_exit_runs_iff_recorded_witness :
    worldReady.trades 0 = some sessionReady ∧
      (Trade.addItem slotsEnv worldReady 0 2 0 1).map (fun w => w.trades 0)
        = some (some
          { mChar1 := 1, mChar2 := 2, mState := TradeState.TRADE_RUN,
            mItems1 := [{ id := 5, slot := 2, amount := 3 }],
            mItems2 := [{ id := 9, slot := 0, amount := 1 }, { id := 9, slot := 0, amount := 1 }] }) ∧
      ∃ w' tr', Trade.addItem slotsEnv worldReady 0 2 0 1 = some w' ∧
        w'.trades 0 = some tr' ∧
        (tr'.mState = TradeState.TRADE_RUN ↔
          ((sessionReady.itemsOf 2).length < 50 ∧
            slotsEnv.getItem (worldReady.possessions 2) 0 ≠ 0)) ∧
        (¬ ((sessionReady.itemsOf 2).length < 50 ∧
            slotsEnv.getItem (worldReady.possessions 2) 0 ≠ 0) →
          w' = worldReady ∧ tr'.mState = TradeState.TRADE_EXIT) :=
  ⟨by decide, by decide,
    addItem_from_exit_runs_iff_recorded slotsEnv worldReady 0 sessionReady 2 0 1 (by decide)
      (by decide) (Or.inr (by decide))⟩

/-- C16: the echo of an added offer.  When `addItem` records an entry (live
session not in `TRADE_INIT`, two distinct participants, a caller `c` among them
whose list holds fewer than 50 entries, a slot that holds an item), the call
returns; the entry initialised from the item id found in the caller's slot, the
slot and the amount is appended at the end of the list held for `c`, and it is
the entry of exactly these three values when they fit the fields; the list held
for the counterpart and the two participants are unchanged; the only message
sent is one `GPMSG_TRADE_ADD_ITEM` to the counterpart, not to `c`, whose body is
the short written from the item id followed by the byte written from the amount
(the values themselves when they fit), with no field for the slot: an offer from
any other slot holding the same item sends the same message. -/
theorem addItem_echoes_the_entry (E : Env L) (w : World L) (this : TradeId) (tr : Trade)
    (c : CharId) (slot amount : Int) (hlive : w.trades this = some tr)
    (hstate : tr.mState ≠ TradeState.TRADE_INIT) (hne : tr.mChar1 ≠ tr.mChar2)
    (hc : c = tr.mChar1 ∨ c = tr.mChar2) (hlen : (tr.itemsOf c).length < 50)
    (hid : E.getItem (w.possessions c) slot ≠ 0) :
    ∃ w' tr', Trade.addItem E w this c slot amount = some w' ∧ w'.trades this = some tr' ∧
      tr'.itemsOf c = tr.itemsOf c ++
        [{ id := E.castId (E.getItem (w.possessions c) slot), slot := E.castSlot slot,
           amount := E.castAmount amount }] ∧
      (E.castId (E.getItem (w.possessions c) slot) = E.getItem (w.possessions c) slot →
        E.castSlot slot = slot → E.castAmount amount = amount →
        tr'.itemsOf c = tr.itemsOf c ++
          [{ id := E.getItem (w.possessions c) slot, slot := slot, amount := amount }]) ∧
      tr'.itemsOf (tr.otherOf c) = tr.itemsOf (tr.otherOf c) ∧
      tr'.mChar1 = tr.mChar1 ∧ tr'.mChar2 = tr.mChar2 ∧
      w'.sent = w.sent ++ [(tr.otherOf c,
        { id := MsgId.GPMSG_TRADE_ADD_ITEM,
          body := [Field.short (E.getItem (w.possessions c) slot % 65536),
                   Field.byte (amount % 256)] })] ∧
      (0 ≤ E.getItem (w.possessions c) slot ∧ E.getItem (w.possessions c) slot < 65536 →
        0 ≤ amount ∧ amount < 256 →
        w'.sent = w.sent ++ [(tr.otherOf c,
          { id := MsgId.GPMSG_TRADE_ADD_ITEM,
            body := [Field.short (E.getItem (w.possessions c) slot), Field.byte amount] })]) ∧
      tr.otherOf c ≠ c ∧ (tr.otherOf c = tr.mChar1 ∨ tr.otherOf c = tr.mChar2) ∧
      (∀ slot2, E.getItem (w.possessions c) slot2 = E.getItem (w.possessions c) slot →
        ∃ w2, Trade.addItem E w this c slot2 amount = some w2 ∧ w2.sent = w'.sent) := by
  have hne2 : ¬ tr.mChar2 = tr.mChar1 := fun e => hne e.symm
  obtain ⟨w1, h1, -, -, ht, hs⟩ :=
    Trade.addItem_recorded E w this tr c slot amount hlive hstate hc hlen hid
  have hitems : (tr.withEntry c
        { id := E.castId (E.getItem (w.possessions c) slot), slot := E.castSlot slot,
          amount := E.castAmount amount }).itemsOf c = tr.itemsOf c ++
      [{ id := E.castId (E.getItem (w.possessions c) slot), slot := E.castSlot slot,
         amount := E.castAmount amount }] := by
    rcases hc with rfl | rfl
    · simp [Trade.withEntry, Trade.itemsOf]
    · simp [Trade.withEntry, Trade.itemsOf, hne2]
  refine ⟨w1, _, h1, by rw [ht]; simp, hitems, ?_, ?_, rfl, rfl, hs, ?_, ?_, ?_, ?_⟩
  · intro e1 e2 e3
    rw [hitems, e1, e2, e3]
  · rcases hc with rfl | rfl
    · simp [Trade.withEntry, Trade.itemsOf, Trade.otherOf, hne2]
    · simp [Trade.withEntry, Trade.itemsOf, Trade.otherOf, hne2, hne]
  · rintro ⟨a1, a2⟩ ⟨b1, b2⟩
    rw [hs, Int.emod_eq_of_lt a1 a2, Int.emod_eq_of_lt b1 b2]
  · rcases hc with rfl | rfl
    · simpa [Trade.otherOf] using hne2
    · simpa [Trade.otherOf, hne2] using hne
  · rcases hc with rfl | rfl
    · simp [Trade.otherOf]
    · simp [Trade.otherOf, hne2]
  · intro slot2 h2
    obtain ⟨w2, g1, -, -, -, gs⟩ :=
      Trade.addItem_recorded E w this tr c slot2 amount hlive hstate hc hlen (by rw [h2]; exact hid)
    exact ⟨w2, g1, by rw [gs, hs, h2]⟩

/-- C16, on a concrete session: character 1 adds one more of item 5 from slot 2
to the offers of `worldOffers`; the entry is appended to its own list and the
message, sent to character 2, carries the item id 5 and the quantity 1. -/
theorem addItem_echoes_the_entry_witness :
    worldOffers.trades 0 = some sessionOffers ∧
      (Trade.addItem slotsEnv worldOffers 0 1 2 1).map
          (fun w => (w.trades 0, w.sent.drop worldOffers.sent.length))
        = some (some
            { mChar1 := 1, mChar2 := 2, mState := TradeState.TRADE_RUN,
              mItems1 := [{ id := 5, slot := 2, amount := 3 }, { id := 5, slot := 2, amount := 1 }],
              mItems2 := [{ id := 9, slot := 0, amount := 1 }] },
          [(2, { id := MsgId.GPMSG_TRADE_ADD_ITEM, body := [Field.short 5, Field.byte 1] })]) ∧
      ∃ w' tr', Trade.addItem slotsEnv worldOffers 0 1 2 1 = some w' ∧
        w'.trades 0 = some tr' ∧
        tr'.itemsOf 1 = sessionOffers.itemsOf 1 ++
          [{ id := slotsEnv.castId (slotsEnv.getItem (worldOffers.possessions 1) 2),
             slot := slotsEnv.castSlot 2, amount := slotsEnv.castAmount 1 }] :=
  ⟨by decide, by decide,
    (addItem_echoes_the_entry slotsEnv worldOffers 0 sessionOffers 1 2 1 (by decide) (by decide)
      (by decide) (Or.inl (by decide)) (by decide) (by decide)).imp
      (fun _ h => h.imp (fun _ g => ⟨g.1, g.2.1, g.2.2.1⟩))⟩

/-- The echoed fields and the recorded fields: the short and the byte written
into `GPMSG_TRADE_ADD_ITEM` from an item id and an amount are the id and the
amount read back from the recorded entry exactly when the conversions made by
the initialiser of `TradedItem` keep the low 16 bits of the id and the low 8 bits
of the amount. -/
theorem echoed_fields_eq_recorded_iff (E : Env L) (id amount : Int) :
    (((MessageOut.new MsgId.GPMSG_TRADE_ADD_ITEM).writeShort id).writeByte amount).body
        = [Field.short (E.castId id), Field.byte (E.castAmount amount)] ↔
      (E.castId id = id % 65536 ∧ E.castAmount amount = amount % 256) := by
  simp only [MessageOut.new, MessageOut.writeShort, MessageOut.writeByte, List.nil_append,
    List.singleton_append, List.cons.injEq, Field.short.injEq, Field.byte.injEq, and_true]
  constructor
  · rintro ⟨h1, h2⟩
    exact ⟨h1.symm, h2.symm⟩
  · rintro ⟨h1, h2⟩
    exact ⟨h1.symm, h2.symm⟩

/-- C18 as stated fails: in `worldOffers` the session is in `TRADE_RUN`, character
2 has a single entry, and its offer from slot 1, which is empty, appends
nothing. -/
theorem addItem_empty_slot_records_nothing :
    worldOffers.trades 0 = some sessionOffers ∧
      (sessionOffers.itemsOf 2).length < 50 ∧
      slotsEnv.getItem (worldOffers.possessions 2) 1 = 0 ∧
      (Trade.addItem slotsEnv worldOffers 0 2 1 1).map (fun w => w.trades 0)
        = some (some sessionOffers) := by
  decide

/-- C18 as amended: offers are not checked against the quantity held when they
are recorded.  For a live session in `TRADE_RUN` or `TRADE_EXIT`, a participant
whose list holds fewer than 50 entries and a slot that holds some item, `addItem`
appends the entry for every amount (more than held, zero or negative) and leaves
every ledger as it was; what it does depends on the ledger only through the
item id of the slot, not through `removeFromSlot` or `insert`, which are called
at settlement only. -/
theorem addItem_records_whatever_the_amount (E : Env L) (w : World L) (this : TradeId)
    (tr : Trade) (c : CharId) (slot amount : Int) (hlive : w.trades this = some tr)
    (hstate : tr.mState ≠ TradeState.TRADE_INIT) (hc : c = tr.mChar1 ∨ c = tr.mChar2)
    (hlen : (tr.itemsOf c).length < 50) (hid : E.getItem (w.possessions c) slot ≠ 0) :
    (∃ w' tr', Trade.addItem E w this c slot amount = some w' ∧ w'.trades this = some tr' ∧
        (tr'.mItems1 ++ tr'.mItems2).length = (tr.mItems1 ++ tr.mItems2).length + 1 ∧
        (c = tr.mChar1 → tr'.mItems1 = tr.mItems1 ++
          [{ id := E.castId (E.getItem (w.possessions c) slot), slot := E.castSlot slot,
             amount := E.castAmount amount }]) ∧
        (c ≠ tr.mChar1 → tr'.mItems2 = tr.mItems2 ++
          [{ id := E.castId (E.getItem (w.possessions c) slot), slot := E.castSlot slot,
             amount := E.castAmount amount }]) ∧
        w'.possessions = w.possessions) ∧
      ∀ E2 : Env L, E2.getItem = E.getItem → E2.castId = E.castId →
        E2.castSlot = E.castSlot → E2.castAmount = E.castAmount →
        Trade.addItem E2 w this c slot amount = Trade.addItem E w this c slot amount := by
  constructor
  · obtain ⟨w1, h1, hp, -, ht, -⟩ :=
      Trade.addItem_recorded E w this tr c slot amount hlive hstate hc hlen hid
    refine ⟨w1, tr.withEntry c
      { id := E.castId (E.getItem (w.possessions c) slot), slot := E.castSlot slot,
        amount := E.castAmount amount }, h1, by rw [ht]; simp, ?_, ?_, ?_, hp⟩
    · by_cases h : c = tr.mChar1 <;> simp [Trade.withEntry, h] <;> omega
    · intro h
      simp [Trade.withEntry, h]
    · intro h
      simp [Trade.withEntry, h]
  · intro E2 e1 e2 e3 e4
    simp only [Trade.addItem, e1, e2, e3, e4]

/-- C18 as amended, on a concrete session: character 1 holds three of item 5 in
slot 2 and offers a thousand of them, then none, then minus four; each offer is
recorded. -/
theorem addItem_records_whatever_the_amount_witness :
    worldOffers.trades 0 = some sessionOffers ∧
      worldOffers.possessions 1 = [(0, 0), (0, 0), (5, 3)] ∧
      ((Trade.run slotsEnv 0 [Call.addItem 1 2 1000, Call.addItem 1 2 0, Call.addItem 1 2 (-4)]
          worldOffers).bind (fun w => w.trades 0)).map (fun tr => tr.mItems1)
        = some [{ id := 5, slot := 2, amount := 3 }, { id := 5, slot := 2, amount := 1000 },
                { id := 5, slot := 2, amount := 0 }, { id := 5, slot := 2, amount := -4 }] ∧
      ∃ w' tr', Trade.addItem slotsEnv worldOffers 0 1 2 1000 = some w' ∧
        w'.trades 0 = some tr' ∧
        (tr'.mItems1 ++ tr'.mItems2).length
          = (sessionOffers.mItems1 ++ sessionOffers.mItems2).length + 1 :=
  ⟨by decide, by decide, by decide,
    (addItem_records_whatever_the_amount slotsEnv worldOffers 0 sessionOffers 1 2 1000
      (by decide) (by decide) (Or.inl (by decide)) (by decide) (by decide)).1.imp
      (fun _ h => h.imp (fun _ g => ⟨g.1, g.2.1, g.2.2.1⟩))⟩

/-! ## Events that are not valid in the current state -/

/-- C19 as stated fails: an offer and an acceptance made while the session is in
`TRADE_INIT`, and a second acceptance by the first acceptor while it is in
`TRADE_EXIT`, leave the session alive and send no message at all. -/
theorem invalid_offer_and_accept_are_ignored :
    (Trade.ctor slotsEnv world0 0 1 2).trades 0 = some
        { mChar1 := 1, mChar2 := 2, mState := TradeState.TRADE_INIT,
          mItems1 := [], mItems2 := [] } ∧
      (Trade.addItem slotsEnv (Trade.ctor slotsEnv world0 0 1 2) 0 1 2 3).map
          (fun w => ((w.trades 0).isSome,
            w.sent.drop (Trade.ctor slotsEnv world0 0 1 2).sent.length))
        = some (true, []) ∧
      (Trade.accept slotsEnv (Trade.ctor slotsEnv world0 0 1 2) 0 1).map
          (fun w => ((w.trades 0).isSome,
            w.sent.drop (Trade.ctor slotsEnv world0 0 1 2).sent.length))
        = some (true, []) ∧
      worldReady.trades 0 = some sessionReady ∧
      (Trade.accept slotsEnv worldReady 0 1).map
          (fun w => ((w.trades 0).isSome, w.sent.drop worldReady.sent.length))
        = some (true, []) := by
  decide

/-- C19 as amended: of the events that are not valid in the current state only
the acknowledgement tears the session down.  On a live session with two distinct
participants that is not in `TRADE_INIT`, `request(c, id)` returns false, the
session is deleted and at least one participant is sent `GPMSG_TRADE_CANCEL`.
An `addItem` and an `accept` while in `TRADE_INIT`, and an `accept` while in
`TRADE_EXIT` by a character other than `mChar2` (so by the first acceptor),
return the world as it was: the session stays alive and nothing is sent. -/
theorem only_stale_acknowledgement_tears_down (E : Env L) (w : World L) (this : TradeId)
    (tr : Trade) (c : CharId) (hlive : w.trades this = some tr) :
    (tr.mState ≠ TradeState.TRADE_INIT → tr.mChar1 ≠ tr.mChar2 → ∀ id,
        ∃ w' new, Trade.request E w this c id = some (false, w') ∧ w'.trades this = none ∧
          w'.sent = w.sent ++ new ∧
          ∃ p, (p = tr.mChar1 ∨ p = tr.mChar2) ∧
            (p, MessageOut.new MsgId.GPMSG_TRADE_CANCEL) ∈ new) ∧
      (tr.mState = TradeState.TRADE_INIT →
        (∀ slot amount, Trade.addItem E w this c slot amount = some w) ∧
        Trade.accept E w this c = some w) ∧
      (tr.mState = TradeState.TRADE_EXIT → c ≠ tr.mChar2 → Trade.accept E w this c = some w) := by
  refine ⟨?_, ?_, ?_⟩
  · intro hstate hne id
    obtain ⟨w1, hc, -, ht, -, hs⟩ := Trade.cancel_eq w this tr (some c) hlive
    refine ⟨w1, _, by simp [Trade.request, hlive, hstate, hc], by simp [ht],
      by rw [hs, List.append_assoc], ?_⟩
    by_cases h1 : c = tr.mChar1
    · refine ⟨tr.mChar2, Or.inr rfl, ?_⟩
      have h2 : ¬ tr.mChar1 = tr.mChar2 := hne
      simp [h1, h2]
    · refine ⟨tr.mChar1, Or.inl rfl, ?_⟩
      simp [h1]
  · intro hstate
    refine ⟨fun slot amount => ?_, ?_⟩
    · simp only [Trade.addItem, hlive, hstate, if_true]
    · simp [Trade.accept, hlive, hstate]
  · intro hstate hc
    simp [Trade.accept, hlive, hstate, hc]

/-- C19 as amended, on concrete sessions: a repeated acknowledgement in
`TRADE_EXIT` cancels the session, a repeated acceptance by the first acceptor
does not. -/
theorem only_stale_acknowledgement_tears_down_witness :
    worldReady.trades 0 = some sessionReady ∧
      (∃ w' new, Trade.request slotsEnv worldReady 0 2 1 = some (false, w') ∧
        w'.trades 0 = none ∧ w'.sent = worldReady.sent ++ new ∧
        ∃ p, (p = 1 ∨ p = 2) ∧ (p, MessageOut.new MsgId.GPMSG_TRADE_CANCEL) ∈ new) ∧
      Trade.accept slotsEnv worldReady 0 1 = some worldReady :=
  ⟨by decide,
    (only_stale_acknowledgement_tears_down slotsEnv worldReady 0 sessionReady 2
      (by decide)).1 (by decide) (by decide) 1,
    (only_stale_acknowledgement_tears_down slotsEnv worldReady 0 sessionReady 1
      (by decide)).2.2 (by decide) (by decide)⟩

/-! ## Money -/

/-- C20: currency never goes negative.  For a view on possessions with a balance
`b ≥ 0`, a change of `-(b + 1)` fails and leaves the view as it was; a change by
`delta` reports success if and only if `b + delta ≥ 0`, in which case the
balance becomes `b + delta` and nothing else changes, and otherwise the view is
unchanged; the balance after any change is not negative.  In `chr_inv_change` a
pair with item id 0 whose money change fails, wherever it stands in the
argument list, cancels the view and pushes false; when it is the first pair the
call leaves the world as it was. -/
theorem money_never_goes_negative {I : Type} (S : ScriptEnv I) :
    (∀ v : Inventory (Possessions I), 0 ≤ v.mPoss.money →
        v.changeMoney (-(v.mPoss.money + 1)) = (v, false)) ∧
      (∀ (v : Inventory (Possessions I)) (delta : Int),
        ((v.changeMoney delta).2 = true ↔ 0 ≤ v.mPoss.money + delta)) ∧
      (∀ (v : Inventory (Possessions I)) (delta : Int), 0 ≤ v.mPoss.money + delta →
        v.changeMoney delta =
          ({ v with mPoss := { v.mPoss with money := v.mPoss.money + delta } }, true)) ∧
      (∀ (v : Inventory (Possessions I)) (delta : Int), v.mPoss.money + delta < 0 →
        v.changeMoney delta = (v, false)) ∧
      (∀ (v : Inventory (Possessions I)) (delta : Int), 0 ≤ v.mPoss.money →
        0 ≤ (v.changeMoney delta).1.mPoss.money) ∧
      (∀ (w : World (Possessions I)) (q : CharId) (nb : Int) (more : List (Option Int))
          (st : ScriptState I), st.inv.mPoss.money + nb < 0 →
        chr_inv_change_loop S w q (some 0 :: some nb :: more) st =
          ({ st with inv := Inventory.cancel w st.inv }, some false)) ∧
      (∀ (w : World (Possessions I)) (q : CharId) (nb : Int) (more : List (Option Int)),
        (w.possessions q).money + nb < 0 →
        (chr_inv_change S w (some q) (some 0 :: some nb :: more)).pushed = some false ∧
        (chr_inv_change S w (some q) (some 0 :: some nb :: more)).world = w ∧
        (chr_inv_change S w (some q) (some 0 :: some nb :: more)).enqueued = []) := by
  have hfail : ∀ (v : Inventory (Possessions I)) (delta : Int), v.mPoss.money + delta < 0 →
      v.changeMoney delta = (v, false) := by
    intro v delta h
    simp [Inventory.changeMoney, h]
  have hok : ∀ (v : Inventory (Possessions I)) (delta : Int), 0 ≤ v.mPoss.money + delta →
      v.changeMoney delta =
        ({ v with mPoss := { v.mPoss with money := v.mPoss.money + delta } }, true) := by
    intro v delta h
    simp [Inventory.changeMoney, not_lt.mpr h]
  have hloop : ∀ (w : World (Possessions I)) (q : CharId) (nb : Int)
      (more : List (Option Int)) (st : ScriptState I), st.inv.mPoss.money + nb < 0 →
      chr_inv_change_loop S w q (some 0 :: some nb :: more) st =
        ({ st with inv := Inventory.cancel w st.inv }, some false) := by
    intro w q nb more st h
    rw [chr_inv_change_loop]
    simp [hfail st.inv nb h]
  refine ⟨?_, ?_, hok, hfail, ?_, hloop, ?_⟩
  · intro v hv
    exact hfail v _ (by omega)
  · intro v delta
    by_cases h : v.mPoss.money + delta < 0
    · rw [hfail v delta h]
      simp only [Bool.false_eq_true, false_iff, not_le]
      exact h
    · rw [hok v delta (not_lt.mp h)]
      simp only [true_iff]
      exact not_lt.mp h
  · intro v delta hv
    by_cases h : v.mPoss.money + delta < 0
    · rw [hfail v delta h]
      exact hv
    · rw [hok v delta (not_lt.mp h)]
      exact not_lt.mp h
  · intro w q nb more h
    have hl := hloop w q nb more { inv := Inventory.open w q, enqueued := [], errors := [] }
      (by simpa [Inventory.open] using h)
    simp only [chr_inv_change, hl, true_and, and_true]
    exact World.commit_cancel w _

/-- C20, on a concrete character that owns 10 units of money: a change of -11
fails and leaves the 10 units, a change of -10 is applied and leaves none, and in
`chr_inv_change` the pair (0, -11) makes the call push false. -/
theorem money_never_goes_negative_witness :
    (scriptWorld0.possessions 1).money = 10 ∧
      ((Inventory.open scriptWorld0 1).changeMoney (-11)).2 = false ∧
      ((Inventory.open scriptWorld0 1).changeMoney (-11)).1.mPoss.money = 10 ∧
      ((Inventory.open scriptWorld0 1).changeMoney (-10)).2 = true ∧
      ((Inventory.open scriptWorld0 1).changeMoney (-10)).1.mPoss.money = 0 ∧
      (chr_inv_change scriptEnv scriptWorld0 (some 1) [some 5, some (-1), some 0, some (-11)]).pushed
        = some false ∧
      (chr_inv_change scriptEnv scriptWorld0 (some 1) [some 0, some (-11)]).pushed = some false ∧
      (chr_inv_change scriptEnv scriptWorld0 (some 1) [some 0, some (-11)]).world = scriptWorld0 :=
  ⟨by decide, by decide, by decide, by decide, by decide, by decide,
    ((money_never_goes_negative scriptEnv).2.2.2.2.2.2 scriptWorld0 1 (-11) []
      (by decide)).1,
    ((money_never_goes_negative scriptEnv).2.2.2.2.2.2 scriptWorld0 1 (-11) []
      (by decide)).2.1⟩

/-! ## The inventory callback -/

/-- Changing the money of a view keeps the character the view is on. -/
theorem Inventory.changeMoney_mClient {I : Type} (v : Inventory (Possessions I)) (delta : Int) :
    (v.changeMoney delta).1.mClient = v.mClient := by
  unfold Inventory.changeMoney
  split_ifs <;> rfl

/-- Applying a pair keeps the character the view is on. -/
theorem pairApplied_mClient {I : Type} (S : ScriptEnv I) (v : Inventory (Possessions I))
    (p : Int × Int) : (pairApplied S v p).mClient = v.mClient := by
  unfold pairApplied
  split_ifs
  · exact Inventory.changeMoney_mClient v p.2
  · rfl
  · rfl
  · rfl

/-- Applying pairs one after the other keeps the character the view is on. -/
theorem foldl_pairApplied_mClient {I : Type} (S : ScriptEnv I) (ps : List (Int × Int))
    (v : Inventory (Possessions I)) : (ps.foldl (pairApplied S) v).mClient = v.mClient := by
  induction ps generalizing v with
  | nil => rfl
  | cons p ps ih => rw [List.foldl_cons, ih, pairApplied_mClient]

/-- A pair fails somewhere in `p :: ps` exactly when `p` fails at once or a pair
fails in `ps` after `p` has been applied. -/
theorem exists_fail_cons {I : Type} (S : ScriptEnv I) (v : Inventory (Possessions I))
    (p : Int × Int) (ps : List (Int × Int)) :
    (∃ k p2, (p :: ps).get? k = some p2 ∧
        pairFails S (((p :: ps).take k).foldl (pairApplied S) v) p2) ↔
      (pairFails S v p ∨
        ∃ k p2, ps.get? k = some p2 ∧
          pairFails S ((ps.take k).foldl (pairApplied S) (pairApplied S v p)) p2) := by
  constructor
  · rintro ⟨k, p2, hk, hf⟩
    cases k with
    | zero =>
      simp only [List.get?_cons_zero, Option.some.injEq] at hk
      subst hk
      exact Or.inl (by simpa using hf)
    | succ k =>
      exact Or.inr ⟨k, p2, by simpa using hk, by simpa using hf⟩
  · rintro (h | ⟨k, p2, hk, hf⟩)
    · exact ⟨0, p, by simp, by simpa using h⟩
    · exact ⟨k + 1, p2, by simpa using hk, by simpa using hf⟩

/-- One turn of the loop of `chr_inv_change` on a pair of numbers: either the
pair fails, and the loop ends with the view cancelled and false pushed, or it
does not fail, and the loop goes on with the pair applied to the view and the
enqueued items kept. -/
theorem chr_inv_change_loop_step {I : Type} (S : ScriptEnv I) (w : World (Possessions I))
    (q : CharId) (id nb : Int) (more : List (Option Int)) (st : ScriptState I) :
    (pairFails S st.inv (id, nb) ∧
        ∃ v : Inventory (Possessions I), v.mClient = st.inv.mClient ∧
          chr_inv_change_loop S w q (some id :: some nb :: more) st =
            ({ st with inv := Inventory.cancel w v }, some false)) ∨
      (¬ pairFails S st.inv (id, nb) ∧
        ∃ st2 : ScriptState I, st2.inv = pairApplied S st.inv (id, nb) ∧
          (∃ l, st2.enqueued = st.enqueued ++ l) ∧
          chr_inv_change_loop S w q (some id :: some nb :: more) st =
            chr_inv_change_loop S w q more st2) := by
  rw [chr_inv_change_loop]
  by_cases h0 : id = 0
  · by_cases hm : (st.inv.changeMoney nb).2 = false
    · refine Or.inl ⟨Or.inl ⟨h0, hm⟩, (st.inv.changeMoney nb).1,
        Inventory.changeMoney_mClient _ _, ?_⟩
      simp [h0, hm]
    · refine Or.inr ⟨?_, { st with inv := (st.inv.changeMoney nb).1 }, ?_, ⟨[], by simp⟩, ?_⟩
      · rintro (⟨-, h⟩ | ⟨h, -⟩)
        · exact hm h
        · exact h h0
      · simp [pairApplied, h0]
      · simp [h0, hm]
  · by_cases hn : nb < 0
    · by_cases hr : (S.remove st.inv.mPoss id (-nb)).2 ≠ 0
      · refine Or.inl ⟨Or.inr ⟨h0, hn, hr⟩,
          { st.inv with mPoss := (S.remove st.inv.mPoss id (-nb)).1 }, rfl, ?_⟩
        simp [h0, hn, hr]
      · refine Or.inr ⟨?_,
          { st with inv := { st.inv with mPoss := (S.remove st.inv.mPoss id (-nb)).1 } }, ?_,
          ⟨[], by simp⟩, ?_⟩
        · rintro (⟨h, -⟩ | ⟨-, -, h⟩)
          · exact h0 h
          · exact hr h
        · simp [pairApplied, h0, hn]
        · simp [h0, hn, hr]
    · have hnf : ¬ pairFails S st.inv (id, nb) := by
        rintro (⟨h, -⟩ | ⟨-, h, -⟩)
        · exact h0 h
        · exact hn h
      cases hic : S.itemManagerGetItem id with
      | none =>
        refine Or.inr ⟨hnf,
          { st with errors := st.errors ++ ["chr_inv_change called with an unknown item."] },
          ?_, ⟨[], by simp⟩, ?_⟩
        · simp [pairApplied, h0, hn, hic]
        · simp [h0, hn, hic]
      | some ic =>
        by_cases hr : (S.insert st.inv.mPoss id nb).2 ≠ 0
        · refine Or.inr ⟨hnf,
            { st with
              inv := { st.inv with mPoss := (S.insert st.inv.mPoss id nb).1 }
              enqueued := st.enqueued ++
                [{ itemClass := ic, amount := (S.insert st.inv.mPoss id nb).2, map := S.getMap q,
                   position := S.getPosition q }] }, ?_, ⟨_, rfl⟩, ?_⟩
          · simp [pairApplied, h0, hn, hic]
          · simp [h0, hn, hic, hr]
        · refine Or.inr ⟨hnf,
            { st with inv := { st.inv with mPoss := (S.insert st.inv.mPoss id nb).1 } }, ?_,
            ⟨[], by simp⟩, ?_⟩
          · simp [pairApplied, h0, hn, hic]
          · simp [h0, hn, hic, hr]

/-- The outcome of the loop of `chr_inv_change` on pairs of numbers, followed by
at most one more value: false is pushed, with the view holding the character's
possessions as they are in the world, exactly when some pair fails on the view
left by the pairs before it; otherwise true is pushed and the view holds all
pairs applied. -/
theorem chr_inv_change_loop_outcome {I : Type} (S : ScriptEnv I) (w : World (Possessions I))
    (q : CharId) (ps : List (Int × Int)) (extra : List (Option Int)) (hextra : extra.length ≤ 1)
    (st : ScriptState I) :
    ((chr_inv_change_loop S w q (argsOf ps ++ extra) st).2 = some false ∧
        (∃ k p, ps.get? k = some p ∧
          pairFails S ((ps.take k).foldl (pairApplied S) st.inv) p) ∧
        (chr_inv_change_loop S w q (argsOf ps ++ extra) st).1.inv.mPoss
          = w.possessions st.inv.mClient ∧
        (chr_inv_change_loop S w q (argsOf ps ++ extra) st).1.inv.mClient = st.inv.mClient) ∨
      ((chr_inv_change_loop S w q (argsOf ps ++ extra) st).2 = some true ∧
        (¬ ∃ k p, ps.get? k = some p ∧
          pairFails S ((ps.take k).foldl (pairApplied S) st.inv) p) ∧
        (chr_inv_change_loop S w q (argsOf ps ++ extra) st).1.inv
          = ps.foldl (pairApplied S) st.inv) := by
  induction ps generalizing st with
  | nil =>
    refine Or.inr ?_
    have hloop : chr_inv_change_loop S w q (argsOf [] ++ extra) st = (st, some true) := by
      match extra, hextra with
      | [], _ => simp [argsOf, chr_inv_change_loop]
      | [x], _ => simp [argsOf, chr_inv_change_loop]
      | _ :: _ :: _, h => simp at h
    rw [hloop]
    simp
  | cons p ps ih =>
    obtain ⟨id, nb⟩ := p
    have hargs : argsOf ((id, nb) :: ps) ++ extra = some id :: some nb :: (argsOf ps ++ extra) := by
      simp [argsOf]
    rw [hargs, exists_fail_cons]
    rcases chr_inv_change_loop_step S w q id nb (argsOf ps ++ extra) st with
      ⟨hf, v, hv, hl⟩ | ⟨hnf, st2, hinv, -, hl⟩
    · refine Or.inl ?_
      rw [hl]
      exact ⟨rfl, Or.inl hf, by simp [Inventory.cancel, hv], by simp [Inventory.cancel, hv]⟩
    · rw [hl]
      have hc : st2.inv.mClient = st.inv.mClient := by
        rw [hinv, pairApplied_mClient]
      rcases ih st2 with ⟨h1, h2, h3, h4⟩ | ⟨h1, h2, h3⟩
      · refine Or.inl ⟨h1, Or.inr ?_, by rw [h3, hc], by rw [h4, hc]⟩
        rw [← hinv]
        exact h2
      · refine Or.inr ⟨h1, ?_, ?_⟩
        · rintro (h | h)
          · exact hnf h
          · rw [← hinv] at h
            exact h2 h
        · rw [h3, hinv, List.foldl_cons]

/-- C21: `chr_inv_change` is all-or-nothing on removals and money.  For every
argument list made of pairs `(id, nb)` of numbers (followed by at most one more
value, which the loop ignores), the call pushes false exactly when some pair,
processed in order on the view left by the pairs before it, is a money change
that is refused or a removal that is incomplete; in that case the world is as it
was before the call, so the character's inventory and money are unchanged;
otherwise it pushes true and the character's possessions are those left by
applying every pair, no other character's possessions having changed. -/
theorem chr_inv_change_all_or_nothing {I : Type} (S : ScriptEnv I) (w : World (Possessions I))
    (q : CharId) (ps : List (Int × Int)) (extra : List (Option Int))
    (hextra : extra.length ≤ 1) :
    ((chr_inv_change S w (some q) (argsOf ps ++ extra)).pushed = some false ↔
        ∃ k p, ps.get? k = some p ∧
          pairFails S ((ps.take k).foldl (pairApplied S) (Inventory.open w q)) p) ∧
      ((chr_inv_change S w (some q) (argsOf ps ++ extra)).pushed = some false →
        (chr_inv_change S w (some q) (argsOf ps ++ extra)).world = w) ∧
      ((chr_inv_change S w (some q) (argsOf ps ++ extra)).pushed ≠ some false →
        (chr_inv_change S w (some q) (argsOf ps ++ extra)).pushed = some true ∧
        (chr_inv_change S w (some q) (argsOf ps ++ extra)).world.possessions q
          = (ps.foldl (pairApplied S) (Inventory.open w q)).mPoss ∧
        ∀ c, c ≠ q →
          (chr_inv_change S w (some q) (argsOf ps ++ extra)).world.possessions c
            = w.possessions c) := by
  have h := chr_inv_change_loop_outcome S w q ps extra hextra
    { inv := Inventory.open w q, enqueued := [], errors := [] }
  simp only [chr_inv_change]
  rcases h with ⟨h1, h2, h3, h4⟩ | ⟨h1, h2, h3⟩
  · refine ⟨⟨fun _ => h2, fun _ => h1⟩, fun _ => ?_, fun hne => absurd h1 hne⟩
    have hv : ∀ v : Inventory (Possessions I), v.mPoss = w.possessions q → v.mClient = q →
        w.commit v = w := by
      intro v e1 e2
      cases v with
      | mk c l =>
        simp only at e1 e2
        subst e1 e2
        exact World.commit_same w _
    exact hv _ h3 h4
  · refine ⟨⟨fun hf => ?_, fun hx => absurd hx h2⟩, fun hf => ?_, fun _ => ⟨h1, ?_, ?_⟩⟩
    · rw [h1] at hf
      exact absurd hf (by simp)
    · rw [h1] at hf
      exact absurd hf (by simp)
    · rw [h3]
      simp [World.commit, foldl_pairApplied_mClient, Inventory.open]
    · intro c hc
      rw [h3]
      simp [World.commit, foldl_pairApplied_mClient, Inventory.open, hc]

/-- C21, on a concrete character with 10 units of money and three of item 5: the
pairs (0, -4), (5, -2), (5, -2) fail at the third pair, false is pushed and the
world is as before; the pairs (0, -4), (5, -2) succeed, true is pushed and the
character is left with 6 units of money and one of item 5. -/
theorem chr_inv_change_all_or_nothing_witness :
    ([] : List (Option Int)).length ≤ 1 ∧
      (chr_inv_change scriptEnv scriptWorld0 (some 1)
        (argsOf [(0, -4), (5, -2), (5, -2)] ++ [])).pushed = some false ∧
      (chr_inv_change scriptEnv scriptWorld0 (some 1)
        (argsOf [(0, -4), (5, -2), (5, -2)] ++ [])).world = scriptWorld0 ∧
      (chr_inv_change scriptEnv scriptWorld0 (some 1) (argsOf [(0, -4), (5, -2)] ++ [])).pushed
        = some true ∧
      ((chr_inv_change scriptEnv scriptWorld0 (some 1)
        (argsOf [(0, -4), (5, -2)] ++ [])).world.possessions 1).money = 6 ∧
      ((chr_inv_change scriptEnv scriptWorld0 (some 1)
        (argsOf [(0, -4), (5, -2)] ++ [])).world.possessions 1).inventory = [(5, 1), (0, 0)] :=
  ⟨by decide, by decide,
    (chr_inv_change_all_or_nothing scriptEnv scriptWorld0 1 [(0, -4), (5, -2), (5, -2)] []
      (by decide)).2.1 (by decide),
    by decide, by decide, by decide⟩

/-- The loop of `chr_inv_change` never takes back an item it has enqueued. -/
theorem chr_inv_change_loop_keeps_enqueued {I : Type} (S : ScriptEnv I)
    (w : World (Possessions I)) (q : CharId) (n : Nat) :
    ∀ (args : List (Option Int)) (st : ScriptState I), args.length ≤ n →
      ∃ l, (chr_inv_change_loop S w q args st).1.enqueued = st.enqueued ++ l := by
  induction n with
  | zero =>
    intro args st h
    have : args = [] := List.length_eq_zero.mp (Nat.le_zero.mp h)
    subst this
    exact ⟨[], by simp [chr_inv_change_loop]⟩
  | succ n ih =>
    intro args st h
    match args, h with
    | [], _ => exact ⟨[], by simp [chr_inv_change_loop]⟩
    | [x], _ => exact ⟨[], by simp [chr_inv_change_loop]⟩
    | none :: b :: more, _ => exact ⟨[], by simp [chr_inv_change_loop]⟩
    | some id :: none :: more, _ => exact ⟨[], by simp [chr_inv_change_loop]⟩
    | some id :: some nb :: more, h =>
      rcases chr_inv_change_loop_step S w q id nb more st with
        ⟨-, v, -, hl⟩ | ⟨-, st2, -, ⟨l, hq⟩, hl⟩
      · exact ⟨[], by rw [hl]; simp⟩
      · obtain ⟨l2, h2⟩ := ih more st2 (by simp at h; omega)
        exact ⟨l ++ l2, by rw [hl, h2, hq, List.append_assoc]⟩

/-- C22: an insertion that does not fit is applied as far as it fits and the
remainder is put on the floor.  In `chr_inv_change`, for a pair `(id, nb)` with
`nb ≥ 0` and a known item class, the loop goes on with the possessions `insert`
has left in the view, and when `insert` returns a remainder `r` other than 0 it
enqueues exactly one item of that class with quantity `r` at the character's map
and position; the quantity placed plus `r` is `nb`; with `r = 0` nothing is
enqueued.  The pair does not make the call fail or cancel the view: alone it
makes the call push true with the insertion committed, and an item once
enqueued stays enqueued whatever follows. -/
theorem insert_remainder_is_dropped {I : Type} (S : ScriptEnv I) (w : World (Possessions I))
    (q : CharId) (id nb : Int) (ic : Nat) (more : List (Option Int)) (st : ScriptState I)
    (hid : id ≠ 0) (hnb : 0 ≤ nb) (hic : S.itemManagerGetItem id = some ic) :
    chr_inv_change_loop S w q (some id :: some nb :: more) st =
        chr_inv_change_loop S w q more
          { st with
            inv := { st.inv with mPoss := (S.insert st.inv.mPoss id nb).1 }
            enqueued := st.enqueued ++
              (if (S.insert st.inv.mPoss id nb).2 ≠ 0 then
                [{ itemClass := ic, amount := (S.insert st.inv.mPoss id nb).2, map := S.getMap q,
                   position := S.getPosition q }]
               else []) } ∧
      S.placed st.inv.mPoss id nb + (S.insert st.inv.mPoss id nb).2 = nb ∧
      (∀ (args : List (Option Int)) (st2 : ScriptState I),
        ∃ l, (chr_inv_change_loop S w q args st2).1.enqueued = st2.enqueued ++ l) ∧
      (chr_inv_change S w (some q) [some id, some nb]).pushed = some true ∧
      (chr_inv_change S w (some q) [some id, some nb]).world =
        w.commit { mClient := q, mPoss := (S.insert (w.possessions q) id nb).1 } ∧
      (chr_inv_change S w (some q) [some id, some nb]).enqueued =
        (if (S.insert (w.possessions q) id nb).2 ≠ 0 then
          [{ itemClass := ic, amount := (S.insert (w.possessions q) id nb).2, map := S.getMap q,
             position := S.getPosition q }]
         else []) := by
  have hn : ¬ nb < 0 := not_lt.mpr hnb
  have hloop : ∀ (more2 : List (Option Int)) (st2 : ScriptState I),
      chr_inv_change_loop S w q (some id :: some nb :: more2) st2 =
        chr_inv_change_loop S w q more2
          { st2 with
            inv := { st2.inv with mPoss := (S.insert st2.inv.mPoss id nb).1 }
            enqueued := st2.enqueued ++
              (if (S.insert st2.inv.mPoss id nb).2 ≠ 0 then
                [{ itemClass := ic, amount := (S.insert st2.inv.mPoss id nb).2,
                   map := S.getMap q, position := S.getPosition q }]
               else []) } := by
    intro more2 st2
    rw [chr_inv_change_loop]
    by_cases hr : (S.insert st2.inv.mPoss id nb).2 ≠ 0
    · simp [hid, hn, hic, hr]
    · simp [hid, hn, hic, hr]
  have hend : ∀ st2 : ScriptState I, chr_inv_change_loop S w q [] st2 = (st2, some true) := by
    intro st2
    simp [chr_inv_change_loop]
  refine ⟨hloop more st, by simp [ScriptEnv.placed],
    fun args st2 => chr_inv_change_loop_keeps_enqueued S w q args.length args st2 (le_refl _),
    ?_, ?_, ?_⟩
  · simp only [chr_inv_change]
    rw [hloop, hend]
  · simp only [chr_inv_change]
    rw [hloop, hend]
    rfl
  · simp only [chr_inv_change]
    rw [hloop, hend]
    simp [Inventory.open]

/-- C22, on a concrete character whose two slots are taken by item 5: four of
item 9 do not fit, the call pushes true, leaves the inventory as it is and
enqueues one item of the class of item 9 with quantity 4 at the character's
place; with a free slot nothing is enqueued. -/
theorem insert_remainder_is_dropped_witness :
    (9 : Int) ≠ 0 ∧ (0 : Int) ≤ 4 ∧ scriptEnv.itemManagerGetItem 9 = some 109 ∧
      (scriptEnv.insert (scriptWorldFull.possessions 1) 9 4).2 = 4 ∧
      (chr_inv_change scriptEnv scriptWorldFull (some 1) [some 9, some 4]).pushed = some true ∧
      (chr_inv_change scriptEnv scriptWorldFull (some 1) [some 9, some 4]).enqueued =
        (if (scriptEnv.insert (scriptWorldFull.possessions 1) 9 4).2 ≠ 0 then
          [{ itemClass := 109, amount := (scriptEnv.insert (scriptWorldFull.possessions 1) 9 4).2,
             map := scriptEnv.getMap 1, position := scriptEnv.getPosition 1 }]
         else []) ∧
      (chr_inv_change scriptEnv scriptWorldFull (some 1) [some 9, some 4]).enqueued =
        [{ itemClass := 109, amount := 4, map := 1, position := (3, 4) }] ∧
      ((chr_inv_change scriptEnv scriptWorldFull (some 1) [some 9, some 4]).world.possessions
        1).inventory = [(5, 3), (5, 2)] ∧
      (chr_inv_change scriptEnv scriptWorld0 (some 1) [some 9, some 4]).enqueued = [] ∧
      ((chr_inv_change scriptEnv scriptWorld0 (some 1) [some 9, some 4]).world.possessions
        1).inventory = [(5, 3), (9, 4)] :=
  ⟨by decide, by decide, by decide, by decide,
    (insert_remainder_is_dropped scriptEnv scriptWorldFull 1 9 4 109 []
      { inv := Inventory.open scriptWorldFull 1, enqueued := [], errors := [] }
      (by decide) (by decide) (by decide)).2.2.2.1,
    (insert_remainder_is_dropped scriptEnv scriptWorldFull 1 9 4 109 []
      { inv := Inventory.open scriptWorldFull 1, enqueued := [], errors := [] }
      (by decide) (by decide) (by decide)).2.2.2.2.2,
    by decide, by decide, by decide, by decide⟩

/-! ## What one call can do to a session -/

/-- A call on a world without the session returns and leaves it without. -/
theorem Trade.call_dead (E : Env L) (w : World L) (this : TradeId) (k : Call L)
    (hdead : w.trades this = none) :
    ∃ w', Trade.call E w this k = some w' ∧ w'.trades this = none := by
  cases k <;> simp [Trade.call, hdead, World.commit]

/-- The outcomes of one call made by a participant on a live session with two
distinct participants: the call returns, and afterwards the session is deleted,
or unchanged, or acknowledged from `TRADE_INIT` into `TRADE_RUN`, or back in
`TRADE_RUN` with the entry of an `addItem` pushed on the caller's list, or in
`TRADE_EXIT` after a first acceptance from `TRADE_RUN` with the acceptor as
first participant. -/
theorem Trade.call_cases (E : Env L) (w : World L) (this : TradeId) (tr : Trade) (k : Call L)
    (hlive : w.trades this = some tr) (hne : tr.mChar1 ≠ tr.mChar2)
    (hk : ∀ c, k.caller = some c → c = tr.mChar1 ∨ c = tr.mChar2) :
    ∃ w', Trade.call E w this k = some w' ∧
      (w'.trades this = none ∨
        w'.trades this = some tr ∨
        (tr.mState = TradeState.TRADE_INIT ∧
          w'.trades this = some { tr with mState := TradeState.TRADE_RUN }) ∨
        (∃ c slot amount, k = Call.addItem c slot amount ∧
          tr.mState ≠ TradeState.TRADE_INIT ∧ (c = tr.mChar1 ∨ c = tr.mChar2) ∧
          (tr.itemsOf c).length < 50 ∧ E.getItem (w.possessions c) slot ≠ 0 ∧
          w'.trades this = some (tr.withEntry c
            { id := E.castId (E.getItem (w.possessions c) slot), slot := E.castSlot slot,
              amount := E.castAmount amount })) ∨
        (∃ c, k = Call.accept c ∧ tr.mState = TradeState.TRADE_RUN ∧
          (c = tr.mChar1 ∨ c = tr.mChar2) ∧
          w'.trades this = some
            { mChar1 := c, mChar2 := tr.otherOf c, mState := TradeState.TRADE_EXIT,
              mItems1 := tr.itemsOf c, mItems2 := tr.itemsOf (tr.otherOf c) })) := by
  cases k with
  | setPossessions c l =>
    exact ⟨_, rfl, Or.inr (Or.inl (by simpa [World.commit] using hlive))⟩
  | cancel c =>
    obtain ⟨w1, hc, -, ht, -, -⟩ := Trade.cancel_eq w this tr c hlive
    exact ⟨w1, by simp [Trade.call, hlive, hc], Or.inl (by simp [ht])⟩
  | request c id =>
    by_cases hbad : tr.mState ≠ TradeState.TRADE_INIT ∨ c ≠ tr.mChar2 ∨
        E.getPublicID tr.mChar1 ≠ id
    · obtain ⟨w1, hc, -, ht, -, -⟩ := Trade.cancel_eq w this tr (some c) hlive
      exact ⟨w1, by simp [Trade.call, hlive, Trade.request, hbad, hc], Or.inl (by simp [ht])⟩
    · refine ⟨_, by simp only [Trade.call, hlive, Trade.request, hbad, if_false]; rfl,
        Or.inr (Or.inr (Or.inl ⟨?_, by simp [World.send, World.store]⟩))⟩
      by_contra h
      exact hbad (Or.inl h)
  | accept c =>
    have hc := hk c rfl
    by_cases hrun : tr.mState = TradeState.TRADE_RUN
    · have hcall : Trade.call E w this (Call.accept c) = Trade.accept E w this c := by
        simp only [Trade.call, hlive]
      rw [hcall, Trade.accept_first E w this tr c hlive hrun hne hc]
      exact ⟨_, rfl,
        Or.inr (Or.inr (Or.inr (Or.inr ⟨c, rfl, hrun, hc, by simp [World.send, World.store]⟩)))⟩
    · by_cases hset : tr.mState = TradeState.TRADE_EXIT ∧ c = tr.mChar2
      · obtain ⟨w1, h1, h2⟩ := Trade.settle_deletes E w this tr hlive
        refine ⟨w1, ?_, Or.inl h2⟩
        simp only [Trade.call, hlive]
        rw [← h1]
        simp [Trade.accept, hlive, hset.1, hset.2]
      · refine ⟨w, ?_, Or.inr (Or.inl hlive)⟩
        have hset2 : tr.mState ≠ TradeState.TRADE_EXIT ∨ c ≠ tr.mChar2 := by
          by_cases h : tr.mState = TradeState.TRADE_EXIT
          · exact Or.inr (fun e => hset ⟨h, e⟩)
          · exact Or.inl h
        simp only [Trade.call, hlive, Trade.accept, hrun, if_false, hset2, if_true]
  | addItem c slot amount =>
    have hc := hk c rfl
    by_cases hinit : tr.mState = TradeState.TRADE_INIT
    · exact ⟨w, by simp only [Trade.call, hlive, Trade.addItem, hinit, if_true],
        Or.inr (Or.inl hlive)⟩
    · by_cases hrec : (tr.itemsOf c).length < 50 ∧ E.getItem (w.possessions c) slot ≠ 0
      · obtain ⟨w1, h1, -, -, ht, -⟩ :=
          Trade.addItem_recorded E w this tr c slot amount hlive hinit hc hrec.1 hrec.2
        have hcall : Trade.call E w this (Call.addItem c slot amount) = some w1 := by
          simp only [Trade.call, hlive]
          exact h1
        exact ⟨w1, hcall,
          Or.inr (Or.inr (Or.inr (Or.inl ⟨c, slot, amount, rfl, hinit, hc, hrec.1, hrec.2,
            by rw [ht]; simp⟩)))⟩
      · have hcall : Trade.call E w this (Call.addItem c slot amount) = some w := by
          simp only [Trade.call, hlive]
          exact Trade.addItem_dropped E w this tr c slot amount hlive hinit hc hrec
        exact ⟨w, hcall, Or.inr (Or.inl hlive)⟩

/-- A run that keeps a record is a run: every sequence of calls made by the two
distinct participants `c1` and `c2` returns, with the same world as `Trade.run`,
and a property of the session and the record that every call keeps holds at the
end if it holds at the start. -/
theorem Trade.runWith_keeps {G : Type} (E : Env L) (this : TradeId) (c1 c2 : CharId)
    (hne : c1 ≠ c2) (upd : World L → World L → Call L → G → G) (J : Trade → G → Prop)
    (hstep : ∀ (w w2 : World L) (tr : Trade) (k : Call L) (g : G), w.trades this = some tr →
      tr.between c1 c2 → J tr g → (∀ c, k.caller = some c → c = c1 ∨ c = c2) →
      Trade.call E w this k = some w2 →
      ∀ tr2, w2.trades this = some tr2 → tr2.between c1 c2 ∧ J tr2 (upd w w2 k g)) :
    ∀ (calls : List (Call L)) (w : World L) (g : G),
      (∀ k ∈ calls, ∀ c, k.caller = some c → c = c1 ∨ c = c2) →
      (∀ tr, w.trades this = some tr → tr.between c1 c2 ∧ J tr g) →
      ∃ w2 g2, Trade.runWith E this upd calls w g = some (w2, g2) ∧
        Trade.run E this calls w = some w2 ∧
        ∀ tr, w2.trades this = some tr → tr.between c1 c2 ∧ J tr g2 := by
  intro calls
  induction calls with
  | nil =>
    intro w g _ hinv
    exact ⟨w, g, rfl, rfl, hinv⟩
  | cons k ks ih =>
    intro w g hby hinv
    have hk := hby k (List.mem_cons_self k ks)
    have hks : ∀ k2 ∈ ks, ∀ c, k2.caller = some c → c = c1 ∨ c = c2 :=
      fun k2 h2 => hby k2 (List.mem_cons_of_mem k h2)
    have hcall : ∃ w1, Trade.call E w this k = some w1 ∧
        ∀ tr, w1.trades this = some tr → tr.between c1 c2 ∧ J tr (upd w w1 k g) := by
      cases hlive : w.trades this with
      | none =>
        obtain ⟨w1, h1, h2⟩ := Trade.call_dead E w this k hlive
        exact ⟨w1, h1, fun tr htr => by rw [h2] at htr; exact absurd htr (by simp)⟩
      | some tr =>
        obtain ⟨hb, hj⟩ := hinv tr hlive
        have hne2 : tr.mChar1 ≠ tr.mChar2 := by
          rcases hb with ⟨h1, h2⟩ | ⟨h1, h2⟩
          · rw [h1, h2]; exact hne
          · rw [h1, h2]; exact fun e => hne e.symm
        have hk2 : ∀ c, k.caller = some c → c = tr.mChar1 ∨ c = tr.mChar2 := by
          intro c hc
          rcases hb with ⟨h1, h2⟩ | ⟨h1, h2⟩
          · rw [h1, h2]; exact hk c hc
          · rw [h1, h2]; exact (hk c hc).symm
        obtain ⟨w1, h1, -⟩ := Trade.call_cases E w this tr k hlive hne2 hk2
        exact ⟨w1, h1, hstep w w1 tr k g hlive hb hj hk h1⟩
    obtain ⟨w1, h1, hinv1⟩ := hcall
    obtain ⟨w2, g2, r1, r2, hinv2⟩ := ih w1 (upd w w1 k g) hks hinv1
    exact ⟨w2, g2, by simp [Trade.runWith, h1, r1], by simp [Trade.run, h1, r2], hinv2⟩

/-! ## Roles -/

/-- C23: the role swap on the first acceptance.  For a live session in
`TRADE_RUN` with two distinct participants, whoever initiated it, `accept(c)` by
either participant returns and leaves the session in `TRADE_EXIT` with `c` as
first participant and the other as second, each with the list held for it.
Consequently the settlement that the other's `accept` then is processes the
entries of `c`, the first acceptor, before those of the second acceptor. -/
theorem first_acceptor_becomes_first (E : Env L) (w : World L) (this : TradeId) (tr : Trade)
    (c : CharId) (hlive : w.trades this = some tr)
    (hstate : tr.mState = TradeState.TRADE_RUN) (hne : tr.mChar1 ≠ tr.mChar2)
    (hc : c = tr.mChar1 ∨ c = tr.mChar2) :
    ∃ w1 tr1, Trade.accept E w this c = some w1 ∧ w1.trades this = some tr1 ∧
      tr1.mState = TradeState.TRADE_EXIT ∧
      tr1.mChar1 = c ∧ tr1.mChar2 = tr.otherOf c ∧ tr.otherOf c ≠ c ∧
      (tr.otherOf c = tr.mChar1 ∨ tr.otherOf c = tr.mChar2) ∧
      tr1.mItems1 = tr.itemsOf c ∧ tr1.mItems2 = tr.itemsOf (tr.otherOf c) ∧
      Trade.accept E w1 this (tr.otherOf c) = Trade.settle E w1 this tr1 ∧
      ∀ v1 v2 : L,
        performBoth E tr1 v1 v2 =
          (if (performTrade E (tr.itemsOf c) v1 v2).1 = true then
            ((performTrade E (tr.itemsOf (tr.otherOf c))
                (performTrade E (tr.itemsOf c) v1 v2).2.2
                (performTrade E (tr.itemsOf c) v1 v2).2.1).1,
              (performTrade E (tr.itemsOf (tr.otherOf c))
                (performTrade E (tr.itemsOf c) v1 v2).2.2
                (performTrade E (tr.itemsOf c) v1 v2).2.1).2.2,
              (performTrade E (tr.itemsOf (tr.otherOf c))
                (performTrade E (tr.itemsOf c) v1 v2).2.2
                (performTrade E (tr.itemsOf c) v1 v2).2.1).2.1)
          else (false, (performTrade E (tr.itemsOf c) v1 v2).2.1,
            (performTrade E (tr.itemsOf c) v1 v2).2.2)) := by
  have hne2 : ¬ tr.mChar2 = tr.mChar1 := fun e => hne e.symm
  have hother : tr.otherOf c ≠ c := by
    rcases hc with rfl | rfl
    · simpa [Trade.otherOf] using hne2
    · simpa [Trade.otherOf, hne2] using hne
  have hpart : tr.otherOf c = tr.mChar1 ∨ tr.otherOf c = tr.mChar2 := by
    rcases hc with rfl | rfl
    · simp [Trade.otherOf]
    · simp [Trade.otherOf, hne2]
  refine ⟨_, { mChar1 := c, mChar2 := tr.otherOf c, mState := TradeState.TRADE_EXIT,
               mItems1 := tr.itemsOf c, mItems2 := tr.itemsOf (tr.otherOf c) },
    Trade.accept_first E w this tr c hlive hstate hne hc, by simp [World.send, World.store],
    rfl, rfl, rfl, hother, hpart, rfl, rfl, ?_, ?_⟩
  · simp [Trade.accept, World.send, World.store]
  · intro v1 v2
    rfl

/-- C23, on a concrete session initiated by character 1: character 2 accepts
first and becomes the first participant, with its own offer first. -/
theorem first_acceptor_becomes_first_witness :
    worldOffers.trades 0 = some sessionOffers ∧
      (Trade.accept slotsEnv worldOffers 0 2).map (fun w => w.trades 0)
        = some (some { mChar1 := 2, mChar2 := 1, mState := TradeState.TRADE_EXIT,
                       mItems1 := [{ id := 9, slot := 0, amount := 1 }],
                       mItems2 := [{ id := 5, slot := 2, amount := 3 }] }) ∧
      ∃ w1 tr1, Trade.accept slotsEnv worldOffers 0 2 = some w1 ∧
        w1.trades 0 = some tr1 ∧ tr1.mState = TradeState.TRADE_EXIT ∧
        tr1.mChar1 = 2 ∧ tr1.mChar2 = sessionOffers.otherOf 2 :=
  ⟨by decide, by decide,
    (first_acceptor_becomes_first slotsEnv worldOffers 0 sessionOffers 2 (by decide) (by decide)
      (by decide) (Or.inr (by decide))).imp
      (fun _ h => h.imp (fun _ g => ⟨g.1, g.2.1, g.2.2.1, g.2.2.2.1, g.2.2.2.2.1⟩))⟩

/-! ## Lock-in of the first acceptance -/

/-- An `accept` that deletes the session is made in `TRADE_EXIT` by `mChar2`. -/
theorem Trade.accept_deletes_only_second (E : Env L) (w : World L) (this : TradeId) (tr : Trade)
    (c : CharId) (hlive : w.trades this = some tr)
    (hdel : ∃ w', Trade.accept E w this c = some w' ∧ w'.trades this = none) :
    tr.mState = TradeState.TRADE_EXIT ∧ c = tr.mChar2 := by
  obtain ⟨w', hacc, hgone⟩ := hdel
  by_contra hnot
  by_cases hrun : tr.mState = TradeState.TRADE_RUN
  · simp only [Trade.accept, hlive, hrun, if_true] at hacc
    split_ifs at hacc <;>
      (simp only [Option.some.injEq] at hacc
       subst hacc
       simp [World.send, World.store] at hgone)
  · have hset : tr.mState ≠ TradeState.TRADE_EXIT ∨ c ≠ tr.mChar2 := by
      by_cases h : tr.mState = TradeState.TRADE_EXIT
      · exact Or.inr (fun e => hnot ⟨h, e⟩)
      · exact Or.inl h
    simp only [Trade.accept, hlive, hrun, if_false, hset, if_true, Option.some.injEq] at hacc
    subst hacc
    rw [hlive] at hgone
    exact absurd hgone (by simp)

/-- An `addItem` that changes the session leaves it in `TRADE_RUN`. -/
theorem Trade.addItem_changes_to_run (E : Env L) (w w2 : World L) (this : TradeId)
    (tr tr2 : Trade) (c : CharId) (slot amount : Int) (hlive : w.trades this = some tr)
    (hcall : Trade.addItem E w this c slot amount = some w2)
    (hlive2 : w2.trades this = some tr2) (hdiff : tr2 ≠ tr) :
    tr2.mState = TradeState.TRADE_RUN := by
  by_cases hinit : tr.mState = TradeState.TRADE_INIT
  · simp only [Trade.addItem, hlive, hinit, if_true, Option.some.injEq] at hcall
    subst hcall
    rw [hlive, Option.some.injEq] at hlive2
    exact absurd hlive2.symm hdiff
  · by_cases hc : c = tr.mChar1 ∨ c = tr.mChar2
    · by_cases hrec : (tr.itemsOf c).length < 50 ∧ E.getItem (w.possessions c) slot ≠ 0
      · obtain ⟨w1, h1, -, -, ht, -⟩ :=
          Trade.addItem_recorded E w this tr c slot amount hlive hinit hc hrec.1 hrec.2
        rw [h1, Option.some.injEq] at hcall
        subst hcall
        rw [ht] at hlive2
        simp only [if_true, Option.some.injEq] at hlive2
        rw [← hlive2]
        rfl
      · rw [Trade.addItem_dropped E w this tr c slot amount hlive hinit hc hrec,
          Option.some.injEq] at hcall
        subst hcall
        rw [hlive, Option.some.injEq] at hlive2
        exact absurd hlive2.symm hdiff
    · have hc2 : c ≠ tr.mChar1 ∧ c ≠ tr.mChar2 :=
        ⟨fun e => hc (Or.inl e), fun e => hc (Or.inr e)⟩
      simp [Trade.addItem, hlive, hinit, hc2] at hcall

/-- Every call keeps the lock-in record in step with the session: while the
session is in `TRADE_EXIT` the record holds its first participant and its two
lists. -/
theorem lockInRecord_step (E : Env L) (this : TradeId) (c1 c2 : CharId) (hne : c1 ≠ c2)
    (w w2 : World L) (tr : Trade) (k : Call L) (g : Option (CharId × TradedItems × TradedItems))
    (hlive : w.trades this = some tr) (hb : tr.between c1 c2)
    (hj : tr.mState = TradeState.TRADE_EXIT → g = some (tr.mChar1, tr.mItems1, tr.mItems2))
    (hk : ∀ c, k.caller = some c → c = c1 ∨ c = c2)
    (hcall : Trade.call E w this k = some w2) :
    ∀ tr2, w2.trades this = some tr2 → tr2.between c1 c2 ∧
      (tr2.mState = TradeState.TRADE_EXIT →
        lockInRecord this w w2 k g = some (tr2.mChar1, tr2.mItems1, tr2.mItems2)) := by
  intro tr2 hlive2
  have hne2 : tr.mChar1 ≠ tr.mChar2 := by
    rcases hb with ⟨h1, h2⟩ | ⟨h1, h2⟩
    · rw [h1, h2]; exact hne
    · rw [h1, h2]; exact fun e => hne e.symm
  have hk2 : ∀ c, k.caller = some c → c = tr.mChar1 ∨ c = tr.mChar2 := by
    intro c hc
    rcases hb with ⟨h1, h2⟩ | ⟨h1, h2⟩
    · rw [h1, h2]; exact hk c hc
    · rw [h1, h2]; exact (hk c hc).symm
  obtain ⟨w1, h1, hcases⟩ := Trade.call_cases E w this tr k hlive hne2 hk2
  rw [hcall, Option.some.injEq] at h1
  subst h1
  rcases hcases with h | h | ⟨hinit, h⟩ | ⟨c, slot, amount, rfl, -, -, -, -, h⟩ |
    ⟨c, rfl, hrun, hc, h⟩
  · rw [h] at hlive2
    exact absurd hlive2 (by simp)
  · rw [h, Option.some.injEq] at hlive2
    subst hlive2
    refine ⟨hb, fun hexit => ?_⟩
    have hnrun : ¬ tr.mState = TradeState.TRADE_RUN := by rw [hexit]; decide
    rw [← hj hexit]
    cases k <;> simp [lockInRecord, hlive, h, hnrun]
  · rw [h, Option.some.injEq] at hlive2
    subst hlive2
    exact ⟨hb, fun hexit => absurd hexit (by simp)⟩
  · rw [h, Option.some.injEq] at hlive2
    subst hlive2
    exact ⟨hb, fun hexit => absurd hexit (by simp [Trade.withEntry])⟩
  · rw [h, Option.some.injEq] at hlive2
    subst hlive2
    refine ⟨?_, fun _ => by simp [lockInRecord, hlive, h, hrun]⟩
    have hne3 : ¬ tr.mChar2 = tr.mChar1 := fun e => hne2 e.symm
    rcases hc with rfl | rfl
    · simpa [Trade.between, Trade.otherOf] using hb
    · rcases hb with ⟨h1, h2⟩ | ⟨h1, h2⟩
      · exact Or.inr ⟨by simp [h2], by simp [Trade.otherOf, hne3, h1]⟩
      · exact Or.inl ⟨by simp [h2], by simp [Trade.otherOf, hne3, h1]⟩

/-- C25: the lock-in of the first acceptance.  Along every sequence of calls made
by the two distinct participants of a new session, a record is kept of the
latest `accept` that moved the session from `TRADE_RUN` to `TRADE_EXIT`: its
caller and the two offer lists right after it.  The sequence returns, and in
the state reached an `accept` can run the settlement only if the session is in
`TRADE_EXIT`; the session then holds exactly the recorded lists, the recorded
caller is its first participant, and the settlement is the `accept` of the
other participant.  An `addItem` that changes the session leaves it in
`TRADE_RUN`, from where no single `accept` settles: one `accept` by each
participant is needed again. -/
theorem settlement_uses_locked_lists (E : Env L) (w0 : World L) (this : TradeId)
    (c1 c2 : CharId) (hne : c1 ≠ c2) (calls : List (Call L))
    (hby : ∀ k ∈ calls, ∀ c, k.caller = some c → c = c1 ∨ c = c2) :
    ∃ w g, Trade.runWith E this (lockInRecord this) calls (Trade.ctor E w0 this c1 c2) none
        = some (w, g) ∧
      Trade.run E this calls (Trade.ctor E w0 this c1 c2) = some w ∧
      ∀ tr, w.trades this = some tr →
        (∀ c, (∃ w', Trade.accept E w this c = some w' ∧ w'.trades this = none) →
          tr.mState = TradeState.TRADE_EXIT ∧ c = tr.mChar2) ∧
        (tr.mState = TradeState.TRADE_EXIT →
          g = some (tr.mChar1, tr.mItems1, tr.mItems2) ∧ tr.mChar2 ≠ tr.mChar1 ∧
          Trade.accept E w this tr.mChar2 = Trade.settle E w this tr) ∧
        (∀ c slot amount w' tr', Trade.addItem E w this c slot amount = some w' →
          w'.trades this = some tr' → tr' ≠ tr → tr'.mState = TradeState.TRADE_RUN) := by
  obtain ⟨w, g, h1, h2, hinv⟩ :=
    Trade.runWith_keeps E this c1 c2 hne (lockInRecord this)
      (fun tr g => tr.mState = TradeState.TRADE_EXIT →
        g = some (tr.mChar1, tr.mItems1, tr.mItems2))
      (fun w w2 tr k g hlive hb hj hk hcall =>
        lockInRecord_step E this c1 c2 hne w w2 tr k g hlive hb hj hk hcall)
      calls (Trade.ctor E w0 this c1 c2) none hby
      (by
        intro tr htr
        rw [Trade.ctor_live, Option.some.injEq] at htr
        subst htr
        exact ⟨Or.inl ⟨rfl, rfl⟩, fun h => absurd h (by simp)⟩)
  refine ⟨w, g, h1, h2, fun tr hlive => ⟨?_, ?_, ?_⟩⟩
  · intro c hdel
    exact Trade.accept_deletes_only_second E w this tr c hlive hdel
  · intro hexit
    obtain ⟨hb, hj⟩ := hinv tr hlive
    refine ⟨hj hexit, ?_, by simp [Trade.accept, hlive, hexit]⟩
    rcases hb with ⟨a1, a2⟩ | ⟨a1, a2⟩
    · rw [a1, a2]; exact fun e => hne e.symm
    · rw [a1, a2]; exact hne
  · intro c slot amount w' tr' hcall hlive2 hdiff
    exact Trade.addItem_changes_to_run E w w' this tr tr' c slot amount hlive hcall hlive2 hdiff

/-- C25, on a concrete run: character 1 offers and accepts, character 2 then
offers, which returns the session to `TRADE_RUN`, and accepts; the record is the
acceptance of 2 with the two lists as they are when 1 settles. -/
theorem settlement_uses_locked_lists_witness :
    (1 : CharId) ≠ 2 ∧ (∀ k ∈ renegotiation, ∀ c, k.caller = some c → c = 1 ∨ c = 2) ∧
      (Trade.runWith slotsEnv 0 (lockInRecord 0) renegotiation
          (Trade.ctor slotsEnv world0 0 1 2) none).map (fun r => (r.1.trades 0, r.2))
        = some (some { mChar1 := 2, mChar2 := 1, mState := TradeState.TRADE_EXIT,
                       mItems1 := [{ id := 9, slot := 0, amount := 1 }],
                       mItems2 := [{ id := 5, slot := 2, amount := 3 }] },
                some (2, [{ id := 9, slot := 0, amount := 1 }],
                  [{ id := 5, slot := 2, amount := 3 }])) ∧
      ∃ w g, Trade.runWith slotsEnv 0 (lockInRecord 0) renegotiation
          (Trade.ctor slotsEnv world0 0 1 2) none = some (w, g) ∧
        Trade.run slotsEnv 0 renegotiation (Trade.ctor slotsEnv world0 0 1 2) = some w :=
  have hby : ∀ k ∈ renegotiation, ∀ c, k.caller = some c → c = 1 ∨ c = 2 := by
    intro k hk c hc
    simp only [renegotiation, List.mem_cons, List.mem_singleton, List.not_mem_nil,
      or_false] at hk
    rcases hk with rfl | rfl | rfl | rfl | rfl <;>
      (simp only [Call.caller, Option.some.injEq] at hc; subst hc; simp)
  ⟨by decide, hby, by decide,
    (settlement_uses_locked_lists slotsEnv world0 0 1 2 (by decide) renegotiation hby).imp
      (fun _ h => h.imp (fun _ g => ⟨g.1, g.2.1⟩))⟩

/-! ## Ownership of the offers -/

/-- The offer record of a character changes only at an `addItem` call of that
character, and then by one entry at its end. -/
theorem ownerRecord_changes (E : Env L) (this : TradeId) (w w2 : World L) (k : Call L)
    (g : CharId → TradedItems) (x : CharId) (h : ownerRecord E this w w2 k g x ≠ g x) :
    ∃ slot amount, k = Call.addItem x slot amount ∧
      ownerRecord E this w w2 k g x
        = g x ++ [{ id := E.castId (E.getItem (w.possessions x) slot), slot := E.castSlot slot,
                    amount := E.castAmount amount }] := by
  cases k with
  | addItem c slot amount =>
    cases h1 : w.trades this with
    | none => simp [ownerRecord, h1] at h
    | some tr =>
      cases h2 : w2.trades this with
      | none => simp [ownerRecord, h1, h2] at h
      | some tr2 =>
        simp only [ownerRecord, h1, h2] at h ⊢
        split_ifs at h ⊢ with hlen
        · by_cases hx : x = c
          · subst hx
            exact ⟨slot, amount, rfl, by simp⟩
          · simp [hx] at h
        · exact absurd rfl h
  | request c id => exact absurd rfl h
  | accept c => exact absurd rfl h
  | cancel c => exact absurd rfl h
  | setPossessions c l => exact absurd rfl h

/-- Every call keeps the offer record in step with the session: the list paired
with each participant is the record of that participant. -/
theorem ownerRecord_step (E : Env L) (this : TradeId) (c1 c2 : CharId) (hne : c1 ≠ c2)
    (w w2 : World L) (tr : Trade) (k : Call L) (g : CharId → TradedItems)
    (hlive : w.trades this = some tr) (hb : tr.between c1 c2)
    (hj : tr.mItems1 = g tr.mChar1 ∧ tr.mItems2 = g tr.mChar2)
    (hk : ∀ c, k.caller = some c → c = c1 ∨ c = c2)
    (hcall : Trade.call E w this k = some w2) :
    ∀ tr2, w2.trades this = some tr2 → tr2.between c1 c2 ∧
      (tr2.mItems1 = ownerRecord E this w w2 k g tr2.mChar1 ∧
        tr2.mItems2 = ownerRecord E this w w2 k g tr2.mChar2) := by
  intro tr2 hlive2
  have hne2 : tr.mChar1 ≠ tr.mChar2 := by
    rcases hb with ⟨h1, h2⟩ | ⟨h1, h2⟩
    · rw [h1, h2]; exact hne
    · rw [h1, h2]; exact fun e => hne e.symm
  have hne3 : ¬ tr.mChar2 = tr.mChar1 := fun e => hne2 e.symm
  have hk2 : ∀ c, k.caller = some c → c = tr.mChar1 ∨ c = tr.mChar2 := by
    intro c hc
    rcases hb with ⟨h1, h2⟩ | ⟨h1, h2⟩
    · rw [h1, h2]; exact hk c hc
    · rw [h1, h2]; exact (hk c hc).symm
  obtain ⟨w1, h1, hcases⟩ := Trade.call_cases E w this tr k hlive hne2 hk2
  rw [hcall, Option.some.injEq] at h1
  subst h1
  rcases hcases with h | h | ⟨-, h⟩ | ⟨c, slot, amount, rfl, -, hc, -, -, h⟩ |
    ⟨c, rfl, -, hc, h⟩
  · rw [h] at hlive2
    exact absurd hlive2 (by simp)
  · rw [h, Option.some.injEq] at hlive2
    subst hlive2
    have hg : ownerRecord E this w w2 k g = g := by
      cases k <;> simp [ownerRecord, hlive, h]
    rw [hg]
    exact ⟨hb, hj⟩
  · rw [h, Option.some.injEq] at hlive2
    subst hlive2
    have hg : ownerRecord E this w w2 k g = g := by
      cases k <;> simp [ownerRecord, hlive, h]
    rw [hg]
    exact ⟨hb, hj⟩
  · rw [h, Option.some.injEq] at hlive2
    subst hlive2
    refine ⟨hb, ?_⟩
    rcases hc with rfl | rfl
    · simp [ownerRecord, hlive, h, Trade.withEntry, hj.1, hj.2, hne3]
      split_ifs <;> first | omega | simp [hne3, hne2]
    · simp [ownerRecord, hlive, h, Trade.withEntry, hj.1, hj.2, hne3, hne2]
      split_ifs <;> first | omega | simp [hne3, hne2]
  · rw [h, Option.some.injEq] at hlive2
    subst hlive2
    have hg : ownerRecord E this w w2 (Call.accept c) g = g := by
      simp [ownerRecord]
    rw [hg]
    rcases hc with rfl | rfl
    · refine ⟨by simpa [Trade.between, Trade.otherOf] using hb, ?_⟩
      simp [Trade.itemsOf, Trade.otherOf, hj.1, hj.2, hne3]
    · refine ⟨?_, by simp [Trade.itemsOf, Trade.otherOf, hj.1, hj.2, hne3]⟩
      rcases hb with ⟨h1, h2⟩ | ⟨h1, h2⟩
      · exact Or.inr ⟨by simp [h2], by simp [Trade.otherOf, hne3, h1]⟩
      · exact Or.inl ⟨by simp [h2], by simp [Trade.otherOf, hne3, h1]⟩

/-- The ledgers of the two participants after a settlement that succeeds. -/
theorem Trade.settle_ledgers (E : Env L) (w : World L) (this : TradeId) (tr : Trade)
    (hne : tr.mChar1 ≠ tr.mChar2)
    (hok : (performBoth E tr (w.possessions tr.mChar1) (w.possessions tr.mChar2)).1 = true) :
    ∃ w', Trade.settle E w this tr = some w' ∧
      w'.possessions tr.mChar1
        = offersInserted E tr.mItems2 (offersRemoved E tr.mItems1 (w.possessions tr.mChar1)) ∧
      w'.possessions tr.mChar2
        = offersRemoved E tr.mItems2 (offersInserted E tr.mItems1 (w.possessions tr.mChar2)) := by
  obtain ⟨e1, e2⟩ := performBoth_true E tr _ _ hok
  have hne2 : tr.mChar2 ≠ tr.mChar1 := fun h => hne h.symm
  simp only [Trade.settle, Inventory.open, hok]
  simp only [reduceCtorEq, ↓reduceIte, Bool.true_eq_false]
  refine ⟨_, rfl, ?_⟩
  simp only [World.commit, Trade.dtor, World.free, World.setTrading, World.send, e1, e2]
  exact ⟨by simp, by simp [hne2]⟩

/-- C26: offer ownership is kept across role swaps.  Along every sequence of
calls made by the two distinct participants of a new session, a record is kept,
for each character, of the entries recorded by its own `addItem` calls (the
record of a character changes only at an `addItem` call of that character, by
the entry of that call).  The sequence returns, and in the state reached the
list `mItems1` is the record of `mChar1` and `mItems2` the record of `mChar2`.
Hence a settlement that succeeds removes from the ledger of each participant
the entries of its own record and inserts those of the other's record. -/
theorem offers_stay_with_their_offerer (E : Env L) (w0 : World L) (this : TradeId)
    (c1 c2 : CharId) (hne : c1 ≠ c2) (calls : List (Call L))
    (hby : ∀ k ∈ calls, ∀ c, k.caller = some c → c = c1 ∨ c = c2) :
    (∀ (w w2 : World L) k g x, ownerRecord E this w w2 k g x ≠ g x →
      ∃ slot amount, k = Call.addItem x slot amount ∧
        ownerRecord E this w w2 k g x
          = g x ++ [{ id := E.castId (E.getItem (w.possessions x) slot),
                      slot := E.castSlot slot, amount := E.castAmount amount }]) ∧
    ∃ w g, Trade.runWith E this (ownerRecord E this) calls (Trade.ctor E w0 this c1 c2)
          (fun _ => []) = some (w, g) ∧
      Trade.run E this calls (Trade.ctor E w0 this c1 c2) = some w ∧
      ∀ tr, w.trades this = some tr →
        tr.mChar1 ≠ tr.mChar2 ∧ tr.mItems1 = g tr.mChar1 ∧ tr.mItems2 = g tr.mChar2 ∧
        ((performBoth E tr (w.possessions tr.mChar1) (w.possessions tr.mChar2)).1 = true →
          ∃ w', Trade.settle E w this tr = some w' ∧
            w'.possessions tr.mChar1
              = offersInserted E (g tr.mChar2)
                  (offersRemoved E (g tr.mChar1) (w.possessions tr.mChar1)) ∧
            w'.possessions tr.mChar2
              = offersRemoved E (g tr.mChar2)
                  (offersInserted E (g tr.mChar1) (w.possessions tr.mChar2))) := by
  refine ⟨fun w w2 k g x h => ownerRecord_changes E this w w2 k g x h, ?_⟩
  obtain ⟨w, g, h1, h2, hinv⟩ :=
    Trade.runWith_keeps E this c1 c2 hne (ownerRecord E this)
      (fun tr g => tr.mItems1 = g tr.mChar1 ∧ tr.mItems2 = g tr.mChar2)
      (fun w w2 tr k g hlive hb hj hk hcall =>
        ownerRecord_step E this c1 c2 hne w w2 tr k g hlive hb hj hk hcall)
      calls (Trade.ctor E w0 this c1 c2) (fun _ => []) hby
      (by
        intro tr htr
        rw [Trade.ctor_live, Option.some.injEq] at htr
        subst htr
        exact ⟨Or.inl ⟨rfl, rfl⟩, rfl, rfl⟩)
  refine ⟨w, g, h1, h2, fun tr hlive => ?_⟩
  obtain ⟨hb, hj1, hj2⟩ := hinv tr hlive
  have hne2 : tr.mChar1 ≠ tr.mChar2 := by
    rcases hb with ⟨a1, a2⟩ | ⟨a1, a2⟩
    · rw [a1, a2]; exact hne
    · rw [a1, a2]; exact fun e => hne e.symm
  refine ⟨hne2, hj1, hj2, fun hok => ?_⟩
  rw [← hj1, ← hj2]
  exact Trade.settle_ledgers E w this tr hne2 hok

/-- C26, on a concrete run: character 1 offers item 5 and accepts, character 2
offers item 9 and accepts, so that 2 is now the first participant; the first
list is the record of 2 and the second the record of 1. -/
theorem offers_stay_with_their_offerer_witness :
    (1 : CharId) ≠ 2 ∧ (∀ k ∈ renegotiation, ∀ c, k.caller = some c → c = 1 ∨ c = 2) ∧
      (Trade.runWith slotsEnv 0 (ownerRecord slotsEnv 0) renegotiation
          (Trade.ctor slotsEnv world0 0 1 2) (fun _ => [])).map
            (fun r => (r.1.trades 0, r.2 1, r.2 2))
        = some (some { mChar1 := 2, mChar2 := 1, mState := TradeState.TRADE_EXIT,
                       mItems1 := [{ id := 9, slot := 0, amount := 1 }],
                       mItems2 := [{ id := 5, slot := 2, amount := 3 }] },
                [{ id := 5, slot := 2, amount := 3 }], [{ id := 9, slot := 0, amount := 1 }]) ∧
      ∃ w g, Trade.runWith slotsEnv 0 (ownerRecord slotsEnv 0) renegotiation
          (Trade.ctor slotsEnv world0 0 1 2) (fun _ => []) = some (w, g) ∧
        Trade.run slotsEnv 0 renegotiation (Trade.ctor slotsEnv world0 0 1 2) = some w ∧
        ∀ tr, w.trades 0 = some tr →
          tr.mChar1 ≠ tr.mChar2 ∧ tr.mItems1 = g tr.mChar1 ∧ tr.mItems2 = g tr.mChar2 :=
  have hby : ∀ k ∈ renegotiation, ∀ c, k.caller = some c → c = 1 ∨ c = 2 := by
    intro k hk c hc
    simp only [renegotiation, List.mem_cons, List.mem_singleton, List.not_mem_nil,
      or_false] at hk
    rcases hk with rfl | rfl | rfl | rfl | rfl <;>
      (simp only [Call.caller, Option.some.injEq] at hc; subst hc; simp)
  ⟨by decide, hby, by decide,
    (offers_stay_with_their_offerer slotsEnv world0 0 1 2 (by decide) renegotiation hby).2.imp
      (fun _ h => h.imp (fun _ g =>
        ⟨g.1, g.2.1, fun tr ht => ⟨(g.2.2 tr ht).1, (g.2.2 tr ht).2.1, (g.2.2 tr ht).2.2.1⟩⟩))⟩

/-! ## Item ids of the recorded entries -/

/-- An `addItem` that changes the session has pushed on the caller's list the
entry initialised from the item id in the caller's slot, which is not 0. -/
theorem Trade.addItem_changes_entry (E : Env L) (w w2 : World L) (this : TradeId)
    (tr tr2 : Trade) (c : CharId) (slot amount : Int) (hlive : w.trades this = some tr)
    (hcall : Trade.addItem E w this c slot amount = some w2)
    (hlive2 : w2.trades this = some tr2) (hdiff : tr2 ≠ tr) :
    E.getItem (w.possessions c) slot ≠ 0 ∧
      tr2 = tr.withEntry c
        { id := E.castId (E.getItem (w.possessions c) slot), slot := E.castSlot slot,
          amount := E.castAmount amount } := by
  by_cases hinit : tr.mState = TradeState.TRADE_INIT
  · simp only [Trade.addItem, hlive, hinit, if_true, Option.some.injEq] at hcall
    subst hcall
    rw [hlive, Option.some.injEq] at hlive2
    exact absurd hlive2.symm hdiff
  · by_cases hc : c = tr.mChar1 ∨ c = tr.mChar2
    · by_cases hrec : (tr.itemsOf c).length < 50 ∧ E.getItem (w.possessions c) slot ≠ 0
      · obtain ⟨w1, h1, -, -, ht, -⟩ :=
          Trade.addItem_recorded E w this tr c slot amount hlive hinit hc hrec.1 hrec.2
        rw [h1, Option.some.injEq] at hcall
        subst hcall
        rw [ht] at hlive2
        simp only [if_true, Option.some.injEq] at hlive2
        exact ⟨hrec.2, hlive2.symm⟩
      · rw [Trade.addItem_dropped E w this tr c slot amount hlive hinit hc hrec,
          Option.some.injEq] at hcall
        subst hcall
        rw [hlive, Option.some.injEq] at hlive2
        exact absurd hlive2.symm hdiff
    · have hc2 : c ≠ tr.mChar1 ∧ c ≠ tr.mChar2 :=
        ⟨fun e => hc (Or.inl e), fun e => hc (Or.inr e)⟩
      simp [Trade.addItem, hlive, hinit, hc2] at hcall

/-- Every call keeps the item ids of the recorded entries away from 0, when the
id field of an entry holds every item id a ledger returns. -/
theorem nonzero_ids_step (E : Env L)
    (hfit : ∀ l slot, E.castId (E.getItem l slot) = E.getItem l slot)
    (this : TradeId) (c1 c2 : CharId) (hne : c1 ≠ c2)
    (w w2 : World L) (tr : Trade) (k : Call L)
    (hlive : w.trades this = some tr) (hb : tr.between c1 c2)
    (hj : ∀ i ∈ tr.mItems1 ++ tr.mItems2, i.id ≠ 0)
    (hk : ∀ c, k.caller = some c → c = c1 ∨ c = c2)
    (hcall : Trade.call E w this k = some w2) :
    ∀ tr2, w2.trades this = some tr2 → tr2.between c1 c2 ∧
      ∀ i ∈ tr2.mItems1 ++ tr2.mItems2, i.id ≠ 0 := by
  intro tr2 hlive2
  have hne2 : tr.mChar1 ≠ tr.mChar2 := by
    rcases hb with ⟨h1, h2⟩ | ⟨h1, h2⟩
    · rw [h1, h2]; exact hne
    · rw [h1, h2]; exact fun e => hne e.symm
  have hne3 : ¬ tr.mChar2 = tr.mChar1 := fun e => hne2 e.symm
  have hk2 : ∀ c, k.caller = some c → c = tr.mChar1 ∨ c = tr.mChar2 := by
    intro c hc
    rcases hb with ⟨h1, h2⟩ | ⟨h1, h2⟩
    · rw [h1, h2]; exact hk c hc
    · rw [h1, h2]; exact (hk c hc).symm
  obtain ⟨w1, h1, hcases⟩ := Trade.call_cases E w this tr k hlive hne2 hk2
  rw [hcall, Option.some.injEq] at h1
  subst h1
  simp only [List.mem_append] at hj ⊢
  rcases hcases with h | h | ⟨-, h⟩ | ⟨c, slot, amount, rfl, -, hc, -, hid, h⟩ |
    ⟨c, rfl, -, hc, h⟩
  · rw [h] at hlive2
    exact absurd hlive2 (by simp)
  · rw [h, Option.some.injEq] at hlive2
    subst hlive2
    exact ⟨hb, hj⟩
  · rw [h, Option.some.injEq] at hlive2
    subst hlive2
    exact ⟨hb, hj⟩
  · rw [h, Option.some.injEq] at hlive2
    subst hlive2
    refine ⟨hb, fun i hi => ?_⟩
    have hnew : E.castId (E.getItem (w.possessions c) slot) ≠ 0 := by
      rw [hfit]
      exact hid
    simp only [Trade.withEntry] at hi
    split_ifs at hi
    · simp only [List.mem_append, List.mem_singleton] at hi
      rcases hi with (hi | hi) | hi
      · exact hj i (Or.inl hi)
      · rw [hi]; exact hnew
      · exact hj i (Or.inr hi)
    · simp only [List.mem_append, List.mem_singleton] at hi
      rcases hi with hi | hi | hi
      · exact hj i (Or.inl hi)
      · exact hj i (Or.inr hi)
      · rw [hi]; exact hnew
  · rw [h, Option.some.injEq] at hlive2
    subst hlive2
    rcases hc with rfl | rfl
    · refine ⟨by simpa [Trade.between, Trade.otherOf] using hb, fun i hi => ?_⟩
      simp only [Trade.itemsOf, Trade.otherOf, if_true, hne3, if_false] at hi
      exact hj i hi
    · refine ⟨?_, fun i hi => ?_⟩
      · rcases hb with ⟨h1, h2⟩ | ⟨h1, h2⟩
        · exact Or.inr ⟨by simp [h2], by simp [Trade.otherOf, hne3, h1]⟩
        · exact Or.inl ⟨by simp [h2], by simp [Trade.otherOf, hne3, h1]⟩
      · simp only [Trade.itemsOf, Trade.otherOf, if_true, hne3, if_false] at hi
        exact hj i hi.symm

/-- C27: the item ids of the recorded entries.  Provided the id field of an
offer entry holds every item id a ledger returns, along every sequence of calls
made by the two distinct participants of a new session the sequence returns, and
in the state reached every entry of both lists has an item id other than 0; an
`addItem` that changes the session there has pushed an entry whose id is the
item id the caller's slot holds at that moment, which is not 0; and
`performTrade` on a list that starts with an entry of the session returns false
at once, with both ledgers as they are, when the slot of that entry is empty
(item id 0). -/
theorem recorded_ids_are_nonzero (E : Env L)
    (hfit : ∀ l slot, E.castId (E.getItem l slot) = E.getItem l slot)
    (w0 : World L) (this : TradeId) (c1 c2 : CharId) (hne : c1 ≠ c2) (calls : List (Call L))
    (hby : ∀ k ∈ calls, ∀ c, k.caller = some c → c = c1 ∨ c = c2) :
    ∃ w, Trade.run E this calls (Trade.ctor E w0 this c1 c2) = some w ∧
      ∀ tr, w.trades this = some tr →
        (∀ i ∈ tr.mItems1 ++ tr.mItems2, i.id ≠ 0) ∧
        (∀ c slot amount w' tr', Trade.addItem E w this c slot amount = some w' →
          w'.trades this = some tr' → tr' ≠ tr →
          E.getItem (w.possessions c) slot ≠ 0 ∧
            tr' = tr.withEntry c
              { id := E.getItem (w.possessions c) slot, slot := E.castSlot slot,
                amount := E.castAmount amount }) ∧
        (∀ i ∈ tr.mItems1 ++ tr.mItems2, ∀ rest inv1 inv2, E.getItem inv1 i.slot = 0 →
          performTrade E (i :: rest) inv1 inv2 = (false, inv1, inv2)) := by
  obtain ⟨w, -, -, h2, hinv⟩ :=
    Trade.runWith_keeps E this c1 c2 hne (fun _ _ _ (g : Unit) => g)
      (fun tr _ => ∀ i ∈ tr.mItems1 ++ tr.mItems2, i.id ≠ 0)
      (fun w w2 tr k _ hlive hb hj hk hcall =>
        nonzero_ids_step E hfit this c1 c2 hne w w2 tr k hlive hb hj hk hcall)
      calls (Trade.ctor E w0 this c1 c2) () hby
      (by
        intro tr htr
        rw [Trade.ctor_live, Option.some.injEq] at htr
        subst htr
        exact ⟨Or.inl ⟨rfl, rfl⟩, fun i hi => by simp at hi⟩)
  refine ⟨w, h2, fun tr hlive => ⟨(hinv tr hlive).2, ?_, ?_⟩⟩
  · intro c slot amount w' tr' hcall hlive2 hdiff
    have h := Trade.addItem_changes_entry E w w' this tr tr' c slot amount hlive hcall hlive2 hdiff
    rw [hfit] at h
    exact h
  · intro i hi rest inv1 inv2 hempty
    have hid : i.id ≠ E.getItem inv1 i.slot := by
      rw [hempty]
      exact (hinv tr hlive).2 i hi
    simp [performTrade, hid]

/-- C27, on a concrete run: after the offers of item 5 by character 1 and of
item 9 by character 2 both recorded ids are those of the slots, and the entry of
item 9 fails the id check on a ledger whose slot 0 is empty. -/
theorem recorded_ids_are_nonzero_witness :
    (∀ (l : Slots) (slot : Int), slotsEnv.castId (slotsEnv.getItem l slot) = slotsEnv.getItem l slot) ∧
      (1 : CharId) ≠ 2 ∧ (∀ k ∈ renegotiation, ∀ c, k.caller = some c → c = 1 ∨ c = 2) ∧
      (Trade.run slotsEnv 0 renegotiation (Trade.ctor slotsEnv world0 0 1 2)).map
          (fun w => w.trades 0)
        = some (some { mChar1 := 2, mChar2 := 1, mState := TradeState.TRADE_EXIT,
                       mItems1 := [{ id := 9, slot := 0, amount := 1 }],
                       mItems2 := [{ id := 5, slot := 2, amount := 3 }] }) ∧
      performTrade slotsEnv [{ id := 9, slot := 0, amount := 1 }] [(0, 0), (0, 0)] []
        = (false, [(0, 0), (0, 0)], []) ∧
      ∃ w, Trade.run slotsEnv 0 renegotiation (Trade.ctor slotsEnv world0 0 1 2) = some w ∧
        ∀ tr, w.trades 0 = some tr → ∀ i ∈ tr.mItems1 ++ tr.mItems2, i.id ≠ 0 :=
  have hby : ∀ k ∈ renegotiation, ∀ c, k.caller = some c → c = 1 ∨ c = 2 := by
    intro k hk c hc
    simp only [renegotiation, List.mem_cons, List.mem_singleton, List.not_mem_nil,
      or_false] at hk
    rcases hk with rfl | rfl | rfl | rfl | rfl <;>
      (simp only [Call.caller, Option.some.injEq] at hc; subst hc; simp)
  ⟨fun _ _ => rfl, by decide, hby, by decide, by decide,
    (recorded_ids_are_nonzero slotsEnv (fun _ _ => rfl) world0 0 1 2 (by decide)
      renegotiation hby).imp (fun _ h => ⟨h.1, fun tr ht => (h.2 tr ht).1⟩)⟩

/-! ## Offers that name an empty slot -/

/-- C28: an offer naming an empty slot is dropped without effect.  For a live
session in `TRADE_RUN` or `TRADE_EXIT`, `addItem(c, slot, amount)` by a
participant whose slot holds no item (item id 0) returns and leaves the world
as it was: both offer lists, the state (a session in `TRADE_EXIT` stays in
`TRADE_EXIT`), the ledgers and the messages sent are unchanged. -/
theorem addItem_empty_slot_is_dropped (E : Env L) (w : World L) (this : TradeId) (tr : Trade)
    (c : CharId) (slot amount : Int) (hlive : w.trades this = some tr)
    (hstate : tr.mState = TradeState.TRADE_RUN ∨ tr.mState = TradeState.TRADE_EXIT)
    (hc : c = tr.mChar1 ∨ c = tr.mChar2) (hempty : E.getItem (w.possessions c) slot = 0) :
    ∃ w', Trade.addItem E w this c slot amount = some w' ∧ w' = w ∧
      w'.trades this = some tr ∧ w'.sent = w.sent := by
  have hstate2 : tr.mState ≠ TradeState.TRADE_INIT := by
    rcases hstate with h | h <;> (rw [h]; decide)
  have h := Trade.addItem_dropped E w this tr c slot amount hlive hstate2 hc
    (fun hrec => hrec.2 hempty)
  exact ⟨w, h, rfl, hlive, rfl⟩

/-- C28, on a session in `TRADE_EXIT`: character 2 offers from its slot 1, which
is empty; the session is still the one accepted by character 1 and no message
has been added. -/
theorem addItem_empty_slot_is_dropped_witness :
    worldReady.trades 0 = some sessionReady ∧
      (sessionReady.mState = TradeState.TRADE_RUN ∨
        sessionReady.mState = TradeState.TRADE_EXIT) ∧
      ((2 : CharId) = sessionReady.mChar1 ∨ (2 : CharId) = sessionReady.mChar2) ∧
      slotsEnv.getItem (worldReady.possessions 2) 1 = 0 ∧
      ∃ w', Trade.addItem slotsEnv worldReady 0 2 1 4 = some w' ∧ w' = worldReady ∧
        w'.trades 0 = some sessionReady ∧ w'.sent = worldReady.sent :=
  ⟨by decide, by decide, by decide, by decide,
    addItem_empty_slot_is_dropped slotsEnv worldReady 0 sessionReady 2 1 4
      (by decide) (by decide) (by decide) (by decide)⟩

/-! ## The initial state -/

/-- A session that is in `TRADE_INIT` after a call is the session as it was
before the call: no call produces a session in `TRADE_INIT`. -/
theorem Trade.call_init_same (E : Env L) (w w2 : World L) (this : TradeId) (k : Call L)
    (tr2 : Trade) (hcall : Trade.call E w this k = some w2)
    (hlive2 : w2.trades this = some tr2) (hinit2 : tr2.mState = TradeState.TRADE_INIT) :
    w.trades this = some tr2 := by
  cases hw : w.trades this with
  | none =>
    obtain ⟨w1, h1, hd⟩ := Trade.call_dead E w this k hw
    rw [hcall, Option.some.injEq] at h1
    subst h1
    rw [hd] at hlive2
    exact absurd hlive2 (by simp)
  | some tr =>
    cases k with
    | setPossessions c l =>
      simp only [Trade.call, Option.some.injEq] at hcall
      subst hcall
      simpa [World.commit, hw] using hlive2
    | cancel c =>
      obtain ⟨w1, hc, -, ht, -, -⟩ := Trade.cancel_eq w this tr c hw
      simp only [Trade.call, hw, hc, Option.some.injEq] at hcall
      subst hcall
      simp [ht] at hlive2
    | request c id =>
      by_cases hbad : tr.mState ≠ TradeState.TRADE_INIT ∨ c ≠ tr.mChar2 ∨
          E.getPublicID tr.mChar1 ≠ id
      · obtain ⟨w1, hc, -, ht, -, -⟩ := Trade.cancel_eq w this tr (some c) hw
        simp only [Trade.call, hw, Trade.request, hbad, if_true, hc, Option.map,
          Option.some.injEq] at hcall
        subst hcall
        simp [ht] at hlive2
      · simp only [Trade.call, hw, Trade.request, hbad, if_false, Option.map,
          Option.some.injEq] at hcall
        subst hcall
        simp only [World.send, World.store, if_true, Option.some.injEq] at hlive2
        rw [← hlive2] at hinit2
        exact absurd hinit2 (by simp)
    | accept c =>
      have hcall2 : Trade.accept E w this c = some w2 := by
        simpa only [Trade.call, hw] using hcall
      by_cases hrun : tr.mState = TradeState.TRADE_RUN
      · simp only [Trade.accept, hw, hrun, if_true] at hcall2
        split_ifs at hcall2 <;>
          (simp only [Option.some.injEq] at hcall2
           subst hcall2
           simp only [World.send, World.store, if_true, Option.some.injEq] at hlive2
           rw [← hlive2] at hinit2
           exact absurd hinit2 (by simp))
      · by_cases hset : tr.mState ≠ TradeState.TRADE_EXIT ∨ c ≠ tr.mChar2
        · simp only [Trade.accept, hw, hrun, if_false, hset, if_true,
            Option.some.injEq] at hcall2
          subst hcall2
          rw [← hw, hlive2]
        · obtain ⟨w1, hs, hd⟩ := Trade.settle_deletes E w this tr hw
          simp only [Trade.accept, hw, hrun, if_false, hset, hs, Option.some.injEq] at hcall2
          subst hcall2
          rw [hd] at hlive2
          exact absurd hlive2 (by simp)
    | addItem c slot amount =>
      have hcall2 : Trade.addItem E w this c slot amount = some w2 := by
        simpa only [Trade.call, hw] using hcall
      by_cases hsame : tr2 = tr
      · rw [hsame]
      · have hrun := Trade.addItem_changes_to_run E w w2 this tr tr2 c slot amount hw hcall2
          hlive2 hsame
        rw [hrun] at hinit2
        exact absurd hinit2 (by decide)

/-- A property of the sessions in `TRADE_INIT` that holds before a sequence of
calls holds after it. -/
theorem Trade.run_keeps_init (E : Env L) (this : TradeId) (P : Trade → Prop) :
    ∀ (calls : List (Call L)) (w w2 : World L),
      (∀ tr, w.trades this = some tr → tr.mState = TradeState.TRADE_INIT → P tr) →
      Trade.run E this calls w = some w2 →
      ∀ tr, w2.trades this = some tr → tr.mState = TradeState.TRADE_INIT → P tr := by
  intro calls
  induction calls with
  | nil =>
    intro w w2 hinv hrun
    simp only [Trade.run, Option.some.injEq] at hrun
    subst hrun
    exact hinv
  | cons k ks ih =>
    intro w w2 hinv hrun
    cases hcall : Trade.call E w this k with
    | none => simp [Trade.run, hcall] at hrun
    | some w1 =>
      simp only [Trade.run, hcall, Option.some_bind] at hrun
      refine ih w1 w2 (fun tr hlive hinit => ?_) hrun
      exact hinv tr (Trade.call_init_same E w w1 this k tr hcall hlive hinit) hinit

/-- C29: `TRADE_INIT` is initial only.  In every state reached from a new
session between `c1` and `c2` by a sequence of calls, a session in `TRADE_INIT`
is exactly the session the constructor made: both lists are empty and the first
participant is the initiator `c1`, so that `request(c, id)` starts the trade
there exactly when `c` is `c2` and `id` is the public id of `c1`.  And no call
on a session in `TRADE_RUN` or `TRADE_EXIT` leaves it in `TRADE_INIT`. -/
theorem init_is_initial_only (E : Env L) (w0 : World L) (this : TradeId) (c1 c2 : CharId)
    (calls : List (Call L)) (w : World L) (tr : Trade)
    (hrun : Trade.run E this calls (Trade.ctor E w0 this c1 c2) = some w)
    (hlive : w.trades this = some tr) (hinit : tr.mState = TradeState.TRADE_INIT) :
    tr = { mChar1 := c1, mChar2 := c2, mState := TradeState.TRADE_INIT,
           mItems1 := [], mItems2 := [] } ∧
      (∀ c id, (∃ w', Trade.request E w this c id = some (true, w')) ↔
        (c = c2 ∧ E.getPublicID c1 = id)) ∧
      (∀ (v v2 : World L) (s s2 : Trade) (k : Call L), v.trades this = some s →
        (s.mState = TradeState.TRADE_RUN ∨ s.mState = TradeState.TRADE_EXIT) →
        Trade.call E v this k = some v2 → v2.trades this = some s2 →
        s2.mState ≠ TradeState.TRADE_INIT) := by
  have htr : tr = { mChar1 := c1, mChar2 := c2, mState := TradeState.TRADE_INIT,
                    mItems1 := [], mItems2 := [] } :=
    Trade.run_keeps_init E this
      (fun tr => tr = { mChar1 := c1, mChar2 := c2, mState := TradeState.TRADE_INIT,
                        mItems1 := [], mItems2 := [] })
      calls (Trade.ctor E w0 this c1 c2) w
      (by
        intro tr0 h0 _
        rw [Trade.ctor_live, Option.some.injEq] at h0
        exact h0.symm)
      hrun tr hlive hinit
  refine ⟨htr, ?_, ?_⟩
  · intro c id
    subst htr
    obtain ⟨w1, hc, -⟩ := Trade.cancel_eq w this _ (some c) hlive
    by_cases hbad : c ≠ c2 ∨ E.getPublicID c1 ≠ id
    · have hno : ¬ (c = c2 ∧ E.getPublicID c1 = id) := by
        rintro ⟨a, b⟩
        rcases hbad with h | h
        · exact h a
        · exact h b
      simp [Trade.request, hlive, hbad, hc, hno]
    · have hyes : c = c2 ∧ E.getPublicID c1 = id := by
        constructor
        · by_contra h
          exact hbad (Or.inl h)
        · by_contra h
          exact hbad (Or.inr h)
      simp [Trade.request, hlive, hyes.1, hyes.2]
  · intro v v2 s s2 k hs hstate hcall hs2 hinit2
    have hsame := Trade.call_init_same E v v2 this k s2 hcall hs2 hinit2
    rw [hs, Option.some.injEq] at hsame
    rw [hsame, hinit2] at hstate
    rcases hstate with h | h <;> exact absurd h (by decide)

/-- C29, on a concrete run: an offer and an acceptance made before the
acknowledgement leave the new session between characters 1 and 2 as the
constructor made it. -/
theorem init_is_initial_only_witness :
    ((Trade.run slotsEnv 0 [Call.addItem 1 2 3, Call.accept 2]
          (Trade.ctor slotsEnv world0 0 1 2)).map (fun w => w.trades 0)
        = some (some { mChar1 := 1, mChar2 := 2, mState := TradeState.TRADE_INIT,
                       mItems1 := [], mItems2 := [] })) ∧
      ((∃ w', Trade.request slotsEnv (Trade.ctor slotsEnv world0 0 1 2) 0 2 1 = some (true, w')) ↔
        ((2 : CharId) = 2 ∧ slotsEnv.getPublicID 1 = 1)) :=
  ⟨by decide,
    (init_is_initial_only slotsEnv world0 0 1 2 [Call.addItem 1 2 3, Call.accept 2]
      (Trade.ctor slotsEnv world0 0 1 2)
      { mChar1 := 1, mChar2 := 2, mState := TradeState.TRADE_INIT, mItems1 := [], mItems2 := [] }
      rfl (by decide) (by decide)).2.1 2 1⟩

/-! ## The command handler -/

/-- The call `find` returns `npos` exactly when the character is not in the
string. -/
theorem strFind_none (s : List Char) (ch : Char) : strFind s ch = none ↔ ch ∉ s := by
  induction s with
  | nil => simp [strFind]
  | cons x xs ih =>
    by_cases hx : x = ch
    · simp [strFind, hx]
    · have hx2 : ¬ ch = x := fun e => hx e.symm
      simp [strFind, hx, hx2, ih]

/-- The index `find` returns is that of the first occurrence: the string is the
characters before it, none of which is the character, the character, and the
characters after it. -/
theorem strFind_some (s : List Char) (ch : Char) (p : Nat) (h : strFind s ch = some p) :
    p < s.length ∧ s.take p ++ ch :: s.drop (p + 1) = s ∧ ch ∉ s.take p := by
  induction s generalizing p with
  | nil => simp [strFind] at h
  | cons x xs ih =>
    by_cases hx : x = ch
    · simp only [strFind, hx, if_true, Option.some.injEq] at h
      subst h
      simp [hx]
    · have hx2 : ¬ ch = x := fun e => hx e.symm
      simp only [strFind, hx, if_false, Option.map_eq_some'] at h
      obtain ⟨q, hq, rfl⟩ := h
      obtain ⟨h1, h2, h3⟩ := ih q hq
      refine ⟨by simp [h1], ?_, ?_⟩
      · simp only [List.take_succ_cons, List.drop_succ_cons, List.cons_append, h2]
      · simp [hx2, h3]

/-- C30: `getArgument` splits at the first space.  For every string, the call
returns; if the string contains a space, the result followed by a space and by
the new value of `args` is the string, so that the result is what stands before
the first space and `args` becomes what stands after it; if the string contains
no space the result is the string and `args` becomes empty; the result never
contains a space, and the new `args` is strictly shorter than the string
whenever the string is not empty. -/
theorem getArgument_splits_at_first_space (s : List Char) :
    ∃ result rest, getArgument s = some (result, rest) ∧
      (space ∈ s → result ++ [space] ++ rest = s) ∧
      (space ∉ s → result = s ∧ rest = []) ∧
      space ∉ result ∧
      (s ≠ [] → rest.length < s.length) := by
  cases hf : strFind s space with
  | none =>
    have hno : space ∉ s := (strFind_none s space).mp hf
    refine ⟨s, [], by simp [getArgument, hf, strSubstr], fun h => absurd h hno,
      fun _ => ⟨rfl, rfl⟩, hno, fun h => ?_⟩
    exact List.length_pos.mpr h
  | some p =>
    obtain ⟨h1, h2, h3⟩ := strFind_some s space p hf
    have hin : space ∈ s := by
      rw [← h2]
      simp
    have hle : ¬ p + 1 > s.length := by omega
    refine ⟨s.take p, s.drop (p + 1), by simp [getArgument, hf, strSubstr, hle],
      fun _ => by simpa using h2, fun h => absurd hin h, h3, fun _ => ?_⟩
    simp only [List.length_drop]
    omega

/-- C30, on the arguments of a warp command and on a last argument. -/
theorem getArgument_splits_at_first_space_witness :
    getArgument "bob 1 2".toList = some ("bob".toList, "1 2".toList) ∧
      getArgument "bob".toList = some ("bob".toList, []) ∧
      ∃ result rest, getArgument "bob 1 2".toList = some (result, rest) ∧
        (space ∈ "bob 1 2".toList → result ++ [space] ++ rest = "bob 1 2".toList) :=
  ⟨by decide, by decide,
    (getArgument_splits_at_first_space "bob 1 2".toList).imp
      (fun _ h => h.imp (fun _ g => ⟨g.1, g.2.1⟩))⟩

/-- The construction of the locals `type` and `args` of `handleCommand` throws
for the empty command only. -/
theorem commandType_some (command : List Char) (hne : command ≠ []) :
    ∃ type args, commandType command = some type ∧ commandArgs command = some args := by
  have hlen : ¬ 1 > command.length := by
    have := List.length_pos.mpr hne
    omega
  have hargs : ∃ args, commandArgs command = some args := by
    cases hf : strFind command space with
    | none => simp [commandArgs, hf, strSubstr]
    | some p =>
      obtain ⟨h1, -, -⟩ := strFind_some command space p hf
      have hle : ¬ p + 1 > command.length := by omega
      simp [commandArgs, hf, strSubstr, hle]
  have htype : ∃ type, commandType command = some type := by
    cases hf : strFind command space with
    | none => simp [commandType, hf, strSubstr, hlen]
    | some p =>
      cases p with
      | zero => simp [commandType, hf, strSubstr, hlen]
      | succ q => simp [commandType, hf, strSubstr, hlen]
  obtain ⟨type, ht⟩ := htype
  obtain ⟨args, ha⟩ := hargs
  exact ⟨type, args, ht, ha⟩

/-- On the name of a command the chain of tests takes the branch of that
command: its handler, under the permission the help lists it under. -/
theorem dispatch_command (AL : AccountLevels) (level : Nat) (h : Handler) (args : List Char) :
    dispatch AL level h.command args
      = permitted level (h.listedUnder AL) h (h.passed args) := by
  cases h <;> rfl

/-- On a type that is no command name the chain of tests reaches its last
branch. -/
theorem dispatch_unknown (AL : AccountLevels) (level : Nat) (type args : List Char)
    (hall : ∀ h : Handler, type ≠ h.command) :
    dispatch AL level type args = [Effect.say "command not found"] := by
  have e1 := hall Handler.handleHelp
  have e2 := hall Handler.handleWarp
  have e3 := hall Handler.handleItem
  have e4 := hall Handler.handleDrop
  have e5 := hall Handler.handleMoney
  have e6 := hall Handler.handleSpawn
  have e7 := hall Handler.handleGoto
  have e8 := hall Handler.handleRecall
  have e9 := hall Handler.handleReload
  have e10 := hall Handler.handleBan
  have e11 := hall Handler.handleSetGroup
  have e12 := hall Handler.handleAttribute
  have e13 := hall Handler.handleReport
  simp only [Handler.command] at e1 e2 e3 e4 e5 e6 e7 e8 e9 e10 e11 e12 e13
  simp only [dispatch, e1, e2, e3, e4, e5, e6, e7, e8, e9, e10, e11, e12, e13, if_false]

/-- The names of the commands of two different handlers differ. -/
theorem Handler.command_injective (h k : Handler) (e : h.command = k.command) : h = k := by
  cases h <;> cases k <;> first | rfl | exact absurd e (by decide)

/-- The help text shows the line of a command exactly to the account levels
that have a bit of the permission it is listed under. -/
theorem handleHelp_lists (AL : AccountLevels) (level : Nat) (h : Handler) :
    Effect.say h.helpLine ∈ handleHelp AL level [] ↔ (level &&& h.listedUnder AL) ≠ 0 := by
  cases h <;> simp [handleHelp, Handler.helpLine, Handler.listedUnder]

/-- C24: the permission gating matches the advertised help.  For every account
level and every command that is not the empty string, `handleCommand` returns.
When the command type is the name of a command, the handler of that command is
called, with the arguments, if the account level has a bit of the permission
under which the help lists the command, and otherwise the only effect is the
message "Invalid permissions"; a handler is called in no other case; a type
that is no command name only yields "command not found".  The help text of
`handleHelp` shows the line of a command exactly to the account levels that
have a bit of that permission. -/
theorem gating_matches_help (AL : AccountLevels) (level : Nat) (command : List Char)
    (hne : command ≠ []) :
    ∃ type args effs, commandType command = some type ∧ commandArgs command = some args ∧
      handleCommand AL level command = some effs ∧
      (∀ h : Handler, type = h.command →
        ((level &&& h.listedUnder AL) ≠ 0 → effs = [Effect.call h (h.passed args)]) ∧
        ((level &&& h.listedUnder AL) = 0 → effs = [Effect.say "Invalid permissions"])) ∧
      (∀ (h : Handler) (a : Option (List Char)), Effect.call h a ∈ effs →
        type = h.command ∧ (level &&& h.listedUnder AL) ≠ 0) ∧
      ((∀ h : Handler, type ≠ h.command) → effs = [Effect.say "command not found"]) ∧
      (∀ h : Handler,
        Effect.say h.helpLine ∈ handleHelp AL level [] ↔ (level &&& h.listedUnder AL) ≠ 0) := by
  obtain ⟨type, args, ht, ha⟩ := commandType_some command hne
  refine ⟨type, args, dispatch AL level type args, ht, ha, ?_, ?_, ?_, ?_,
    fun h => handleHelp_lists AL level h⟩
  · simp only [handleCommand, ht, ha, Option.some_bind, Option.map_some']
  · intro h hh
    rw [hh, dispatch_command]
    constructor
    · intro hp
      simp [permitted, handlePermissions, hp]
    · intro hp
      simp [permitted, handlePermissions, hp]
  · intro h a hmem
    by_cases hex : ∃ k : Handler, type = k.command
    · obtain ⟨k, hk⟩ := hex
      rw [hk, dispatch_command] at hmem
      by_cases hp : (level &&& k.listedUnder AL) ≠ 0
      · have hp2 : ¬ (level &&& k.listedUnder AL) = 0 := hp
        simp [permitted, handlePermissions, hp2] at hmem
        obtain ⟨rfl, -⟩ := hmem
        exact ⟨hk, hp⟩
      · simp [permitted, handlePermissions, hp] at hmem
    · have hall : ∀ k : Handler, type ≠ k.command := fun k e => hex ⟨k, e⟩
      rw [dispatch_unknown AL level type args hall] at hmem
      simp at hmem
  · intro hall
    exact dispatch_unknown AL level type args hall

/-- C24, on a warp command: a player whose account level has the bit of
`AL_PLAYER` only is told "Invalid permissions", one whose level has the bit of
`AL_TESTER` has `handleWarp` called with the arguments. -/
theorem gating_matches_help_witness :
    "@warp bob 1 2 3".toList ≠ [] ∧
      handleCommand bitLevels 1 "@warp bob 1 2 3".toList
        = some [Effect.say "Invalid permissions"] ∧
      handleCommand bitLevels 2 "@warp bob 1 2 3".toList
        = some [Effect.call Handler.handleWarp (some "bob 1 2 3".toList)] ∧
      handleCommand bitLevels 31 "@dance".toList = some [Effect.say "command not found"] ∧
      ∃ type args effs, commandType "@warp bob 1 2 3".toList = some type ∧
        commandArgs "@warp bob 1 2 3".toList = some args ∧
        handleCommand bitLevels 2 "@warp bob 1 2 3".toList = some effs :=
  ⟨by decide, by decide, by decide, by decide,
    (gating_matches_help bitLevels 2 "@warp bob 1 2 3".toList (by decide)).imp
      (fun _ h => h.imp (fun _ g => g.imp (fun _ k => ⟨k.1, k.2.1, k.2.2.1⟩)))⟩

end Manaserv
